import Mathlib

/-! NFSv4 transactional-compound client: path resolver, TC batch planner, executor

A shallow embedding of `tc_client/nfs4/handle.c`: the status translation
`nfsstat4_to_fsal`, the path resolver `construct_lookup`, the batch planner
`do_ktcread` / `ktcread` / `do_ktcwrite` / `ktcwrite`, the stepwise resolver
`fs_lookup_impl` / `fs_lookup_path`, the single operations `fs_read` and `fs_create`
(with `fs_open_confirm` and `fs_do_close`), the handle digest (`fs_handle_digest`,
`fs_extract_handle`, `fs_create_handle`), the RPC executor (`fs_process_reply`,
`fs_compoundv4_call`, `fs_compoundv4_execute`), the state the callers share with the
receiving thread (the XID counter, the contexts, the list `rpc_calls`), the receiving
side (`fs_new_socket_ready`, `fs_connect`, `fs_rpc_read_reply`, `fs_got_rpc_reply`) and
the record `fs_compoundv4_call` sends, both at the level of bytes, and the client id
(`fs_setclientid`, `fs_clientid_renewer`).

Conventions of the embedding.

* A C string is the list of its characters before the terminating NUL; the
  pointer `path + k` is `path.drop k`.
* `argoparray[0 .. opcnt)` is a list of operations and `opcnt` is its length; the
  `COMPOUNDV4_ARG_ADD_OP_*` macros (header not part of the sources) append one
  operation.
* The RPC executor `fs_compoundv4_execute` is an oracle of type `Executor`; every
  function that may call it threads the list of compounds handed to it so far.
* `none` as the outcome of a function stands for undefined behaviour of the C code
  (reading an unterminated buffer, reading a result slot the reply never filled).
* Memory allocation is taken to succeed. The number of slots allocated for the
  operation arrays is not part of the outcome of the planner; it is compared with the
  number of operations written in a statement of its own.
* The executor appears twice: as the oracle above for the functions that call it, and
  as a program of its own, sequentially (a script says what the socket does) and as
  steps of the callers and the receiving thread on the shared state.
* A buffer is the list of its bytes; the byte order of the host is a parameter of the
  functions that copy 32-bit numbers to and from buffers. The socket the receiving
  thread reads is the list of the bytes not read yet, with a script that says how many
  bytes each call of `read` returns, or that it fails.
-/

namespace TxnCompound

/-! ## Status codes -/

/-- Modelled from the spec: the type `nfsstat4` and its values `NFS4_OK`, `NFS4ERR_*`
are declared in a protocol header that is not among the sources; the values below are
those of the NFSv4 protocol (RFC 3530). `fs_compoundv4_execute` returns such a status,
or an RPC client status, as an `int`. -/
abbrev nfsstat4 := Nat

def NFS4_OK : nfsstat4 := 0
def NFS4ERR_PERM : nfsstat4 := 1
def NFS4ERR_NOENT : nfsstat4 := 2
def NFS4ERR_IO : nfsstat4 := 5
def NFS4ERR_NXIO : nfsstat4 := 6
def NFS4ERR_ACCESS : nfsstat4 := 13
def NFS4ERR_EXIST : nfsstat4 := 17
def NFS4ERR_XDEV : nfsstat4 := 18
def NFS4ERR_NOTDIR : nfsstat4 := 20
def NFS4ERR_ISDIR : nfsstat4 := 21
def NFS4ERR_INVAL : nfsstat4 := 22
def NFS4ERR_FBIG : nfsstat4 := 27
def NFS4ERR_NOSPC : nfsstat4 := 28
def NFS4ERR_ROFS : nfsstat4 := 30
def NFS4ERR_MLINK : nfsstat4 := 31
def NFS4ERR_NAMETOOLONG : nfsstat4 := 63
def NFS4ERR_NOTEMPTY : nfsstat4 := 66
def NFS4ERR_DQUOT : nfsstat4 := 69
def NFS4ERR_STALE : nfsstat4 := 70
def NFS4ERR_BADHANDLE : nfsstat4 := 10001
def NFS4ERR_BAD_COOKIE : nfsstat4 := 10003
def NFS4ERR_NOTSUPP : nfsstat4 := 10004
def NFS4ERR_TOOSMALL : nfsstat4 := 10005
def NFS4ERR_SERVERFAULT : nfsstat4 := 10006
def NFS4ERR_BADTYPE : nfsstat4 := 10007
def NFS4ERR_DELAY : nfsstat4 := 10008
def NFS4ERR_SAME : nfsstat4 := 10009
def NFS4ERR_DENIED : nfsstat4 := 10010
def NFS4ERR_EXPIRED : nfsstat4 := 10011
def NFS4ERR_LOCKED : nfsstat4 := 10012
def NFS4ERR_GRACE : nfsstat4 := 10013
def NFS4ERR_FHEXPIRED : nfsstat4 := 10014
def NFS4ERR_SHARE_DENIED : nfsstat4 := 10015
def NFS4ERR_WRONGSEC : nfsstat4 := 10016
def NFS4ERR_NOFILEHANDLE : nfsstat4 := 10020
def NFS4ERR_NOT_SAME : nfsstat4 := 10027
def NFS4ERR_LOCK_RANGE : nfsstat4 := 10028
def NFS4ERR_SYMLINK : nfsstat4 := 10029
def NFS4ERR_ATTRNOTSUPP : nfsstat4 := 10032
def NFS4ERR_OPENMODE : nfsstat4 := 10038
def NFS4ERR_LOCK_NOTSUPP : nfsstat4 := 10043
def NFS4ERR_FILE_OPEN : nfsstat4 := 10046

/-- Modelled from the spec: the enumeration `fsal_errors_t` of the FSAL layer (its header
is not among the sources), with the members `handle.c` names; distinct members are
distinct codes. -/
inductive fsal_errors_t
  | ERR_FSAL_NO_ERROR
  | ERR_FSAL_PERM
  | ERR_FSAL_NOENT
  | ERR_FSAL_IO
  | ERR_FSAL_NXIO
  | ERR_FSAL_NOMEM
  | ERR_FSAL_ACCESS
  | ERR_FSAL_FAULT
  | ERR_FSAL_EXIST
  | ERR_FSAL_XDEV
  | ERR_FSAL_NOTDIR
  | ERR_FSAL_ISDIR
  | ERR_FSAL_INVAL
  | ERR_FSAL_FBIG
  | ERR_FSAL_NOSPC
  | ERR_FSAL_ROFS
  | ERR_FSAL_MLINK
  | ERR_FSAL_DQUOT
  | ERR_FSAL_NAMETOOLONG
  | ERR_FSAL_NOTEMPTY
  | ERR_FSAL_STALE
  | ERR_FSAL_BADHANDLE
  | ERR_FSAL_BADCOOKIE
  | ERR_FSAL_NOTSUPP
  | ERR_FSAL_TOOSMALL
  | ERR_FSAL_SERVERFAULT
  | ERR_FSAL_BADTYPE
  | ERR_FSAL_DELAY
  | ERR_FSAL_FHEXPIRED
  | ERR_FSAL_SYMLINK
  | ERR_FSAL_ATTRNOTSUPP
  | ERR_FSAL_SEC
  deriving DecidableEq, Repr

open fsal_errors_t

/-- Modelled from the spec: the pair `fsal_status_t` (header not among the sources), a
major code and a minor, errno-like code. -/
structure fsal_status_t where
  major : fsal_errors_t
  minor : Int
  deriving DecidableEq, Repr

/-- Modelled from the spec: the constructor function `fsalstat(major, minor)` (header
not among the sources). -/
def fsalstat (major : fsal_errors_t) (minor : Int) : fsal_status_t := ⟨major, minor⟩

/-- Modelled from the spec: the macro `FSAL_IS_ERROR` (header not among the sources):
the major code is not `ERR_FSAL_NO_ERROR`. -/
def FSAL_IS_ERROR (st : fsal_status_t) : Bool := !(st.major == ERR_FSAL_NO_ERROR)

/-- The errno value `EINVAL`. -/
def EINVAL : Int := 22

/-- The switch of `nfsstat4_to_fsal`; every status not listed (the long fall-through
group and `default`) gives `ERR_FSAL_INVAL`. -/
def nfsstat4_to_fsal (nfsstatus : nfsstat4) : fsal_status_t :=
  if nfsstatus = NFS4ERR_SAME ∨ nfsstatus = NFS4ERR_NOT_SAME ∨ nfsstatus = NFS4_OK then
    fsalstat ERR_FSAL_NO_ERROR nfsstatus
  else if nfsstatus = NFS4ERR_PERM then fsalstat ERR_FSAL_PERM nfsstatus
  else if nfsstatus = NFS4ERR_NOENT then fsalstat ERR_FSAL_NOENT nfsstatus
  else if nfsstatus = NFS4ERR_IO then fsalstat ERR_FSAL_IO nfsstatus
  else if nfsstatus = NFS4ERR_NXIO then fsalstat ERR_FSAL_NXIO nfsstatus
  else if nfsstatus = NFS4ERR_EXPIRED ∨ nfsstatus = NFS4ERR_LOCKED
      ∨ nfsstatus = NFS4ERR_SHARE_DENIED ∨ nfsstatus = NFS4ERR_LOCK_RANGE
      ∨ nfsstatus = NFS4ERR_OPENMODE ∨ nfsstatus = NFS4ERR_FILE_OPEN
      ∨ nfsstatus = NFS4ERR_ACCESS ∨ nfsstatus = NFS4ERR_DENIED then
    fsalstat ERR_FSAL_ACCESS nfsstatus
  else if nfsstatus = NFS4ERR_EXIST then fsalstat ERR_FSAL_EXIST nfsstatus
  else if nfsstatus = NFS4ERR_XDEV then fsalstat ERR_FSAL_XDEV nfsstatus
  else if nfsstatus = NFS4ERR_NOTDIR then fsalstat ERR_FSAL_NOTDIR nfsstatus
  else if nfsstatus = NFS4ERR_ISDIR then fsalstat ERR_FSAL_ISDIR nfsstatus
  else if nfsstatus = NFS4ERR_FBIG then fsalstat ERR_FSAL_FBIG 0
  else if nfsstatus = NFS4ERR_NOSPC then fsalstat ERR_FSAL_NOSPC nfsstatus
  else if nfsstatus = NFS4ERR_ROFS then fsalstat ERR_FSAL_ROFS nfsstatus
  else if nfsstatus = NFS4ERR_MLINK then fsalstat ERR_FSAL_MLINK nfsstatus
  else if nfsstatus = NFS4ERR_NAMETOOLONG then fsalstat ERR_FSAL_NAMETOOLONG nfsstatus
  else if nfsstatus = NFS4ERR_NOTEMPTY then fsalstat ERR_FSAL_NOTEMPTY nfsstatus
  else if nfsstatus = NFS4ERR_DQUOT then fsalstat ERR_FSAL_DQUOT nfsstatus
  else if nfsstatus = NFS4ERR_STALE then fsalstat ERR_FSAL_STALE nfsstatus
  else if nfsstatus = NFS4ERR_NOFILEHANDLE ∨ nfsstatus = NFS4ERR_BADHANDLE then
    fsalstat ERR_FSAL_BADHANDLE nfsstatus
  else if nfsstatus = NFS4ERR_BAD_COOKIE then fsalstat ERR_FSAL_BADCOOKIE nfsstatus
  else if nfsstatus = NFS4ERR_NOTSUPP then fsalstat ERR_FSAL_NOTSUPP nfsstatus
  else if nfsstatus = NFS4ERR_TOOSMALL then fsalstat ERR_FSAL_TOOSMALL nfsstatus
  else if nfsstatus = NFS4ERR_SERVERFAULT then fsalstat ERR_FSAL_SERVERFAULT nfsstatus
  else if nfsstatus = NFS4ERR_BADTYPE then fsalstat ERR_FSAL_BADTYPE nfsstatus
  else if nfsstatus = NFS4ERR_GRACE ∨ nfsstatus = NFS4ERR_DELAY then
    fsalstat ERR_FSAL_DELAY nfsstatus
  else if nfsstatus = NFS4ERR_FHEXPIRED then fsalstat ERR_FSAL_FHEXPIRED nfsstatus
  else if nfsstatus = NFS4ERR_WRONGSEC then fsalstat ERR_FSAL_SEC nfsstatus
  else if nfsstatus = NFS4ERR_SYMLINK then fsalstat ERR_FSAL_SYMLINK nfsstatus
  else if nfsstatus = NFS4ERR_ATTRNOTSUPP then fsalstat ERR_FSAL_ATTRNOTSUPP nfsstatus
  else fsalstat ERR_FSAL_INVAL nfsstatus

/-! ## Operations of a compound -/

/-- Modelled from the spec: the operation numbers `nfs_opnum4` (protocol header not
among the sources), with the values of the NFSv4 protocol (RFC 3530). -/
abbrev nfs_opnum4 := Nat

def NFS4_OP_CLOSE : nfs_opnum4 := 4
def NFS4_OP_GETATTR : nfs_opnum4 := 9
def NFS4_OP_GETFH : nfs_opnum4 := 10
def NFS4_OP_LOOKUP : nfs_opnum4 := 15
def NFS4_OP_LOOKUPP : nfs_opnum4 := 16
def NFS4_OP_OPEN : nfs_opnum4 := 18
def NFS4_OP_OPEN_CONFIRM : nfs_opnum4 := 20
def NFS4_OP_PUTFH : nfs_opnum4 := 22
def NFS4_OP_PUTROOTFH : nfs_opnum4 := 24
def NFS4_OP_READ : nfs_opnum4 := 25
def NFS4_OP_RENEW : nfs_opnum4 := 30
def NFS4_OP_SETCLIENTID : nfs_opnum4 := 35
def NFS4_OP_SETCLIENTID_CONFIRM : nfs_opnum4 := 36
def NFS4_OP_WRITE : nfs_opnum4 := 38

/-- Modelled from the spec: the attribute bitmap `struct bitmap4` (protocol header not
among the sources), with the members `handle.c` initialises. -/
structure bitmap4 where
  map0 : Nat
  map1 : Nat
  map2 : Nat
  bitmap4_len : Nat
  deriving DecidableEq, Repr

/-- The static `empty_bitmap`. -/
def empty_bitmap : bitmap4 := ⟨0, 0, 0, 2⟩

/-- Modelled from the spec: an encoded attribute set `fattr4` (protocol header not among
the sources): the bitmap and the attribute bytes. -/
structure fattr4 where
  attrmask : bitmap4
  attr_vals : List Nat
  deriving DecidableEq, Repr

/-- The bitmap `fs_bitmap_getattr`: TYPE, CHANGE, SIZE, FSID, FILEID in word 0; MODE,
NUMLINKS, OWNER, OWNER_GROUP, SPACE_USED, TIME_ACCESS, TIME_METADATA, TIME_MODIFY,
RAWDEV in word 1. -/
def fs_bitmap_getattr : bitmap4 :=
  ⟨2 ^ 1 + 2 ^ 3 + 2 ^ 4 + 2 ^ 8 + 2 ^ 20,
   2 ^ (33 - 32) + 2 ^ (35 - 32) + 2 ^ (36 - 32) + 2 ^ (37 - 32) + 2 ^ (45 - 32)
     + 2 ^ (47 - 32) + 2 ^ (52 - 32) + 2 ^ (53 - 32) + 2 ^ (41 - 32), 0, 2⟩

/-- Modelled from the spec: the protocol type `stateid4` (header not among the sources):
a 32-bit `seqid` and the twelve bytes `other`. -/
structure stateid4 where
  seqid : Nat
  other : List Nat
  deriving DecidableEq, Repr

/-- Modelled from the spec: one slot of `argoparray`, as the `COMPOUNDV4_ARG_ADD_OP_*`
macros fill it (the macro header is not among the sources; the members are the
arguments `handle.c` passes). `LOOKUP` carries the name, given in the source either as
a string or as pointer and length; `OPEN` the flag "create" (`OPEN_CREATE`,
`TCOPEN_CREATE` / `OPEN_NOCREATE`), the seqid, the client id, the create attributes, the
file name and the open owner; `CLOSE_NOSTATE` is the CLOSE without a stateid, `CLOSE`
the one with a stateid; `OPEN_CONFIRM` is the slot `fs_open_confirm` fills by hand,
`SETCLIENTID` and `SETCLIENTID_CONFIRM` are the slots `fs_setclientid` fills by hand,
`RENEW` the one of `fs_clientid_renewer`. -/
inductive nfs_argop4
  | PUTROOTFH
  | PUTFH (fh : List Nat)
  | LOOKUP (name : List Char)
  | LOOKUPP
  | GETFH
  | GETATTR (bm : bitmap4)
  | OPEN (create : Bool) (seqid : Nat) (clientid : Nat) (attrs : fattr4)
      (name : List Char) (owner : List Char)
  | READ (offset : Nat) (length : Nat)
  | WRITE (offset : Nat) (data : List Nat) (length : Nat)
  | CLOSE_NOSTATE
  | OPEN_CONFIRM (open_stateid : stateid4) (seqid : Nat)
  | CLOSE (stateid : stateid4)
  | SETCLIENTID (verifier : List Nat) (id : List Char) (cb_program : Nat)
      (r_netid : List Char) (r_addr : List Char) (callback_ident : Nat)
  | SETCLIENTID_CONFIRM (clientid : Nat) (setclientid_confirm : List Nat)
  | RENEW (clientid : Nat)
  deriving DecidableEq, Repr

open nfs_argop4

/-- The field `argop` of a slot. -/
def nfs_argop4.argop : nfs_argop4 → nfs_opnum4
  | PUTROOTFH => NFS4_OP_PUTROOTFH
  | PUTFH _ => NFS4_OP_PUTFH
  | LOOKUP _ => NFS4_OP_LOOKUP
  | LOOKUPP => NFS4_OP_LOOKUPP
  | GETFH => NFS4_OP_GETFH
  | GETATTR _ => NFS4_OP_GETATTR
  | OPEN _ _ _ _ _ _ => NFS4_OP_OPEN
  | READ _ _ => NFS4_OP_READ
  | WRITE _ _ _ => NFS4_OP_WRITE
  | CLOSE_NOSTATE => NFS4_OP_CLOSE
  | OPEN_CONFIRM _ _ => NFS4_OP_OPEN_CONFIRM
  | CLOSE _ => NFS4_OP_CLOSE
  | SETCLIENTID _ _ _ _ _ _ => NFS4_OP_SETCLIENTID
  | SETCLIENTID_CONFIRM _ _ => NFS4_OP_SETCLIENTID_CONFIRM
  | RENEW _ => NFS4_OP_RENEW

/-! ## Path resolver -/

/-- The successive tokens `strtok_r(pcopy, "/", &saved)`, `strtok_r(NULL, "/", &saved)`,
... return until `NULL`: the maximal runs of characters other than `/`. The second
argument is the run being collected, in reverse. -/
def strtok_r : List Char → List Char → List (List Char)
  | [], cur => if cur = [] then [] else [cur.reverse]
  | c :: cs, cur =>
    if c = '/' then
      if cur = [] then strtok_r cs [] else cur.reverse :: strtok_r cs []
    else strtok_r cs (c :: cur)

/-- Outcome of `construct_lookup`. -/
inductive lookup_ret
  /-- Returned 0: the operations now in `argoparray[0 .. *opcnt_temp)` and `*marker`. -/
  | ok (ops : List nfs_argop4) (marker : Nat)
  /-- Returned -1 (a `..` element). -/
  | invalid
  /-- `strlen(temp)` on a buffer `strncpy` left without a terminating NUL. -/
  | undef
  deriving DecidableEq, Repr

/-- The `while (p)` loop of `construct_lookup`. `toks` is the current token `p`
followed by the tokens `strtok_r` has yet to return. `temp` holds `p` after
`strncpy(temp, p, MAX_FILENAME_LENGTH)`, so `strlen(temp)` is `p.length` when that is
below `MAX_FILENAME_LENGTH` and reads past the buffer otherwise; it is evaluated only
when a further token exists. -/
def construct_lookup_loop (MAX_FILENAME_LENGTH : Nat) (path : List Char) :
    List (List Char) → List nfs_argop4 → Nat → lookup_ret
  | [], ops, marker => lookup_ret.ok ops marker
  | p :: rest, ops, marker =>
    if p = ['.', '.'] then lookup_ret.invalid
    else
      match rest with
      | [] => lookup_ret.ok ops marker
      | _ :: _ =>
        if p.length < MAX_FILENAME_LENGTH then
          construct_lookup_loop MAX_FILENAME_LENGTH path rest
            (ops ++ [LOOKUP ((path.drop marker).take p.length)]) (marker + (p.length + 1))
        else lookup_ret.undef

/-- The function `construct_lookup(path, argoparray, &opcnt, &marker)`: `ops` is
`argoparray[0 .. opcnt)` on entry. `*marker = 1`, one PUTROOTFH, then the loop. -/
def construct_lookup (MAX_FILENAME_LENGTH : Nat) (path : List Char)
    (ops : List nfs_argop4) : lookup_ret :=
  construct_lookup_loop MAX_FILENAME_LENGTH path (strtok_r path []) (ops ++ [PUTROOTFH]) 1

/-! ## Attributes, batch items, environment -/

/-- Modelled from the spec: the attribute numbers `FATTR4_*` used by `fsal_mask2bit`
(protocol header not among the sources), with the values of RFC 3530. -/
def FATTR4_SIZE : Nat := 4
def FATTR4_MODE : Nat := 33
def FATTR4_OWNER : Nat := 36
def FATTR4_OWNER_GROUP : Nat := 37
def FATTR4_TIME_ACCESS_SET : Nat := 48
def FATTR4_TIME_METADATA : Nat := 52
def FATTR4_TIME_MODIFY_SET : Nat := 54

/-- Modelled from the spec: the object types `object_file_type_t` of the FSAL layer
(header not among the sources). -/
inductive object_file_type_t
  | NO_FILE_TYPE
  | REGULAR_FILE
  | CHARACTER_FILE
  | BLOCK_FILE
  | SYMBOLIC_LINK
  | SOCKET_FILE
  | FIFO_FILE
  | DIRECTORY
  | EXTENDED_ATTR
  deriving DecidableEq, Repr

/-- Modelled from the spec: the members of `struct attrlist` (header not among the
sources) that the functions below read or write. -/
structure attrlist where
  mask : Nat
  type : object_file_type_t
  fileid : Nat
  mode : Nat
  owner : Nat
  group : Nat
  deriving DecidableEq, Repr

/-- What the sources leave to headers and libraries that are not part of them:
constants, the process id, the confirmed client id read by `fs_get_clientid`, and the
two attribute converters of the support library (`none` is their failure return). -/
structure Env where
  MAX_FILENAME_LENGTH : Nat
  ATTR_SIZE : Nat
  ATTR_MODE : Nat
  ATTR_OWNER : Nat
  ATTR_GROUP : Nat
  ATTR_ATIME : Nat
  ATTR_ATIME_SERVER : Nat
  ATTR_MTIME : Nat
  ATTR_MTIME_SERVER : Nat
  ATTR_CTIME : Nat
  pid : Nat
  fs_clientid : Nat
  nfs4_FSALattr_To_Fattr : attrlist → bitmap4 → Option fattr4
  nfs4_Fattr_To_FSAL_attr : fattr4 → Option attrlist

/-- The table `fsal_mask2bit`. -/
def fsal_mask2bit (env : Env) : List (Nat × Nat) :=
  [(env.ATTR_SIZE, FATTR4_SIZE), (env.ATTR_MODE, FATTR4_MODE),
   (env.ATTR_OWNER, FATTR4_OWNER), (env.ATTR_GROUP, FATTR4_OWNER_GROUP),
   (env.ATTR_ATIME, FATTR4_TIME_ACCESS_SET), (env.ATTR_ATIME_SERVER, FATTR4_TIME_ACCESS_SET),
   (env.ATTR_MTIME, FATTR4_TIME_MODIFY_SET), (env.ATTR_MTIME_SERVER, FATTR4_TIME_MODIFY_SET),
   (env.ATTR_CTIME, FATTR4_TIME_METADATA)]

/-- The function `fs_fsalattr_to_fattr4`: the bitmap computed from the mask, then the
library encoder; `none` is the return value -1. -/
def fs_fsalattr_to_fattr4 (env : Env) (attrs : attrlist) : Option fattr4 :=
  let bmap := (fsal_mask2bit env).foldl
    (fun (bmap : bitmap4) (e : Nat × Nat) =>
      if attrs.mask &&& e.1 ≠ 0 then
        if e.2 > 31 then
          { bmap with map1 := bmap.map1 ||| 2 ^ (e.2 - 32), bitmap4_len := 2 }
        else { bmap with map0 := bmap.map0 ||| 2 ^ e.2 }
      else bmap)
    empty_bitmap
  env.nfs4_FSALattr_To_Fattr attrs bmap

/-- The struct `tc_iovec` of `tc_api.h` (without the `file` member, which the planner
receives as the `path` of the kernel argument). -/
structure tc_iovec where
  offset : Nat
  length : Nat
  data : List Nat
  is_creation : Bool
  is_failure : Bool
  is_eof : Bool
  deriving DecidableEq, Repr

/-- Modelled from the spec: one element of the array given to `ktcread`, `struct
tcread_kargs` (declared in a header that is not among the sources), with the members
`do_ktcread` and `ktcread` use: the user's I/O vector, the path (`none` for a NULL
pointer) and the create attributes. The members that point into `resoparray` are left
out. -/
structure tcread_kargs where
  user_arg : tc_iovec
  path : Option (List Char)
  attrib : attrlist
  deriving DecidableEq, Repr

/-- One element of the array given to `ktcwrite`; the members used are those of
`tcread_kargs`. -/
abbrev tcwrite_kargs := tcread_kargs

/-- The owner string `snprintf(owner_val, 128, "GANESHA/PROXY: pid=%u %" PRIu64, ...)`
leaves in the buffer: at most 127 characters. -/
def owner_string (pid : Nat) (n : Nat) : List Char :=
  ("GANESHA/PROXY: pid=".toList ++ (Nat.repr (pid % 2 ^ 32)).toList ++ [' ']
    ++ (Nat.repr n).toList).take 127

/-- Modelled from the spec: the value `atomic_inc_uint64_t(&fcnt)` stores and returns
(header not among the sources): the counter plus one, in 64 bits. -/
def atomic_inc_uint64_t (fcnt : Nat) : Nat := (fcnt + 1) % 2 ^ 64

/-! ## TC batch planner: building the compound -/

/-- What one call of `do_ktcread` / `do_ktcwrite` leaves: the status returned, the
element as modified, `argoparray[0 .. *opcnt_temp)` (unchanged on an error return) and
the owner counter. -/
structure do_out where
  st : fsal_status_t
  kern_arg : tcread_kargs
  ops : List nfs_argop4
  fcnt : Nat
  deriving DecidableEq, Repr

/-- The function `do_ktcread`; `ops` is `argoparray[0 .. opcnt)` on entry. The slot of
the OPEN holds the address of the local array `owner_val` and `owner_len`, not a copy of
the string: the OPEN of the result carries what the array holds while the function
runs. What is read through that address once the function has returned is given by
`nfs_argop4.encoded`. -/
def do_ktcread (env : Env) (kern_arg : tcread_kargs) (ops : List nfs_argop4)
    (fcnt : Nat) : Option do_out :=
  let fcnt1 := atomic_inc_uint64_t fcnt
  let owner_val := owner_string env.pid fcnt1
  let user_arg : tc_iovec := { kern_arg.user_arg with is_failure := false, is_eof := false }
  let attrib : attrlist :=
    { kern_arg.attrib with
      mask := kern_arg.attrib.mask &&& (env.ATTR_MODE ||| env.ATTR_OWNER ||| env.ATTR_GROUP) }
  let ka : tcread_kargs := { kern_arg with user_arg := user_arg, attrib := attrib }
  match fs_fsalattr_to_fattr4 env attrib with
  | none => some ⟨fsalstat ERR_FSAL_INVAL (-1), ka, ops, fcnt1⟩
  | some data =>
    let input_attr : fattr4 := { data with attrmask := empty_bitmap }
    match kern_arg.path with
    | none =>
      if ops.length = 0 then some ⟨fsalstat ERR_FSAL_INVAL (-1), ka, ops, fcnt1⟩
      else
        some ⟨fsalstat ERR_FSAL_NO_ERROR 0, ka,
          ops ++ [READ user_arg.offset user_arg.length], fcnt1⟩
    | some path =>
      let ops1 := if ops.length ≠ 0 then ops ++ [CLOSE_NOSTATE] else ops
      match construct_lookup env.MAX_FILENAME_LENGTH path ops1 with
      | lookup_ret.undef => none
      | lookup_ret.invalid => some ⟨fsalstat ERR_FSAL_INVAL 0, ka, ops, fcnt1⟩
      | lookup_ret.ok ops2 marker =>
        let ops3 := ops2 ++
          [OPEN user_arg.is_creation 0 env.fs_clientid input_attr (path.drop marker) owner_val]
        some ⟨fsalstat ERR_FSAL_NO_ERROR 0, ka,
          ops3 ++ [READ user_arg.offset user_arg.length], fcnt1⟩

/-- The function `do_ktcwrite`; `ops` is `argoparray[0 .. opcnt)` on entry. As in
`do_ktcread`, the slot of the OPEN holds the address of the local array `owner_val` and
`owner_len`; the OPEN of the result carries what the array holds while the function
runs. -/
def do_ktcwrite (env : Env) (kern_arg : tcwrite_kargs) (ops : List nfs_argop4)
    (fcnt : Nat) : Option do_out :=
  let fcnt1 := atomic_inc_uint64_t fcnt
  let owner_val := owner_string env.pid fcnt1
  let user_arg : tc_iovec := { kern_arg.user_arg with is_failure := false, is_eof := false }
  let attrib : attrlist :=
    { kern_arg.attrib with
      mask := kern_arg.attrib.mask &&& (env.ATTR_MODE ||| env.ATTR_OWNER ||| env.ATTR_GROUP) }
  let ka : tcwrite_kargs := { kern_arg with user_arg := user_arg, attrib := attrib }
  match fs_fsalattr_to_fattr4 env attrib with
  | none => some ⟨fsalstat ERR_FSAL_INVAL (-1), ka, ops, fcnt1⟩
  | some data =>
    let input_attr : fattr4 := { data with attrmask := empty_bitmap }
    match kern_arg.path with
    | none =>
      if ops.length = 0 then some ⟨fsalstat ERR_FSAL_INVAL (-1), ka, ops, fcnt1⟩
      else
        some ⟨fsalstat ERR_FSAL_NO_ERROR 0, ka,
          ops ++ [WRITE user_arg.offset user_arg.data user_arg.length], fcnt1⟩
    | some path =>
      let ops1 := if ops.length ≠ 0 then ops ++ [CLOSE_NOSTATE] else ops
      match construct_lookup env.MAX_FILENAME_LENGTH path ops1 with
      | lookup_ret.undef => none
      | lookup_ret.invalid => some ⟨fsalstat ERR_FSAL_INVAL 0, ka, ops, fcnt1⟩
      | lookup_ret.ok ops2 marker =>
        let ops3 := ops2 ++
          [OPEN user_arg.is_creation 0 env.fs_clientid input_attr (path.drop marker) owner_val]
        some ⟨fsalstat ERR_FSAL_NO_ERROR 0, ka,
          ops3 ++ [WRITE user_arg.offset user_arg.data user_arg.length], fcnt1⟩

/-- State after the first `while (i < arg_count)` loop of `ktcread` / `ktcwrite`:
`err` is the status that made the loop `goto exit` (`none` when the loop ran to the
end), `kern_arg` the array with the elements visited so far as `do_ktc*` left them,
`ops` the operations built. -/
structure build_out where
  err : Option fsal_status_t
  kern_arg : List tcread_kargs
  ops : List nfs_argop4
  fcnt : Nat
  deriving DecidableEq, Repr

/-- The first loop of `ktcread`, from element `i` on (`kern_arg` is the rest of the
array). -/
def ktcread_build (env : Env) : List tcread_kargs → List nfs_argop4 → Nat → Option build_out
  | [], ops, fcnt => some ⟨none, [], ops, fcnt⟩
  | cur_arg :: rest, ops, fcnt =>
    match do_ktcread env cur_arg ops fcnt with
    | none => none
    | some r =>
      if FSAL_IS_ERROR r.st then some ⟨some r.st, r.kern_arg :: rest, ops, r.fcnt⟩
      else
        match ktcread_build env rest r.ops r.fcnt with
        | none => none
        | some b => some { b with kern_arg := r.kern_arg :: b.kern_arg }

/-- The first loop of `ktcwrite`, from element `i` on. -/
def ktcwrite_build (env : Env) : List tcwrite_kargs → List nfs_argop4 → Nat → Option build_out
  | [], ops, fcnt => some ⟨none, [], ops, fcnt⟩
  | cur_arg :: rest, ops, fcnt =>
    match do_ktcwrite env cur_arg ops fcnt with
    | none => none
    | some r =>
      if FSAL_IS_ERROR r.st then some ⟨some r.st, r.kern_arg :: rest, ops, r.fcnt⟩
      else
        match ktcwrite_build env rest r.ops r.fcnt with
        | none => none
        | some b => some { b with kern_arg := r.kern_arg :: b.kern_arg }

/-! ## The executor and its replies -/

/-- Modelled from the spec: one slot of `resoparray` as the reply decoder fills it
(protocol header not among the sources): the operation, its status and the members of
the per-operation results the callers read. -/
structure nfs_resop4 where
  resop : nfs_opnum4
  status : nfsstat4
  eof : Bool := false
  count : Nat := 0
  object : List Nat := []
  obj_attributes : fattr4 := ⟨empty_bitmap, []⟩
  rflags : Nat := 0
  data_len : Nat := 0
  stateid : stateid4 := ⟨0, []⟩
  open_stateid : stateid4 := ⟨0, []⟩
  clientid : Nat := 0
  setclientid_confirm : List Nat := []
  deriving DecidableEq, Repr

/-- What a call of `fs_nfsv4_call` (`fs_compoundv4_execute`) leaves: its return value
and the slots of `resoparray` the reply filled, from slot 0 on. -/
structure compound_reply where
  rc : nfsstat4
  resoparray : List nfs_resop4
  deriving DecidableEq, Repr

/-- The executor as an oracle: the reply to a compound, given the compounds handed to
the executor before it. -/
abbrev Executor := List (List nfs_argop4) → List nfs_argop4 → compound_reply

/-- Apply `f` to element `n` of an array (`kern_arg[n]` updated in place). -/
def modify_at {α : Type} (f : α → α) : List α → Nat → List α
  | [], _ => []
  | a :: as, 0 => f a :: as
  | a :: as, n + 1 => a :: modify_at f as n

/-- The assignment `cur_arg->user_arg->is_eof = 1`. -/
def set_is_eof (k : tcread_kargs) : tcread_kargs :=
  { k with user_arg := { k.user_arg with is_eof := true } }

/-- The assignment `cur_arg->user_arg->is_failure = 1`. -/
def set_is_failure (k : tcread_kargs) : tcread_kargs :=
  { k with user_arg := { k.user_arg with is_failure := true } }

/-- The assignment `cur_arg->user_arg->length = n`. -/
def set_length (n : Nat) (k : tcread_kargs) : tcread_kargs :=
  { k with user_arg := { k.user_arg with length := n } }

/-- What `ktcread` / `ktcwrite` leave: the status returned, `*fail_index`, the array of
elements, the compounds handed to the executor so far, the owner counter. -/
structure ktc_out where
  st : fsal_status_t
  fail_index : Int
  kern_arg : List tcread_kargs
  calls : List (List nfs_argop4)
  fcnt : Nat
  deriving DecidableEq, Repr

/-- The failure-attribution loop of `ktcread` (`while (i < arg_count)` after a non-OK
compound). The first argument is `resoparray` from slot `j` on; `temp_status` is `none`
while the local is uninitialised. `none` as result: the loop read a slot the reply did
not fill, or tested `temp_status` uninitialised. -/
def ktcread_attribute (arg_count : Nat) :
    List nfs_resop4 → Nat → Option nfsstat4 → List tcread_kargs → Int →
      Option (List tcread_kargs × Int)
  | [], i, _, kern_arg, fail_index =>
    if i < arg_count then none else some (kern_arg, fail_index)
  | temp_res :: rest, i, temp_status, kern_arg, fail_index =>
    if i < arg_count then
      let cur_arg := i
      let sw : Option nfsstat4 × List tcread_kargs × Nat :=
        if temp_res.resop = NFS4_OP_READ then
          (some temp_res.status,
            if temp_res.eof = true then modify_at set_is_eof kern_arg cur_arg else kern_arg,
            i + 1)
        else if temp_res.resop = NFS4_OP_LOOKUP ∨ temp_res.resop = NFS4_OP_OPEN
            ∨ temp_res.resop = NFS4_OP_PUTROOTFH ∨ temp_res.resop = NFS4_OP_CLOSE then
          (some temp_res.status, kern_arg, i)
        else (temp_status, kern_arg, i)
      match sw.1 with
      | none => none
      | some s =>
        if s ≠ NFS4_OK then some (modify_at set_is_failure sw.2.1 cur_arg, (sw.2.2 : Int))
        else ktcread_attribute arg_count rest sw.2.2 sw.1 sw.2.1 fail_index
    else some (kern_arg, fail_index)

/-- The failure-attribution loop of `ktcwrite`. Unlike the loop of `ktcread` it does not
assign `cur_arg`: `cur_arg` is the pointer the build loop left, passed here as the
index `cur_arg`. -/
def ktcwrite_attribute (arg_count : Nat) (cur_arg : Nat) :
    List nfs_resop4 → Nat → Option nfsstat4 → List tcwrite_kargs → Int →
      Option (List tcwrite_kargs × Int)
  | [], i, _, kern_arg, fail_index =>
    if i < arg_count then none else some (kern_arg, fail_index)
  | temp_res :: rest, i, temp_status, kern_arg, fail_index =>
    if i < arg_count then
      let sw : Option nfsstat4 × List tcwrite_kargs × Nat :=
        if temp_res.resop = NFS4_OP_WRITE then
          (some temp_res.status, modify_at (set_length temp_res.count) kern_arg cur_arg, i + 1)
        else if temp_res.resop = NFS4_OP_LOOKUP ∨ temp_res.resop = NFS4_OP_OPEN
            ∨ temp_res.resop = NFS4_OP_PUTROOTFH ∨ temp_res.resop = NFS4_OP_CLOSE then
          (some temp_res.status, kern_arg, i)
        else (temp_status, kern_arg, i)
      match sw.1 with
      | none => none
      | some s =>
        if s ≠ NFS4_OK then some (modify_at set_is_failure sw.2.1 cur_arg, (sw.2.2 : Int))
        else ktcwrite_attribute arg_count cur_arg rest sw.2.2 sw.1 sw.2.1 fail_index
    else some (kern_arg, fail_index)

/-- The function `ktcread(kern_arg, arg_count, fail_index)`, with `arg_count` the length
of `kern_arg`. `calls` are the compounds handed to the executor before the call,
`fail_index` the value `*fail_index` holds on entry. -/
def ktcread (env : Env) (exec : Executor) (calls : List (List nfs_argop4))
    (kern_arg : List tcread_kargs) (fail_index : Int) (fcnt : Nat) : Option ktc_out :=
  match ktcread_build env kern_arg [] fcnt with
  | none => none
  | some b =>
    match b.err with
    | some st => some ⟨st, fail_index, b.kern_arg, calls, b.fcnt⟩
    | none =>
      let argoparray := b.ops ++ [CLOSE_NOSTATE]
      let reply := exec calls argoparray
      if reply.rc ≠ NFS4_OK then
        match ktcread_attribute kern_arg.length reply.resoparray 0 none b.kern_arg
            fail_index with
        | none => none
        | some (ks, fi) =>
          some ⟨nfsstat4_to_fsal reply.rc, fi, ks, calls ++ [argoparray], b.fcnt⟩
      else
        some ⟨fsalstat ERR_FSAL_NO_ERROR 0, fail_index, b.kern_arg, calls ++ [argoparray],
          b.fcnt⟩

/-- The function `ktcwrite(kern_arg, arg_count, fail_index)`. After the build loop
`cur_arg` points to the last element, `kern_arg + (arg_count - 1)`. -/
def ktcwrite (env : Env) (exec : Executor) (calls : List (List nfs_argop4))
    (kern_arg : List tcwrite_kargs) (fail_index : Int) (fcnt : Nat) : Option ktc_out :=
  match ktcwrite_build env kern_arg [] fcnt with
  | none => none
  | some b =>
    match b.err with
    | some st => some ⟨st, fail_index, b.kern_arg, calls, b.fcnt⟩
    | none =>
      let argoparray := b.ops ++ [CLOSE_NOSTATE]
      let reply := exec calls argoparray
      if reply.rc ≠ NFS4_OK then
        match ktcwrite_attribute kern_arg.length (kern_arg.length - 1) reply.resoparray 0
            none b.kern_arg fail_index with
        | none => none
        | some (ks, fi) =>
          some ⟨nfsstat4_to_fsal reply.rc, fi, ks, calls ++ [argoparray], b.fcnt⟩
      else
        some ⟨fsalstat ERR_FSAL_NO_ERROR 0, fail_index, b.kern_arg, calls ++ [argoparray],
          b.fcnt⟩

/-! ## Stepwise path resolution: `fs_lookup_impl`, `fs_lookup_path` -/

/-- The object `fs_alloc_handle` builds around a server file handle: a copy of the
handle bytes, the attributes, the object type, and the header of the handle blob
(`len` is a `uint8_t`, two header bytes precede the handle bytes). -/
structure fs_obj_handle where
  fh4 : List Nat
  attributes : attrlist
  type : object_file_type_t
  blob_len : Nat
  blob_type : object_file_type_t
  deriving DecidableEq, Repr

/-- The function `fs_alloc_handle` (the allocation succeeds). -/
def fs_alloc_handle (fh : List Nat) (attr : attrlist) : fs_obj_handle :=
  ⟨fh, attr, attr.type, (fh.length + 2) % 256, attr.type⟩

/-- The function `fs_make_object`: status and `*handle` (`none` when not written). -/
def fs_make_object (env : Env) (obj_attributes : fattr4) (fh : List Nat) :
    fsal_status_t × Option fs_obj_handle :=
  match env.nfs4_Fattr_To_FSAL_attr obj_attributes with
  | none => (fsalstat ERR_FSAL_INVAL 0, none)
  | some attributes => (fsalstat ERR_FSAL_NO_ERROR 0, some (fs_alloc_handle fh attributes))

/-- What a lookup leaves: the status, `*handle` when written, and the compounds handed
to the executor so far. -/
structure lookup_out where
  st : fsal_status_t
  handle : Option fs_obj_handle
  calls : List (List nfs_argop4)
  deriving DecidableEq, Repr

/-- The path `/c1/c2/.../cm` with the given components. -/
def slash_join : List (List Char) → List Char
  | [] => []
  | c :: cs => '/' :: (c ++ slash_join cs)

/-- A path component as the statements take it: not empty, no slash inside, not `..`. -/
def component_ok (c : List Char) : Prop := c ≠ [] ∧ '/' ∉ c ∧ c ≠ ['.', '.']

instance (c : List Char) : Decidable (component_ok c) := by
  unfold component_ok; infer_instance

/-- Number of slots of an array that hold the operation `op`. -/
def count_op (op : nfs_opnum4) (ops : List nfs_argop4) : Nat :=
  ops.countP (fun o => o.argop == op)

/-- An operation without what the statement of the planned shape leaves open: of an
OPEN the create flag and the name are kept. -/
def nfs_argop4.shape : nfs_argop4 → nfs_argop4
  | OPEN create _ _ _ name _ => OPEN create 0 0 ⟨empty_bitmap, []⟩ name []
  | o => o

/-- The shape of `OPEN(create, name)`. -/
def OPEN_CREATE (name : List Char) : nfs_argop4 := OPEN true 0 0 ⟨empty_bitmap, []⟩ name []

/-- The shape of `OPEN(nocreate, name)`. -/
def OPEN_NOCREATE (name : List Char) : nfs_argop4 := OPEN false 0 0 ⟨empty_bitmap, []⟩ name []

/-- A batch element given by the components of its path: `comps = none` is a NULL path,
`comps = some (dirs, name)` the path `/dirs.../name`. -/
structure path_item where
  user_arg : tc_iovec
  comps : Option (List (List Char) × List Char)
  attrib : attrlist

/-- The element of the batch a `path_item` stands for. -/
def path_item.kargs (p : path_item) : tcread_kargs :=
  ⟨p.user_arg, p.comps.map (fun d => slash_join (d.1 ++ [d.2])), p.attrib⟩

/-- Every component of the element's path is a proper component. -/
def path_item.ok (p : path_item) : Prop :=
  match p.comps with
  | none => True
  | some d => ∀ c ∈ d.1 ++ [d.2], component_ok c

instance (p : path_item) : Decidable p.ok := by
  unfold path_item.ok; split <;> infer_instance

/-- Every directory name of the element's path fits the name buffer. -/
def path_item.fits (M : Nat) (p : path_item) : Prop :=
  match p.comps with
  | none => True
  | some d => ∀ c ∈ d.1, c.length < M

instance (M : Nat) (p : path_item) : Decidable (p.fits M) := by
  unfold path_item.fits; split <;> infer_instance

/-- The planned operations of a batch, element by element, without the final CLOSE;
`io` is the READ or WRITE of an element, `first` tells whether the first element of the
list is the first of the batch. -/
def plan_ops (io : tc_iovec → nfs_argop4) : Bool → List path_item → List nfs_argop4
  | _, [] => []
  | first, p :: ps =>
    (match p.comps with
      | none => []
      | some (dirs, name) =>
        (if first then [] else [CLOSE_NOSTATE]) ++ [PUTROOTFH] ++ dirs.map LOOKUP
          ++ [if p.user_arg.is_creation then OPEN_CREATE name else OPEN_NOCREATE name])
      ++ [io p.user_arg] ++ plan_ops io false ps

/-- The READ operation of an element. -/
def io_read (u : tc_iovec) : nfs_argop4 := READ u.offset u.length

/-- The WRITE operation of an element. -/
def io_write (u : tc_iovec) : nfs_argop4 := WRITE u.offset u.data u.length

/-- Value of `opcnt` after the build loop of `ktcread` has visited the given elements
(0 when the loop does not get through them). -/
def read_opcnt (env : Env) (kern_arg : List tcread_kargs) (fcnt : Nat) : Nat :=
  match ktcread_build env kern_arg [] fcnt with
  | some b => b.ops.length
  | none => 0

/-- Value of `opcnt` after the build loop of `ktcwrite` has visited the given elements. -/
def write_opcnt (env : Env) (kern_arg : List tcwrite_kargs) (fcnt : Nat) : Nat :=
  match ktcwrite_build env kern_arg [] fcnt with
  | some b => b.ops.length
  | none => 0

/-- A reply to the compound `ops` that failed: a result for each operation up to the
first one that failed, with the status of that one not OK and all before it OK. -/
def failed_reply (ops : List nfs_argop4) (oks : List nfs_resop4) (bad : nfs_resop4) : Prop :=
  (oks ++ [bad]).map (fun r => r.resop) = (ops.take (oks.length + 1)).map (fun o => o.argop)
    ∧ (∀ r ∈ oks, r.status = NFS4_OK) ∧ bad.status ≠ NFS4_OK ∧ oks.length < ops.length

/-- Operation numbers of the operations the planner emits besides READ / WRITE. -/
def walk_op (op : nfs_opnum4) : Prop :=
  op = NFS4_OP_LOOKUP ∨ op = NFS4_OP_OPEN ∨ op = NFS4_OP_PUTROOTFH ∨ op = NFS4_OP_CLOSE

/-! ## Concrete environment and inputs used in the examples -/

/-- An environment: a 256-byte name buffer, distinct one-bit attribute masks, converters
that always succeed. -/
def env0 : Env where
  MAX_FILENAME_LENGTH := 256
  ATTR_SIZE := 4
  ATTR_MODE := 128
  ATTR_OWNER := 512
  ATTR_GROUP := 1024
  ATTR_ATIME := 2048
  ATTR_ATIME_SERVER := 2097152
  ATTR_MTIME := 16384
  ATTR_MTIME_SERVER := 4194304
  ATTR_CTIME := 8192
  pid := 4242
  fs_clientid := 7
  nfs4_FSALattr_To_Fattr := fun _ bm => some ⟨bm, []⟩
  nfs4_Fattr_To_FSAL_attr := fun _ => some ⟨0, object_file_type_t.DIRECTORY, 0, 0, 0, 0⟩

/-- Attributes with an empty mask. -/
def attr0 : attrlist := ⟨0, object_file_type_t.REGULAR_FILE, 0, 0, 0, 0⟩

instance (ops : List nfs_argop4) (oks : List nfs_resop4) (bad : nfs_resop4) :
    Decidable (failed_reply ops oks bad) := by
  unfold failed_reply; infer_instance

/-- The OK result of an operation; a WRITE reports `count` bytes written. -/
def ok_result (count : Nat) (o : nfs_argop4) : nfs_resop4 :=
  { resop := o.argop, status := NFS4_OK, count := count }

/-- An executor whose server fails the operation in slot `n` of every compound with
status `s`: results for the slots before `n` are OK, the result in slot `n` is not. -/
def exec_fail_at (n : Nat) (s : nfsstat4) : Executor :=
  fun _ ops =>
    ⟨s, (ops.take n).map (ok_result 512)
      ++ (ops.drop n).head?.toList.map (fun o => { resop := o.argop, status := s })⟩

/-- An executor whose server performs every operation. -/
def exec_ok : Executor := fun _ ops => ⟨NFS4_OK, ops.map (ok_result 512)⟩

/-- A batch element: path (or NULL), offset, length. -/
def mk_item (path : Option (List Char)) (offset length : Nat) : tcread_kargs :=
  ⟨⟨offset, length, [], false, false, false⟩, path, attr0⟩

/-- The two-file read batch of the specification: `/a/b` and `/a/c`, offset 0,
length 4096. -/
def two_files : List path_item :=
  [⟨⟨0, 4096, [], false, false, false⟩, some ([['a']], ['b']), attr0⟩,
   ⟨⟨0, 4096, [], false, false, false⟩, some ([['a']], ['c']), attr0⟩]

/-- Three elements on three files, the directory of the second one missing on the
server: `/d/f0`, `/nodir/f1`, `/d/f2`, 4096 bytes each. -/
def three_files : List tcread_kargs :=
  [mk_item (some ['/', 'd', '/', 'f', '0']) 0 4096,
   mk_item (some ['/', 'n', 'o', 'd', 'i', 'r', '/', 'f', '1']) 0 4096,
   mk_item (some ['/', 'd', '/', 'f', '2']) 0 4096]

/-- What the build loop of `ktcread` leaves on `three_files`. -/
def three_files_read : build_out :=
  (ktcread_build env0 three_files [] 0).getD ⟨none, [], [], 0⟩

/-- What the build loop of `ktcwrite` leaves on `three_files`. -/
def three_files_write : build_out :=
  (ktcwrite_build env0 three_files [] 0).getD ⟨none, [], [], 0⟩

/-- The body shared by `do_ktcread` and `do_ktcwrite`, with the I/O operation as a
parameter. As there, the owner of the OPEN is what the local array `owner_val` holds
while the function runs; the slot itself holds the address of that array. -/
def do_ktc (io : tc_iovec → nfs_argop4) (env : Env) (kern_arg : tcread_kargs)
    (ops : List nfs_argop4) (fcnt : Nat) : Option do_out :=
  let fcnt1 := atomic_inc_uint64_t fcnt
  let owner_val := owner_string env.pid fcnt1
  let user_arg : tc_iovec := { kern_arg.user_arg with is_failure := false, is_eof := false }
  let attrib : attrlist :=
    { kern_arg.attrib with
      mask := kern_arg.attrib.mask &&& (env.ATTR_MODE ||| env.ATTR_OWNER ||| env.ATTR_GROUP) }
  let ka : tcread_kargs := { kern_arg with user_arg := user_arg, attrib := attrib }
  match fs_fsalattr_to_fattr4 env attrib with
  | none => some ⟨fsalstat ERR_FSAL_INVAL (-1), ka, ops, fcnt1⟩
  | some data =>
    let input_attr : fattr4 := { data with attrmask := empty_bitmap }
    match kern_arg.path with
    | none =>
      if ops.length = 0 then some ⟨fsalstat ERR_FSAL_INVAL (-1), ka, ops, fcnt1⟩
      else some ⟨fsalstat ERR_FSAL_NO_ERROR 0, ka, ops ++ [io user_arg], fcnt1⟩
    | some path =>
      let ops1 := if ops.length ≠ 0 then ops ++ [CLOSE_NOSTATE] else ops
      match construct_lookup env.MAX_FILENAME_LENGTH path ops1 with
      | lookup_ret.undef => none
      | lookup_ret.invalid => some ⟨fsalstat ERR_FSAL_INVAL 0, ka, ops, fcnt1⟩
      | lookup_ret.ok ops2 marker =>
        let ops3 := ops2 ++
          [OPEN user_arg.is_creation 0 env.fs_clientid input_attr (path.drop marker) owner_val]
        some ⟨fsalstat ERR_FSAL_NO_ERROR 0, ka, ops3 ++ [io user_arg], fcnt1⟩

/-- The build loop shared by `ktcread` and `ktcwrite`. -/
def ktc_build (io : tc_iovec → nfs_argop4) (env : Env) :
    List tcread_kargs → List nfs_argop4 → Nat → Option build_out
  | [], ops, fcnt => some ⟨none, [], ops, fcnt⟩
  | cur_arg :: rest, ops, fcnt =>
    match do_ktc io env cur_arg ops fcnt with
    | none => none
    | some r =>
      if FSAL_IS_ERROR r.st then some ⟨some r.st, r.kern_arg :: rest, ops, r.fcnt⟩
      else
        match ktc_build io env rest r.ops r.fcnt with
        | none => none
        | some b => some { b with kern_arg := r.kern_arg :: b.kern_arg }

/-- Value of `opcnt` after the common build loop has visited the given elements. -/
def ktc_opcnt (io : tc_iovec → nfs_argop4) (env : Env) (kern_arg : List tcread_kargs)
    (fcnt : Nat) : Nat :=
  match ktc_build io env kern_arg [] fcnt with
  | some b => b.ops.length
  | none => 0

/-- The element as `do_ktcread` / `do_ktcwrite` leave it. -/
def reset_item (env : Env) (k : tcread_kargs) : tcread_kargs :=
  { k with
    user_arg := { k.user_arg with is_failure := false, is_eof := false },
    attrib := { k.attrib with
      mask := k.attrib.mask &&& (env.ATTR_MODE ||| env.ATTR_OWNER ||| env.ATTR_GROUP) } }

/-! ## Size of the operation arrays -/

/-- The macro `FSAL_TCREAD_NB_OP_ALLOC`: the number of slots `ktcread` allocates for
`argoparray` and for `resoparray`. `MAX_DIR_DEPTH` is defined in a header that is not
among the sources and is a parameter. -/
def FSAL_TCREAD_NB_OP_ALLOC (MAX_DIR_DEPTH arg_count : Nat) : Nat :=
  (MAX_DIR_DEPTH + 3) * arg_count

/-- The macro `FSAL_TCWRITE_NB_OP_ALLOC`: the number of slots `ktcwrite` allocates. -/
def FSAL_TCWRITE_NB_OP_ALLOC (MAX_DIR_DEPTH arg_count : Nat) : Nat :=
  (MAX_DIR_DEPTH + 3) * arg_count

/-- A batch element on the file `/d/d/.../d/f` below `depth` directories, one byte at
offset 0. -/
def deep_item (depth : Nat) : path_item :=
  ⟨⟨0, 1, [], false, false, false⟩, some (List.replicate depth ['d'], ['f']), attr0⟩

/-- A batch of `n` elements, each on a file below `depth` directories. -/
def deep_batch (depth n : Nat) : List tcread_kargs :=
  (List.replicate n (deep_item depth)).map path_item.kargs

/-- The number of LOOKUP operations an element of a batch emits: one for each component
of its path but the last; none for a NULL path. -/
def lookups_of (k : tcread_kargs) : Nat :=
  match k.path with
  | none => 0
  | some path => (strtok_r path []).length - 1

/-! ## The RPC executor: `fs_process_reply`, `fs_compoundv4_call`,
`fs_compoundv4_execute`

The executor as a sequential program: what the socket and the receiving thread do is
given as a script, one entry for every attempt to send. -/

/-- Modelled from the spec: values of `enum clnt_stat` (header of the ONC RPC library,
not among the sources). -/
def RPC_SUCCESS : Nat := 0
def RPC_CANTENCODEARGS : Nat := 1
def RPC_CANTDECODERES : Nat := 2
def RPC_CANTSEND : Nat := 3
def RPC_CANTRECV : Nat := 4
def RPC_TIMEDOUT : Nat := 5
def RPC_VERSMISMATCH : Nat := 6
def RPC_AUTHERROR : Nat := 7
def RPC_PROGUNAVAIL : Nat := 8
def RPC_PROGVERSMISMATCH : Nat := 9
def RPC_PROCUNAVAIL : Nat := 10
def RPC_CANTDECODEARGS : Nat := 11
def RPC_SYSTEMERROR : Nat := 12
def RPC_FAILED : Nat := 16

/-- Modelled from the spec: the value of `EAGAIN` (system header). -/
def EAGAIN : Int := 11

/-- Modelled from the spec: `enum accept_stat` of an accepted RPC reply (header of the
ONC RPC library); `other` is any value the switch of `fs_process_reply` does not
name. -/
inductive accept_stat
  | SUCCESS
  | PROG_UNAVAIL
  | PROG_MISMATCH
  | PROC_UNAVAIL
  | GARBAGE_ARGS
  | SYSTEM_ERR
  | other
  deriving DecidableEq, Repr

/-- Modelled from the spec: `enum reject_stat` of a rejected RPC reply; `other` is any
value the switch of `fs_process_reply` does not name. -/
inductive reject_stat
  | RPC_MISMATCH
  | AUTH_ERROR
  | other
  deriving DecidableEq, Repr

/-- What `xdr_replymsg` makes of the bytes in `recvbuf`: it fails, or it yields an
accepted reply (with the compound status `res->status` the result decoder stores), or a
rejected one. -/
inductive rpc_reply
  | undecodable
  | accepted (ar_stat : accept_stat) (status : nfsstat4)
  | denied (rj_stat : reject_stat)
  deriving DecidableEq, Repr

/-- What the caller meets in `fs_process_reply`: the timed wait expires, or `iodone` is
set, with `ctx->ioresult` and the content of `recvbuf` as the receiving thread left
them. -/
inductive wait_result
  | timed_out
  | woken (ioresult : Int) (reply : rpc_reply)
  deriving DecidableEq, Repr

/-- The function `fs_process_reply`: its return value. -/
def fs_process_reply : wait_result → Nat
  | wait_result.timed_out => RPC_TIMEDOUT
  | wait_result.woken ioresult reply =>
    if ioresult > 0 then
      match reply with
      | rpc_reply.undecodable => RPC_CANTDECODERES
      | rpc_reply.accepted ar_stat _ =>
        match ar_stat with
        | accept_stat.SUCCESS => RPC_SUCCESS
        | accept_stat.PROG_UNAVAIL => RPC_PROGUNAVAIL
        | accept_stat.PROG_MISMATCH => RPC_PROGVERSMISMATCH
        | accept_stat.PROC_UNAVAIL => RPC_PROCUNAVAIL
        | accept_stat.GARBAGE_ARGS => RPC_CANTDECODEARGS
        | accept_stat.SYSTEM_ERR => RPC_SYSTEMERROR
        | accept_stat.other => RPC_FAILED
      | rpc_reply.denied rj_stat =>
        match rj_stat with
        | reject_stat.RPC_MISMATCH => RPC_VERSMISMATCH
        | reject_stat.AUTH_ERROR => RPC_AUTHERROR
        | reject_stat.other => RPC_FAILED
    else RPC_CANTRECV

/-- The value of `res->status` after `fs_process_reply`: the decoder stores the status
of an accepted reply. -/
def decoded_status (old : nfsstat4) : wait_result → nfsstat4
  | wait_result.woken ioresult (rpc_reply.accepted accept_stat.SUCCESS status) =>
    if ioresult > 0 then status else old
  | _ => old

/-- One pass of the `do ... while (rc == RPC_TIMEDOUT)` loop of `fs_compoundv4_call`:
a write fails before the whole record is out (`bc != pos`), or the record is written
and the caller goes to `fs_process_reply`. -/
inductive send_attempt
  | cant_write
  | sent (w : wait_result)
  deriving DecidableEq, Repr

/-- The script of one call of `fs_compoundv4_call`: whether `authunix_create` gives a
handle, whether the call message is encoded, and the passes of the send loop. -/
structure call_script where
  au : Bool
  encoded : Bool
  attempts : List send_attempt
  deriving DecidableEq, Repr

/-- What a call of `fs_compoundv4_call` leaves: the return value, how many times the
whole record was written to the socket, `ctx->ioresult` and `res->status`. -/
structure call_out where
  rc : Nat
  sent : Nat
  ioresult : Int
  status : nfsstat4
  deriving DecidableEq, Repr

/-- The send loop of `fs_compoundv4_call`. `none`: the script ends while the loop is
still running. -/
def fs_compoundv4_call_loop : List send_attempt → Nat → Int → nfsstat4 → Option call_out
  | [], _, _, _ => none
  | send_attempt.cant_write :: _, sent, ioresult, status =>
    some ⟨RPC_CANTSEND, sent, ioresult, status⟩
  | send_attempt.sent wait_result.timed_out :: rest, sent, ioresult, status =>
    fs_compoundv4_call_loop rest (sent + 1) ioresult status
  | send_attempt.sent (wait_result.woken io reply) :: _, sent, _, status =>
    some ⟨fs_process_reply (wait_result.woken io reply), sent + 1, io,
      decoded_status status (wait_result.woken io reply)⟩

/-- The function `fs_compoundv4_call`; `ioresult` and `status` are `ctx->ioresult` and
`res->status` on entry. -/
def fs_compoundv4_call (cs : call_script) (ioresult : Int) (status : nfsstat4) :
    Option call_out :=
  if !cs.au then some ⟨RPC_AUTHERROR, 0, ioresult, status⟩
  else if cs.encoded then fs_compoundv4_call_loop cs.attempts 0 ioresult status
  else some ⟨RPC_CANTENCODEARGS, 0, ioresult, status⟩

/-- The loop condition of `fs_compoundv4_execute`: the call is made again. -/
def execute_again (rc : Nat) (ioresult : Int) : Prop :=
  (rc = RPC_CANTRECV ∧ ioresult = -EAGAIN) ∨ rc = RPC_CANTSEND

instance (rc : Nat) (ioresult : Int) : Decidable (execute_again rc ioresult) := by
  unfold execute_again; infer_instance

/-- What `fs_compoundv4_execute` leaves: its return value, the number of calls of
`fs_compoundv4_call` it made and the number of times a record was written in full. -/
structure execute_out where
  ret : Nat
  calls : Nat
  sent : Nat
  deriving DecidableEq, Repr

/-- The loop of `fs_compoundv4_execute`, one script for every call of
`fs_compoundv4_call` (`fs_rpc_need_sock` is taken to return). `none`: the scripts end
while the loop is still running. -/
def fs_compoundv4_execute_loop :
    List call_script → Nat → Nat → Int → nfsstat4 → Option execute_out
  | [], _, _, _, _ => none
  | cs :: rest, calls, sent, ioresult, status =>
    match fs_compoundv4_call cs ioresult status with
    | none => none
    | some r =>
      if execute_again r.rc r.ioresult then
        fs_compoundv4_execute_loop rest (calls + 1) (sent + r.sent) r.ioresult r.status
      else
        some ⟨if r.rc = RPC_SUCCESS then r.status else r.rc, calls + 1, sent + r.sent⟩

/-- The function `fs_compoundv4_execute` (`res.status` starts as 0); `ioresult` is what
the context taken from the free list holds in `ioresult`. -/
def fs_compoundv4_execute (scripts : List call_script) (ioresult : Int) :
    Option execute_out :=
  fs_compoundv4_execute_loop scripts 0 0 ioresult 0

/-! ## Single operations: `fs_read`, `fs_create`, the handle digest -/

/-- What `fs_read` leaves: the status, `*read_amount` and `*end_of_file` (`none` when
not written) and the compounds handed to the executor so far. -/
structure read_out where
  st : fsal_status_t
  read_amount : Option Nat
  end_of_file : Option Bool
  calls : List (List nfs_argop4)
  deriving DecidableEq, Repr

/-- The function `fs_read(obj_hdl, offset, buffer_size, buffer, read_amount,
end_of_file)`; `fs_maxread` is the value of the export operation of that name. `none`:
the function read a result slot the reply did not fill. -/
def fs_read (fs_maxread : Nat) (exec : Executor) (calls : List (List nfs_argop4))
    (obj_hdl : fs_obj_handle) (offset buffer_size : Nat) : Option read_out :=
  if buffer_size = 0 then some ⟨fsalstat ERR_FSAL_NO_ERROR 0, some 0, some false, calls⟩
  else
    let buffer_size := if buffer_size > fs_maxread then fs_maxread else buffer_size
    let rok := 1
    let argoparray := [PUTFH obj_hdl.fh4, READ offset buffer_size]
    let reply := exec calls argoparray
    if reply.rc ≠ NFS4_OK then
      some ⟨nfsstat4_to_fsal reply.rc, none, none, calls ++ [argoparray]⟩
    else
      match reply.resoparray.get? rok with
      | some r =>
        some ⟨fsalstat ERR_FSAL_NO_ERROR 0, some r.data_len, some r.eof,
          calls ++ [argoparray]⟩
      | none => none

/-- Modelled from the spec: the flag `OPEN4_RESULT_CONFIRM` of `rflags` (protocol
header not among the sources; RFC 3530). -/
def OPEN4_RESULT_CONFIRM : Nat := 2

/-- What `fs_do_close` and `fs_open_confirm` leave: the status, the stateid behind the
pointer they were given, and the compounds handed to the executor so far. -/
structure stateid_out where
  st : fsal_status_t
  stateid : stateid4
  calls : List (List nfs_argop4)
  deriving DecidableEq, Repr

/-- The function `fs_do_close(creds, fh4, sid, exp)`. -/
def fs_do_close (exec : Executor) (calls : List (List nfs_argop4)) (fh4 : List Nat)
    (sid : stateid4) : stateid_out :=
  if sid.other = List.replicate 12 0 then ⟨fsalstat ERR_FSAL_NO_ERROR 0, sid, calls⟩
  else
    let argoparray := [PUTFH fh4, CLOSE sid]
    let reply := exec calls argoparray
    if reply.rc ≠ NFS4_OK then ⟨nfsstat4_to_fsal reply.rc, sid, calls ++ [argoparray]⟩
    else
      ⟨fsalstat ERR_FSAL_NO_ERROR 0, { sid with seqid := (sid.seqid + 1) % 2 ^ 32 },
        calls ++ [argoparray]⟩

/-- The function `fs_open_confirm(cred, fh4, stateid, export)`. `none`: the function
read a result slot the reply did not fill. -/
def fs_open_confirm (exec : Executor) (calls : List (List nfs_argop4)) (fh4 : List Nat)
    (stateid : stateid4) : Option stateid_out :=
  let conok := 1
  let argoparray := [PUTFH fh4, OPEN_CONFIRM ⟨stateid.seqid, stateid.other⟩ 1]
  let reply := exec calls argoparray
  if reply.rc ≠ NFS4_OK then
    some ⟨nfsstat4_to_fsal reply.rc, stateid, calls ++ [argoparray]⟩
  else
    match reply.resoparray.get? conok with
    | some r =>
      some ⟨fsalstat ERR_FSAL_NO_ERROR 0, ⟨r.open_stateid.seqid, r.open_stateid.other⟩,
        calls ++ [argoparray]⟩
    | none => none

/-- What `fs_create` leaves: the status, `*handle` (`none` when not written), `*attrib`,
the compounds handed to the executor so far and the owner counter. -/
structure create_out where
  st : fsal_status_t
  handle : Option fs_obj_handle
  attrib : attrlist
  calls : List (List nfs_argop4)
  fcnt : Nat
  deriving DecidableEq, Repr

/-- The end of `fs_create`, from the call of `fs_do_close` on: `stateid` is
`opok->stateid` as the confirmation left it. -/
def fs_create_close (env : Env) (exec : Executor) (calls : List (List nfs_argop4))
    (object : List Nat) (stateid : stateid4) (obj_attributes : fattr4) (attrib : attrlist)
    (fcnt : Nat) : create_out :=
  let c := fs_do_close exec calls object stateid
  if FSAL_IS_ERROR c.st then ⟨c.st, none, attrib, c.calls, fcnt⟩
  else
    let m := fs_make_object env obj_attributes object
    if FSAL_IS_ERROR m.1 then ⟨m.1, m.2, attrib, c.calls, fcnt⟩
    else
      match m.2 with
      | some handle => ⟨m.1, some handle, handle.attributes, c.calls, fcnt⟩
      | none => ⟨m.1, none, attrib, c.calls, fcnt⟩

/-- The function `fs_create(dir_hdl, name, attrib, handle)`. `none`: the function read
a result slot the reply did not fill. -/
def fs_create (env : Env) (exec : Executor) (calls : List (List nfs_argop4))
    (dir_hdl : fs_obj_handle) (name : List Char) (attrib : attrlist) (fcnt : Nat) :
    Option create_out :=
  let fcnt1 := atomic_inc_uint64_t fcnt
  let owner_val := owner_string env.pid fcnt1
  let attrib1 : attrlist :=
    { attrib with mask := attrib.mask &&& (env.ATTR_MODE ||| env.ATTR_OWNER ||| env.ATTR_GROUP) }
  match fs_fsalattr_to_fattr4 env attrib1 with
  | none => some ⟨fsalstat ERR_FSAL_INVAL (-1), none, attrib1, calls, fcnt1⟩
  | some input_attr =>
    let opok := 1
    let fhok := 2
    let atok := 3
    let argoparray :=
      [PUTFH dir_hdl.fh4, OPEN true 0 env.fs_clientid input_attr name owner_val, GETFH,
        GETATTR fs_bitmap_getattr]
    let reply := exec calls argoparray
    let calls1 := calls ++ [argoparray]
    if reply.rc ≠ NFS4_OK then some ⟨nfsstat4_to_fsal reply.rc, none, attrib1, calls1, fcnt1⟩
    else
      match reply.resoparray.get? opok, reply.resoparray.get? fhok,
          reply.resoparray.get? atok with
      | some o, some f, some a =>
        if o.rflags &&& OPEN4_RESULT_CONFIRM ≠ 0 then
          match fs_open_confirm exec calls1 f.object o.stateid with
          | none => none
          | some c =>
            if FSAL_IS_ERROR c.st then some ⟨c.st, none, attrib1, c.calls, fcnt1⟩
            else
              some (fs_create_close env exec c.calls f.object c.stateid a.obj_attributes
                attrib1 fcnt1)
        else
          some (fs_create_close env exec calls1 f.object o.stateid a.obj_attributes attrib1
            fcnt1)
      | _, _, _ => none

/-- Modelled from the spec: the kinds of digest `fsal_digesttype_t` (header not among
the sources); `other` is any kind the switch of `fs_handle_digest` does not name. -/
inductive fsal_digesttype_t
  | FSAL_DIGEST_NFSV3
  | FSAL_DIGEST_NFSV4
  | other
  deriving DecidableEq, Repr

/-- Modelled from the spec: the enumerator value of an object type, as the assignment
`n->blob.type = attr->type` stores it in a byte (header not among the sources). -/
def object_file_type_t.code : object_file_type_t → Nat
  | object_file_type_t.NO_FILE_TYPE => 0
  | object_file_type_t.REGULAR_FILE => 1
  | object_file_type_t.CHARACTER_FILE => 2
  | object_file_type_t.BLOCK_FILE => 3
  | object_file_type_t.SYMBOLIC_LINK => 4
  | object_file_type_t.SOCKET_FILE => 5
  | object_file_type_t.FIFO_FILE => 6
  | object_file_type_t.DIRECTORY => 7
  | object_file_type_t.EXTENDED_ATTR => 8

/-- Modelled from the spec: a buffer descriptor `struct gsh_buffdesc` (header not among
the sources): `addr` is the content of the memory `addr` points to (`none` for a NULL
pointer), `len` the length the descriptor gives. -/
structure gsh_buffdesc where
  addr : Option (List Nat)
  len : Nat
  deriving DecidableEq, Repr

/-- The bytes of the handle blob of an object: `struct fs_handle_blob` (`len`, `type`)
followed by the handle bytes `fs_alloc_handle` copied behind it. -/
def fs_obj_handle.blob (ph : fs_obj_handle) : List Nat :=
  [ph.blob_len, ph.blob_type.code] ++ ph.fh4

/-- The function `fs_handle_digest(obj_hdl, output_type, fh_desc)`, the optional NFSv3
handle mapping (`PROXY_HANDLE_MAPPING`) compiled out: the status and the descriptor
behind `fh_desc` (`none` for a NULL `fh_desc`). The outcome `none`: `memcpy` wrote
beyond the memory of the descriptor. -/
def fs_handle_digest (obj_hdl : fs_obj_handle) (output_type : fsal_digesttype_t)
    (fh_desc : Option gsh_buffdesc) : Option (fsal_status_t × Option gsh_buffdesc) :=
  match fh_desc with
  | none => some (fsalstat ERR_FSAL_FAULT 0, fh_desc)
  | some d =>
    match d.addr with
    | none => some (fsalstat ERR_FSAL_FAULT 0, fh_desc)
    | some buf =>
      match output_type with
      | fsal_digesttype_t.other => some (fsalstat ERR_FSAL_SERVERFAULT 0, fh_desc)
      | _ =>
        let fhs := obj_hdl.blob_len
        if d.len < fhs then some (fsalstat ERR_FSAL_TOOSMALL 0, fh_desc)
        else if buf.length < fhs then none
        else
          some (fsalstat ERR_FSAL_NO_ERROR 0,
            some ⟨some (obj_hdl.blob.take fhs ++ buf.drop fhs), fhs⟩)

/-- The function `fs_extract_handle(exp_hdl, in_type, fh_desc)`, the handle mapping
compiled out. `none`: the buffer holds no byte to read `len` from. -/
def fs_extract_handle (_in_type : fsal_digesttype_t) (fh_desc : Option gsh_buffdesc) :
    Option (fsal_status_t × Option gsh_buffdesc) :=
  match fh_desc with
  | none => some (fsalstat ERR_FSAL_FAULT EINVAL, fh_desc)
  | some d =>
    match d.addr with
    | none => some (fsalstat ERR_FSAL_FAULT EINVAL, fh_desc)
    | some buf =>
      match buf.head? with
      | none => none
      | some fh_size =>
        if d.len ≠ fh_size then some (fsalstat ERR_FSAL_SERVERFAULT 0, fh_desc)
        else some (fsalstat ERR_FSAL_NO_ERROR 0, some { d with len := fh_size })

/-- What `fs_getattrs_impl` leaves: the status, `*obj_attr`, and the compounds handed
to the executor so far. -/
structure getattrs_out where
  st : fsal_status_t
  obj_attr : attrlist
  calls : List (List nfs_argop4)
  deriving DecidableEq, Repr

/-- The function `fs_getattrs_impl(creds, exp, filehandle, obj_attr)`; `obj_attr` is
`*obj_attr` on entry (zeroed by the callers, as the converter of `fs_make_object`
finds it). `none`: the function read a result slot the reply did not fill. -/
def fs_getattrs_impl (env : Env) (exec : Executor) (calls : List (List nfs_argop4))
    (filehandle : List Nat) (obj_attr : attrlist) : Option getattrs_out :=
  let atok := 1
  let argoparray := [PUTFH filehandle, GETATTR fs_bitmap_getattr]
  let reply := exec calls argoparray
  if reply.rc ≠ NFS4_OK then
    some ⟨nfsstat4_to_fsal reply.rc, obj_attr, calls ++ [argoparray]⟩
  else
    match reply.resoparray.get? atok with
    | none => none
    | some a =>
      match env.nfs4_Fattr_To_FSAL_attr a.obj_attributes with
      | none => some ⟨fsalstat ERR_FSAL_INVAL 0, obj_attr, calls ++ [argoparray]⟩
      | some attr => some ⟨fsalstat ERR_FSAL_NO_ERROR 0, attr, calls ++ [argoparray]⟩

/-- The function `fs_create_handle(exp_hdl, hdl_desc, handle)`: status, `*handle` and
the compounds handed to the executor so far. The handle length `blob->len -
sizeof(*blob)` is computed in 32 bits without sign. `none`: the function read beyond
the memory of the descriptor, or a result slot the reply did not fill. -/
def fs_create_handle (env : Env) (exec : Executor) (calls : List (List nfs_argop4))
    (hdl_desc : gsh_buffdesc) : Option lookup_out :=
  match hdl_desc.addr with
  | none => none
  | some buf =>
    match buf.head? with
    | none => none
    | some blob_len =>
      if blob_len ≠ hdl_desc.len then some ⟨fsalstat ERR_FSAL_INVAL 0, none, calls⟩
      else
        let nfs_fh4_len := (blob_len + 2 ^ 32 - 2) % 2 ^ 32
        if buf.length < 2 + nfs_fh4_len then none
        else
          let fh4 := (buf.drop 2).take nfs_fh4_len
          let attr : attrlist := ⟨0, object_file_type_t.NO_FILE_TYPE, 0, 0, 0, 0⟩
          match fs_getattrs_impl env exec calls fh4 attr with
          | none => none
          | some g =>
            if FSAL_IS_ERROR g.st then some ⟨g.st, none, g.calls⟩
            else
              some ⟨fsalstat ERR_FSAL_NO_ERROR 0, some (fs_alloc_handle fh4 g.obj_attr),
                g.calls⟩

/-! ## The transport: contexts, the pending-call list and the steps that change them

Every context has one caller, the thread that runs `fs_compoundv4_execute` on it after
taking it from the free list; the receiving thread (`fs_rpc_recv`) delivers replies
and reconnects. A state holds the variables these threads share and, for every
context, the place its caller has reached. Contexts are named by numbers; the list
`rpc_calls` is the list of the contexts linked on it, head first. -/

/-- The members of `struct fs_rpc_io_context` the steps read or write, and the memory
`sendbuf` and `recvbuf` point to: `fs_init_rpc` allocates both with the context, the
`recvbuf_sz` bytes of `recvbuf` right after the `sendbuf_sz` bytes of `sendbuf`. -/
structure fs_rpc_io_context where
  rpc_xid : Nat
  iodone : Int
  ioresult : Int
  recvbuf_sz : Nat
  sendbuf_sz : Nat
  sendbuf : List Nat
  recvbuf : List Nat
  deriving DecidableEq, Repr

/-- The place the caller of a context has reached: the context is on `free_contexts`
(`idle`); the caller is in the loop of `fs_compoundv4_execute`, before it calls
`fs_compoundv4_call` (`execute`); in `fs_compoundv4_call` with `rmsg.rm_xid` assigned,
before the message is encoded (`call`); in the send loop, before the writes (`send`);
in `fs_process_reply` (`wait`); back in `fs_compoundv4_execute` with the value `rc`
that `fs_compoundv4_call` returned (`back rc`). -/
inductive caller_pc
  | idle
  | execute
  | call
  | send
  | wait
  | back (rc : Nat)
  deriving DecidableEq, Repr

/-- The caller of a context: the place it has reached and its locals `rmsg.rm_xid` and
`first_try`. -/
structure caller where
  pc : caller_pc
  rm_xid : Nat
  first_try : Bool
  deriving DecidableEq, Repr

/-- A state of the transport: the counter `rpc_xid`, the list `rpc_calls`, the
contexts and their callers. The member `later` is not a variable of the program: for
every context it counts the XIDs assigned after the one its caller holds. -/
structure transport where
  rpc_xid : Nat
  rpc_calls : List Nat
  ctx : Nat → fs_rpc_io_context
  thr : Nat → caller
  later : Nat → Nat

/-- The state `fs_init_rpc` leaves: the counter seeded, the list empty, every context
zeroed and on the free list, its buffers of the sizes configured. -/
def transport_init (seed sendbuf_sz recvbuf_sz : Nat) : transport where
  rpc_xid := seed
  rpc_calls := []
  ctx := fun _ =>
    { rpc_xid := 0, iodone := 0, ioresult := 0, recvbuf_sz := recvbuf_sz,
      sendbuf_sz := sendbuf_sz, sendbuf := List.replicate sendbuf_sz 0,
      recvbuf := List.replicate recvbuf_sz 0 }
  thr := fun _ => ⟨caller_pc.idle, 0, false⟩
  later := fun _ => 0

/-- The steps of the transport. Of a caller with context `c`: `acquire` (the context is
taken from the free list), `assign_xid` (`rmsg.rm_xid = rpc_xid++`), `auth_fail`
(`au == NULL`), `encode_fail` (the message is not encoded), `encode` (the message is
encoded, `pcontext->rpc_xid = rmsg.rm_xid`, `first_try = 1`), `send_ok` (the record is
written in full; the context is added to the list on the first try), `send_fail` (a
write fails; the context is deleted from the list on a later try), `timeout` (the
timed wait of `fs_process_reply` expires), `wake` (`fs_process_reply` finds `iodone`
set; `reply` is what `recvbuf` decodes to), `retry` and `release` (the loop condition
of `fs_compoundv4_execute`). Of the receiving thread: `deliver` (`fs_rpc_read_reply`
reads the header of a record of `sz` bytes with that XID, and `fs_got_rpc_reply` ends
with `ioresult`), `reconnect` (`fs_new_socket_ready`). -/
inductive transport_action
  | acquire (c : Nat)
  | assign_xid (c : Nat)
  | auth_fail (c : Nat)
  | encode_fail (c : Nat)
  | encode (c : Nat)
  | send_ok (c : Nat)
  | send_fail (c : Nat)
  | timeout (c : Nat)
  | wake (c : Nat) (reply : rpc_reply)
  | retry (c : Nat)
  | release (c : Nat)
  | deliver (xid sz : Nat) (ioresult : Int)
  | reconnect
  deriving DecidableEq, Repr

open transport_action

/-- Move the caller of context `c` to another place. -/
def transport.goto (s : transport) (c : Nat) (pc : caller_pc) : transport :=
  { s with thr := Function.update s.thr c { s.thr c with pc := pc } }

/-- The effect of a step. -/
def transport_step : transport_action → transport → transport
  | acquire c, s => s.goto c caller_pc.execute
  | assign_xid c, s =>
    { s with
      rpc_xid := (s.rpc_xid + 1) % 2 ^ 32
      thr := Function.update s.thr c { s.thr c with pc := caller_pc.call, rm_xid := s.rpc_xid }
      later := fun d => if d = c then 0 else s.later d + 1 }
  | auth_fail c, s => s.goto c (caller_pc.back RPC_AUTHERROR)
  | encode_fail c, s => s.goto c (caller_pc.back RPC_CANTENCODEARGS)
  | encode c, s =>
    { s with
      ctx := Function.update s.ctx c { s.ctx c with rpc_xid := (s.thr c).rm_xid }
      thr := Function.update s.thr c { s.thr c with pc := caller_pc.send, first_try := true } }
  | send_ok c, s =>
    { s with
      rpc_calls := if (s.thr c).first_try then s.rpc_calls ++ [c] else s.rpc_calls
      thr := Function.update s.thr c { s.thr c with pc := caller_pc.wait, first_try := false } }
  | send_fail c, s =>
    { s with
      rpc_calls := if (s.thr c).first_try then s.rpc_calls else s.rpc_calls.erase c
      thr := Function.update s.thr c { s.thr c with pc := caller_pc.back RPC_CANTSEND } }
  | timeout c, s => s.goto c caller_pc.send
  | wake c reply, s =>
    { s with
      ctx := Function.update s.ctx c { s.ctx c with iodone := 0 }
      thr := Function.update s.thr c
        { s.thr c with
          pc := caller_pc.back (fs_process_reply (wait_result.woken (s.ctx c).ioresult reply)) } }
  | retry c, s => s.goto c caller_pc.execute
  | release c, s => s.goto c caller_pc.idle
  | deliver xid sz ioresult, s =>
    match s.rpc_calls.find? (fun c => (s.ctx c).rpc_xid = xid) with
    | none => s
    | some c =>
      if sz > (s.ctx c).recvbuf_sz then { s with rpc_calls := s.rpc_calls.erase c }
      else
        { s with
          rpc_calls := s.rpc_calls.erase c
          ctx := Function.update s.ctx c { s.ctx c with iodone := 1, ioresult := ioresult } }
  | reconnect, s =>
    { s with
      rpc_calls := []
      ctx := fun c =>
        if c ∈ s.rpc_calls then { s.ctx c with iodone := 1, ioresult := -EAGAIN } else s.ctx c }

/-- The place of the caller a step starts from. -/
def transport_enabled : transport_action → transport → Prop
  | acquire c, s => (s.thr c).pc = caller_pc.idle
  | assign_xid c, s => (s.thr c).pc = caller_pc.execute
  | auth_fail c, s => (s.thr c).pc = caller_pc.call
  | encode_fail c, s => (s.thr c).pc = caller_pc.call
  | encode c, s => (s.thr c).pc = caller_pc.call
  | send_ok c, s => (s.thr c).pc = caller_pc.send
  | send_fail c, s => (s.thr c).pc = caller_pc.send
  | timeout c, s => (s.thr c).pc = caller_pc.wait
  | wake c _, s => (s.thr c).pc = caller_pc.wait ∧ (s.ctx c).iodone ≠ 0
  | retry c, s =>
    match (s.thr c).pc with
    | caller_pc.back rc => execute_again rc (s.ctx c).ioresult
    | _ => False
  | release c, s =>
    match (s.thr c).pc with
    | caller_pc.back rc => ¬ execute_again rc (s.ctx c).ioresult
    | _ => False
  | deliver _ _ _, _ => True
  | reconnect, _ => True

/-- The caller holds an XID for a call that has not returned. -/
def caller_pc.in_call (pc : caller_pc) : Prop :=
  pc = caller_pc.call ∨ pc = caller_pc.send ∨ pc = caller_pc.wait

instance (pc : caller_pc) : Decidable pc.in_call := by
  unfold caller_pc.in_call; infer_instance

/-- Fewer than 2^32 XIDs are assigned during a call: when one more XID is assigned,
every XID held for a call that has not returned is followed by fewer than 2^32. -/
def xid_window (s : transport) : Prop :=
  ∀ c, (s.thr c).pc.in_call → s.later c + 1 < 2 ^ 32

/-- The steps other than the expiry of the timed wait. -/
def no_timeout : transport_action → Prop
  | timeout _ => False
  | _ => True

/-- The states the steps in `allowed` reach from the state `fs_init_rpc` leaves, XIDs
being assigned within the window. -/
inductive transport_reach (allowed : transport_action → Prop) : transport → Prop
  | init (seed sendbuf_sz recvbuf_sz : Nat) (h : seed < 2 ^ 32) :
    transport_reach allowed (transport_init seed sendbuf_sz recvbuf_sz)
  | step (s : transport) (a : transport_action) (hs : transport_reach allowed s)
    (ha : allowed a) (he : transport_enabled a s)
    (hw : (∃ c, a = assign_xid c) → xid_window s) :
    transport_reach allowed (transport_step a s)

/-! ## Executors and inputs used in the examples on single operations -/

/-- An executor whose call of `fs_compoundv4_execute` goes as the scripts say: it
returns what `fs_compoundv4_execute` returns on them and fills no result slot. -/
def exec_script (scripts : List call_script) : Executor :=
  fun _ _ => ⟨((fs_compoundv4_execute scripts 0).map (fun r => r.ret)).getD 0, []⟩

/-- One call whose record is written and whose reply arrives (100 bytes) but cannot be
decoded. -/
def script_undecodable : List call_script :=
  [⟨true, true, [send_attempt.sent (wait_result.woken 100 rpc_reply.undecodable)]⟩]

/-- One call for which `authunix_create` gives no handle. -/
def script_no_auth : List call_script := [⟨false, true, []⟩]

/-- One call whose first wait for the reply times out and whose second wait ends with
an accepted reply of status `NFS4_OK`. -/
def script_timeout_then_reply : List call_script :=
  [⟨true, true,
    [send_attempt.sent wait_result.timed_out,
     send_attempt.sent
      (wait_result.woken 100 (rpc_reply.accepted accept_stat.SUCCESS NFS4_OK))]⟩]

/-- A file object with a three-byte handle. -/
def file_abc : fs_obj_handle := fs_alloc_handle [97, 98, 99] attr0

/-- The OK result of an operation on a server that marks every OPEN as to be confirmed:
read as the result of an OPEN it carries `OPEN4_RESULT_CONFIRM` and a stateid, as the
result of a GETFH a handle, as the result of an OPEN_CONFIRM a new stateid. -/
def confirming_result (op : nfs_opnum4) : nfs_resop4 :=
  { resop := op, status := NFS4_OK, rflags := OPEN4_RESULT_CONFIRM, object := [7, 7],
    stateid := ⟨1, List.replicate 12 1⟩, open_stateid := ⟨2, List.replicate 12 2⟩ }

/-- An executor whose server performs every operation and marks every OPEN as to be
confirmed. -/
def exec_confirming : Executor :=
  fun _ ops => ⟨NFS4_OK, ops.map (fun o => confirming_result o.argop)⟩

/-- The compound `fs_create` builds: PUTFH(directory), OPEN(create, name), GETFH,
GETATTR. -/
def create_ops (env : Env) (dir_hdl : fs_obj_handle) (name : List Char)
    (input_attr : fattr4) (fcnt : Nat) : List nfs_argop4 :=
  [PUTFH dir_hdl.fh4,
   OPEN true 0 env.fs_clientid input_attr name
     (owner_string env.pid (atomic_inc_uint64_t fcnt)),
   GETFH, GETATTR fs_bitmap_getattr]

/-- The compound of a confirmation: PUTFH(handle), OPEN_CONFIRM(stateid, seqid 1). -/
def confirm_ops (fh4 : List Nat) (stateid : stateid4) : List nfs_argop4 :=
  [PUTFH fh4, OPEN_CONFIRM stateid 1]

/-- The attributes `fs_create` passes on: the mask cut down to mode, owner and group. -/
def create_attrib (env : Env) (attrib : attrlist) : attrlist :=
  { attrib with mask := attrib.mask &&& (env.ATTR_MODE ||| env.ATTR_OWNER ||| env.ATTR_GROUP) }

/-- A directory object with a two-byte handle. -/
def dir_xy : fs_obj_handle :=
  fs_alloc_handle [120, 121] ⟨0, object_file_type_t.DIRECTORY, 0, 0, 0, 0⟩

/-- What the steps other than the expiry of the timed wait keep: the counter is a
32-bit value; no context is on the list twice; the caller of a context on the list is
in `fs_process_reply`; a context whose `iodone` is set is off the list and its caller
is in `fs_process_reply`; from the send loop on the context holds the XID of its
caller; the XID a caller holds for its call is the counter of `later + 1` assignments
ago, with `later` below 2^32; and two callers in a call hold XIDs of different age. -/
def xid_inv (s : transport) : Prop :=
  s.rpc_xid < 2 ^ 32
  ∧ s.rpc_calls.Nodup
  ∧ (∀ c ∈ s.rpc_calls, (s.thr c).pc = caller_pc.wait)
  ∧ (∀ c, (s.ctx c).iodone ≠ 0 → (s.thr c).pc = caller_pc.wait ∧ c ∉ s.rpc_calls)
  ∧ (∀ c, (s.thr c).pc = caller_pc.send ∨ (s.thr c).pc = caller_pc.wait →
      (s.ctx c).rpc_xid = (s.thr c).rm_xid)
  ∧ (∀ c, (s.thr c).pc.in_call →
      (s.thr c).rm_xid < 2 ^ 32 ∧ s.later c < 2 ^ 32
      ∧ ((s.thr c).rm_xid + s.later c + 1) % 2 ^ 32 = s.rpc_xid)
  ∧ (∀ c d, (s.thr c).pc.in_call → (s.thr d).pc.in_call → c ≠ d → s.later c ≠ s.later d)

/-- The state after a sequence of steps. -/
def transport_run : List transport_action → transport → transport
  | [], s => s
  | a :: as, s => transport_run as (transport_step a s)

instance (a : transport_action) (s : transport) : Decidable (transport_enabled a s) :=
  match a with
  | acquire c => inferInstanceAs (Decidable ((s.thr c).pc = caller_pc.idle))
  | assign_xid c => inferInstanceAs (Decidable ((s.thr c).pc = caller_pc.execute))
  | auth_fail c => inferInstanceAs (Decidable ((s.thr c).pc = caller_pc.call))
  | encode_fail c => inferInstanceAs (Decidable ((s.thr c).pc = caller_pc.call))
  | encode c => inferInstanceAs (Decidable ((s.thr c).pc = caller_pc.call))
  | send_ok c => inferInstanceAs (Decidable ((s.thr c).pc = caller_pc.send))
  | send_fail c => inferInstanceAs (Decidable ((s.thr c).pc = caller_pc.send))
  | timeout c => inferInstanceAs (Decidable ((s.thr c).pc = caller_pc.wait))
  | wake c _ =>
    inferInstanceAs (Decidable ((s.thr c).pc = caller_pc.wait ∧ (s.ctx c).iodone ≠ 0))
  | retry c =>
    match h : (s.thr c).pc with
    | caller_pc.back rc =>
      if e : execute_again rc (s.ctx c).ioresult then
        isTrue (by simp only [transport_enabled, h]; exact e)
      else isFalse (by simp only [transport_enabled, h]; exact e)
    | caller_pc.idle => isFalse (by simp only [transport_enabled, h]; exact id)
    | caller_pc.execute => isFalse (by simp only [transport_enabled, h]; exact id)
    | caller_pc.call => isFalse (by simp only [transport_enabled, h]; exact id)
    | caller_pc.send => isFalse (by simp only [transport_enabled, h]; exact id)
    | caller_pc.wait => isFalse (by simp only [transport_enabled, h]; exact id)
  | release c =>
    match h : (s.thr c).pc with
    | caller_pc.back rc =>
      if e : execute_again rc (s.ctx c).ioresult then
        isFalse (by simp only [transport_enabled, h]; exact fun n => n e)
      else isTrue (by simp only [transport_enabled, h]; exact e)
    | caller_pc.idle => isFalse (by simp only [transport_enabled, h]; exact id)
    | caller_pc.execute => isFalse (by simp only [transport_enabled, h]; exact id)
    | caller_pc.call => isFalse (by simp only [transport_enabled, h]; exact id)
    | caller_pc.send => isFalse (by simp only [transport_enabled, h]; exact id)
    | caller_pc.wait => isFalse (by simp only [transport_enabled, h]; exact id)
  | deliver _ _ _ => isTrue trivial
  | reconnect => isTrue trivial

/-- The steps to two pending calls: the callers of the contexts 0 and 1, one after the
other, take their context, get an XID, encode and send. -/
def pending_steps : List transport_action :=
  [acquire 0, assign_xid 0, encode 0, send_ok 0, acquire 1, assign_xid 1, encode 1, send_ok 1]

/-- The state after the first `k` of these steps, the counter seeded with the last
32-bit value. -/
def pending_run (k : Nat) : transport :=
  transport_run (pending_steps.take k) (transport_init 4294967295 4096 4096)

/-! ## The receiving thread: `fs_new_socket_ready`, `fs_connect` -/

/-- The loop of `fs_new_socket_ready` over the nodes of `rpc_calls` not visited yet:
the context is taken off the list, its `iodone` is set and its `ioresult` becomes
`-EAGAIN`. -/
def fs_new_socket_ready_loop : List Nat → transport → transport
  | [], s => s
  | c :: nxt, s =>
    fs_new_socket_ready_loop nxt
      { s with
        rpc_calls := s.rpc_calls.erase c
        ctx := Function.update s.ctx c { s.ctx c with iodone := 1, ioresult := -EAGAIN } }

/-- The function `fs_new_socket_ready` (the broadcast on `sockless` wakes threads and
changes no variable). -/
def fs_new_socket_ready (s : transport) : transport :=
  fs_new_socket_ready_loop s.rpc_calls s

/-- The function `fs_connect`: `sock` is what `rresvport` or `socket` returned,
`connected` tells whether `connect` succeeded. It returns the socket, or a negative
number. -/
def fs_connect (sock : Int) (connected : Bool) (s : transport) : Int × transport :=
  if sock ≥ 0 then
    if connected then (sock, fs_new_socket_ready s) else (-1, s)
  else (sock, s)

/-! ## Records on the socket: the record mark, `fs_rpc_read_reply`, `fs_got_rpc_reply`

A record on the TCP connection is a record mark of four bytes (the length of the record,
most significant byte first, with bit 31 set on the last fragment) followed by the
record, whose first four bytes are the XID. The byte order of the host is a parameter
`le` (true on a little-endian host) of the functions that move 32-bit numbers between
variables and buffers. -/

/-- The four bytes of a 32-bit number, most significant first. -/
def be_bytes (v : Nat) : List Nat :=
  [v / 2 ^ 24 % 256, v / 2 ^ 16 % 256, v / 2 ^ 8 % 256, v % 256]

/-- The number four bytes stand for, most significant first. -/
def be_value : List Nat → Nat
  | [b0, b1, b2, b3] => b0 * 2 ^ 24 + b1 * 2 ^ 16 + b2 * 2 ^ 8 + b3
  | _ => 0

/-- The four bytes a 32-bit variable with value `v` occupies in the memory of the host,
lowest address first (what `memcpy(buf, &v, 4)` copies). -/
def host_bytes (le : Bool) (v : Nat) : List Nat :=
  if le then (be_bytes v).reverse else be_bytes v

/-- The value of a 32-bit variable whose memory holds the four bytes `b` (what a `read`
into the variable leaves). -/
def host_value (le : Bool) (b : List Nat) : Nat :=
  be_value (if le then b.reverse else b)

/-- Modelled from the spec: the library function `ntohl` (the same function as `htonl`):
the bytes of the argument in memory, read most significant first. -/
def ntohl (le : Bool) (v : Nat) : Nat := be_value (host_bytes le v)

/-- Modelled from the spec: the errno values `E2BIG` and `ETIMEDOUT` (system header, not
among the sources), with their values on Linux. -/
def E2BIG : Int := 7
def ETIMEDOUT : Int := 110

/-- The buffer `buf` after `bytes` have been stored at offset `off`. -/
def poke (buf : List Nat) (off : Nat) (bytes : List Nat) : List Nat :=
  buf.take off ++ bytes ++ buf.drop (off + bytes.length)

/-- The socket as the receiving thread sees it: `wire` holds the bytes the server has
sent and no `read` has returned yet; `reads` says for each of the coming calls of
`read` what it does (a positive number `r`: at most `r` bytes are returned; 0: the call
returns 0; a negative number `-e`: the call fails with `errno = e`); `errno` is the
variable `errno`. -/
structure sock where
  wire : List Nat
  reads : List Int
  errno : Int
  deriving DecidableEq, Repr

/-- What one call of `read` leaves: the value returned, the bytes stored in the buffer,
the bytes left on the connection, `errno`. -/
structure read_result where
  bc : Int
  data : List Nat
  wire : List Nat
  errno : Int
  deriving DecidableEq, Repr

/-- Modelled from the spec: the system call `read(sock, buf, n)`, `r` being what the
script says about this call. -/
def sock_read (r : Int) (n : Nat) (wire : List Nat) (errno : Int) : read_result :=
  if r > 0 then
    let bc := min (min r.toNat n) wire.length
    ⟨bc, wire.take bc, wire.drop bc, errno⟩
  else if r = 0 then ⟨0, [], wire, errno⟩
  else ⟨-1, [], wire, -r⟩

/-- What the first loop of `fs_rpc_read_reply` leaves: the function returns `-errno`
(`failed`), or the eight bytes of the header are read (`header`). -/
inductive header_out
  | failed (ret : Int) (k : sock)
  | header (buf : List Nat) (k : sock)
  deriving DecidableEq, Repr

/-- The first loop of `fs_rpc_read_reply`, `while (cnt < 8)`; `buf` holds the `cnt`
bytes read so far. `none`: the calls of `read` in the script do not suffice for the loop
to end. -/
def fs_rpc_read_reply_header : List Int → List Nat → Int → List Nat → Option header_out
  | [], wire, errno, buf =>
    if buf.length < 8 then none else some (header_out.header buf ⟨wire, [], errno⟩)
  | r :: reads, wire, errno, buf =>
    if buf.length < 8 then
      let o := sock_read r (8 - buf.length) wire errno
      if o.bc < 0 then some (header_out.failed (-o.errno) ⟨o.wire, reads, o.errno⟩)
      else fs_rpc_read_reply_header reads o.wire o.errno (buf ++ o.data)
    else some (header_out.header buf ⟨wire, r :: reads, errno⟩)

/-- The last loop of `fs_rpc_read_reply`, `while (cnt > 0)`, which reads the rest of a
record nobody waits for into `sink`, and the `return` after it: the value returned and
the socket. `none`: the calls of `read` in the script do not suffice. -/
def fs_rpc_read_reply_drain : List Int → List Nat → Int → Nat → Option (Int × sock)
  | [], wire, errno, cnt => if cnt > 0 then none else some (0, ⟨wire, [], errno⟩)
  | r :: reads, wire, errno, cnt =>
    if cnt > 0 then
      let rb := if cnt > 256 then 256 else cnt
      let o := sock_read r rb wire errno
      if o.bc ≤ 0 then some (-o.errno, ⟨o.wire, reads, o.errno⟩)
      else fs_rpc_read_reply_drain reads o.wire o.errno (cnt - o.bc.toNat)
    else some (0, ⟨wire, r :: reads, errno⟩)

/-- The loop of `fs_got_rpc_reply`, `while (sz > 0)`: the bytes stored behind the XID so
far are `got`; it leaves these bytes, `ctx->ioresult` and the socket. `none`: the calls
of `read` in the script do not suffice. -/
def fs_got_rpc_reply_loop :
    List Int → List Nat → Int → Nat → List Nat → Int → Option (List Nat × Int × sock)
  | [], wire, errno, sz, got, ioresult =>
    if sz > 0 then none else some (got, ioresult, ⟨wire, [], errno⟩)
  | r :: reads, wire, errno, sz, got, ioresult =>
    if sz > 0 then
      let o := sock_read r sz wire errno
      if o.bc ≤ 0 then
        some (got, -(if o.bc < 0 then o.errno else ETIMEDOUT), ⟨o.wire, reads, o.errno⟩)
      else
        fs_got_rpc_reply_loop reads o.wire o.errno (sz - o.bc.toNat) (got ++ o.data)
          (ioresult + o.bc)
    else some (got, ioresult, ⟨wire, r :: reads, errno⟩)

/-- The function `fs_got_rpc_reply(ctx, sock, sz, xid)` on the context `c`, which the
caller has taken off the list: the value returned, the state and the socket. `none`:
the calls of `read` in the script do not suffice, or the four bytes of the XID are
stored in a receive buffer of fewer than four bytes. -/
def fs_got_rpc_reply (le : Bool) (s : transport) (c : Nat) (k : sock) (sz xid : Nat) :
    Option (Int × transport × sock) :=
  if sz > (s.ctx c).recvbuf_sz then some (-E2BIG, s, k)
  else if (s.ctx c).recvbuf_sz < 4 then none
  else
    match fs_got_rpc_reply_loop k.reads k.wire k.errno (sz - 4) [] 4 with
    | none => none
    | some (got, ioresult, k1) =>
      some (ioresult,
        { s with
          ctx := Function.update s.ctx c
            { s.ctx c with
              recvbuf := poke (poke (s.ctx c).recvbuf 0 (host_bytes le xid)) 4 got
              ioresult := ioresult
              iodone := 1 } },
        k1)

/-- The record mark `fs_rpc_read_reply` takes from the first four bytes of the header:
`ntohl`, then bit 31 cleared. -/
def header_recmark (le : Bool) (buf : List Nat) : Nat :=
  ntohl le (host_value le (buf.take 4)) % 2 ^ 31

/-- The XID `fs_rpc_read_reply` takes from the last four bytes of the header. -/
def header_xid (le : Bool) (buf : List Nat) : Nat :=
  ntohl le (host_value le (buf.drop 4))

/-- The function `fs_rpc_read_reply(sock)`: the value returned, the state and the
socket. `none`: as for the loops and `fs_got_rpc_reply`. -/
def fs_rpc_read_reply (le : Bool) (s : transport) (k : sock) :
    Option (Int × transport × sock) :=
  match fs_rpc_read_reply_header k.reads k.wire k.errno [] with
  | none => none
  | some (header_out.failed ret k1) => some (ret, s, k1)
  | some (header_out.header buf k1) =>
    match s.rpc_calls.find? (fun c => (s.ctx c).rpc_xid = header_xid le buf) with
    | some c =>
      fs_got_rpc_reply le { s with rpc_calls := s.rpc_calls.erase c } c k1
        (header_recmark le buf) (header_xid le buf)
    | none =>
      match fs_rpc_read_reply_drain k1.reads k1.wire k1.errno (header_recmark le buf - 4) with
      | none => none
      | some (ret, k2) => some (ret, s, k2)

/-! ## The record `fs_compoundv4_call` sends -/

/-- Modelled from the spec: the XDR memory stream of the RPC library (`xdrmem_create`,
the encoders `xdr_callmsg` and `xdr_COMPOUND4args`, `xdr_getpos`; not among the
sources). `msg` being the XDR encoding of the call message with the compound, the
encoders succeed on a stream of `size` bytes if and only if `msg` fits; the stream then
holds `msg` and its position is the length of `msg`. `none`: an encoder fails. -/
def xdrmem_encode (size : Nat) (msg : List Nat) : Option (List Nat) :=
  if msg.length ≤ size then some msg else none

/-- What `fs_compoundv4_call` has done when it enters the send loop, or that it does not
enter it: `cant_encode` (the function returns `RPC_CANTENCODEARGS`), or the context, the
value of `pos` (the number of bytes the loop writes to the socket) and the bytes
`sendbuf[0 .. pos)` it writes. -/
inductive frame_out
  | cant_encode
  | framed (ctx : fs_rpc_io_context) (pos : Nat) (record : List Nat)
  deriving DecidableEq, Repr

/-- The part of `fs_compoundv4_call` from `xdrmem_create` to the send loop, `rm_xid`
being `rmsg.rm_xid` and `msg` the XDR encoding of the call. The stream starts at
`sendbuf + 4` and has `sendbuf_sz` bytes; `recvbuf` lies right behind `sendbuf`, so the
bytes stored beyond `sendbuf` land in `recvbuf`. `none`: bytes are stored beyond the
end of `recvbuf`. (The content of the buffer after an encoder has failed is left
open.) -/
def fs_compoundv4_call_frame (le : Bool) (ctx : fs_rpc_io_context) (rm_xid : Nat)
    (msg : List Nat) : Option frame_out :=
  match xdrmem_encode ctx.sendbuf_sz msg with
  | none => some frame_out.cant_encode
  | some payload =>
    let mem := ctx.sendbuf ++ ctx.recvbuf
    if 4 + payload.length > mem.length then none
    else
      let pos := payload.length % 2 ^ 32
      let recmark := ntohl le ((pos ||| 2 ^ 31) % 2 ^ 32)
      let mem1 := poke (poke mem 4 payload) 0 (host_bytes le recmark)
      let pos1 := (pos + 4) % 2 ^ 32
      some (frame_out.framed
        { ctx with
          rpc_xid := rm_xid
          sendbuf := mem1.take ctx.sendbuf_sz
          recvbuf := mem1.drop ctx.sendbuf_sz }
        pos1 (mem1.take pos1))

/-- A context with buffers of 8 bytes each, zeroed. -/
def small_ctx : fs_rpc_io_context :=
  { rpc_xid := 0, iodone := 0, ioresult := 0, recvbuf_sz := 8, sendbuf_sz := 8,
    sendbuf := List.replicate 8 0, recvbuf := List.replicate 8 0 }

/-! ## The client id: `fs_setclientid`, `fs_clientid_renewer`, and the socket of
`fs_rpc_recv` -/

/-- What `fs_setclientid` gets from the system and the library (`getsockname`, whose
`errno` is 0 when it succeeds; the verifier made from `ServerBootTime`; the client name
made by `snprintf` from the address of the socket and the pid; the universal address
`taddr2uaddr` returns). -/
structure setclientid_input where
  getsockname_errno : Int
  verifier : List Nat
  clientid_name : List Char
  r_addr : List Char
  deriving DecidableEq, Repr

/-- What `fs_setclientid` leaves: the value returned, `*resultclientid`, `*lease_time`
and the compounds handed to the executor so far. -/
structure setclientid_out where
  ret : Int
  resultclientid : Nat
  lease_time : Nat
  calls : List (List nfs_argop4)
  deriving DecidableEq, Repr

/-- The function `fs_setclientid(resultclientid, lease_time)`; the last two arguments
are the values behind the pointers on entry. `none`: the function read a result slot
the reply did not fill. -/
def fs_setclientid (exec : Executor) (calls : List (List nfs_argop4))
    (inp : setclientid_input) (resultclientid lease_time : Nat) : Option setclientid_out :=
  if inp.getsockname_errno ≠ 0 then
    some ⟨-inp.getsockname_errno, resultclientid, lease_time, calls⟩
  else
    let arg := [SETCLIENTID inp.verifier inp.clientid_name 0x40000000 ['t', 'c', 'p']
      inp.r_addr 1]
    let reply := exec calls arg
    let calls1 := calls ++ [arg]
    if reply.rc ≠ NFS4_OK then some ⟨-1, resultclientid, lease_time, calls1⟩
    else
      match reply.resoparray.get? 0 with
      | none => none
      | some sok =>
        let arg1 := [SETCLIENTID_CONFIRM sok.clientid sok.setclientid_confirm]
        let reply1 := exec calls1 arg1
        let calls2 := calls1 ++ [arg1]
        if reply1.rc ≠ NFS4_OK then some ⟨-1, resultclientid, lease_time, calls2⟩
        else some ⟨0, sok.clientid, 60, calls2⟩

/-- The variables the receiving thread and the lease keeper share or keep: the static
`fs_clientid`, the static `rpc_sock`, the locals `needed` and `lease_time` of
`fs_clientid_renewer`, whether the lease keeper has reached `fs_rpc_need_sock`, and the
compounds handed to the executor so far. -/
structure clientid_state where
  fs_clientid : Nat
  rpc_sock : Int
  needed : Int
  lease_time : Nat
  need_sock : Bool
  calls : List (List nfs_argop4)
  deriving DecidableEq, Repr

/-- The state at program start: `fs_clientid` is zero, `rpc_sock` is -1, the lease
keeper starts with `needed = 1` and `lease_time = 60`. -/
def clientid_init : clientid_state :=
  { fs_clientid := 0, rpc_sock := -1, needed := 1, lease_time := 60, need_sock := false,
    calls := [] }

/-- The steps on these variables. Of the receiving thread `fs_rpc_recv`: `sock_closed`
(the connection is dropped: `close(rpc_sock); rpc_sock = -1`) and `connected`
(`fs_connect` returns a socket). Of the lease keeper `fs_clientid_renewer`: `renew`
(the body of its loop up to `fs_rpc_need_sock`; `timed_out` tells whether
`fs_rpc_renewer_wait` returns true) and `negotiate` (the rest of the body, from the
return of `fs_rpc_need_sock` on). -/
inductive clientid_action
  | sock_closed
  | connected (sock : Int)
  | renew (timed_out : Bool)
  | negotiate (inp : setclientid_input)
  deriving DecidableEq, Repr

/-- The effect of a step. `none`: as for `fs_setclientid`. -/
def clientid_step (exec : Executor) :
    clientid_action → clientid_state → Option clientid_state
  | clientid_action.sock_closed, s => some { s with rpc_sock := -1 }
  | clientid_action.connected sock, s => some { s with rpc_sock := sock }
  | clientid_action.renew timed_out, s =>
    if s.needed = 0 ∧ timed_out = true then
      let arg := [RENEW s.fs_clientid]
      let reply := exec s.calls arg
      if reply.rc = NFS4_OK then some { s with calls := s.calls ++ [arg] }
      else some { s with calls := s.calls ++ [arg], need_sock := true }
    else some { s with need_sock := true }
  | clientid_action.negotiate inp, s =>
    let newcid := 0
    match fs_setclientid exec s.calls inp newcid s.lease_time with
    | none => none
    | some o =>
      some { s with
        needed := o.ret
        lease_time := o.lease_time
        calls := o.calls
        need_sock := false
        fs_clientid := if o.ret = 0 then o.resultclientid else s.fs_clientid }

/-- The place a step starts from: the connection can be dropped when there is one and
made when there is none; the lease keeper is at the top of its loop or in
`fs_rpc_need_sock`, which returns when there is a socket. -/
def clientid_enabled : clientid_action → clientid_state → Prop
  | clientid_action.sock_closed, s => 0 ≤ s.rpc_sock
  | clientid_action.connected sock, s => s.rpc_sock < 0 ∧ 0 ≤ sock
  | clientid_action.renew _, s => s.need_sock = false
  | clientid_action.negotiate _, s => s.need_sock = true ∧ 0 ≤ s.rpc_sock

instance (a : clientid_action) (s : clientid_state) : Decidable (clientid_enabled a s) := by
  cases a <;> unfold clientid_enabled <;> infer_instance

/-- The state after a sequence of steps, each taken from where it starts; `none` when a
step is not enabled or has no outcome. -/
def clientid_run (exec : Executor) :
    List clientid_action → clientid_state → Option clientid_state
  | [], s => some s
  | a :: as, s =>
    if clientid_enabled a s then
      match clientid_step exec a s with
      | none => none
      | some s1 => clientid_run exec as s1
    else none

/-- A server that grants the client id 77 with the verifier 1, 2, 3, 4, 5, 6, 7, 8 and
accepts every other operation. -/
def exec_clientid : Executor :=
  fun _ ops =>
    ⟨NFS4_OK, ops.map (fun o =>
      { resop := o.argop, status := NFS4_OK, clientid := 77,
        setclientid_confirm := [1, 2, 3, 4, 5, 6, 7, 8] })⟩

/-- What `fs_setclientid` gets from the system in the examples. -/
def setclientid_input0 : setclientid_input :=
  ⟨0, [0, 0, 0, 0, 0, 0, 0, 1], "10.0.0.1(4242) - GANESHA NFSv4 Proxy".toList,
    "10.0.0.1.3.24".toList⟩

/-- The steps to a dropped connection with a client id in use: the connection is made,
the lease keeper negotiates a client id, the connection is dropped. -/
def dropped_steps : List clientid_action :=
  [clientid_action.connected 5, clientid_action.renew false,
   clientid_action.negotiate setclientid_input0, clientid_action.sock_closed]

/-- The compound of the first call of `fs_setclientid`: SETCLIENTID. -/
def setclientid_ops (inp : setclientid_input) : List nfs_argop4 :=
  [SETCLIENTID inp.verifier inp.clientid_name 0x40000000 ['t', 'c', 'p'] inp.r_addr 1]

/-- The stored client id is zero or the id of a SETCLIENTID_CONFIRM handed to the
executor. -/
def clientid_confirmed (s : clientid_state) : Prop :=
  s.fs_clientid = 0 ∨ ∃ v, [SETCLIENTID_CONFIRM s.fs_clientid v] ∈ s.calls

/-! ## Inputs used in the examples on the create attributes -/

/-- A batch element that creates the file `/f` with a mode: `is_creation` is set and the
attribute mask holds `ATTR_MODE` (of `env0`) only. -/
def create_item : tcread_kargs :=
  ⟨⟨0, 4096, [], true, false, false⟩, some ['/', 'f'],
    ⟨128, object_file_type_t.REGULAR_FILE, 0, 420, 0, 0⟩⟩

/-! ## Vocabulary of the statements on the owner strings -/

/-- The number a string of decimal digits stands for. -/
def digits_value (ds : List Char) : Nat :=
  ds.foldl (fun a c => 10 * a + (c.toNat - 48)) 0

/-! ## Inputs used in the examples on the transport with timeouts -/

/-- The steps of one caller, on context 0, whose wait times out just before the reply
arrives and whose second write then fails: the record is sent and the context
registered; the timed wait expires; the receiving thread delivers the reply (64 bytes,
XID 100); the write of the re-send fails and the socket is closed; the receiving thread
connects again; the executor tries again: a new XID, the record is sent and the context
registered once more; `fs_process_reply` returns at once; the executor puts the context
back on the free list. -/
def stale_steps : List transport_action :=
  [acquire 0, assign_xid 0, encode 0, send_ok 0, timeout 0, deliver 100 64 64, send_fail 0,
   reconnect, retry 0, assign_xid 0, encode 0, send_ok 0,
   wake 0 (rpc_reply.accepted accept_stat.SUCCESS NFS4_OK), release 0]

/-- The state after the first `k` of these steps, the counter seeded with 100. -/
def stale_run (k : Nat) : transport :=
  transport_run (stale_steps.take k) (transport_init 100 4096 4096)

/-- The context whose caller takes the step (`none` for a step of the receiving
thread). -/
def transport_action.caller : transport_action → Option Nat
  | acquire c => some c
  | assign_xid c => some c
  | auth_fail c => some c
  | encode_fail c => some c
  | encode c => some c
  | send_ok c => some c
  | send_fail c => some c
  | timeout c => some c
  | wake c _ => some c
  | retry c => some c
  | release c => some c
  | deliver _ _ _ => none
  | reconnect => none

/-! ## Inputs used in the examples on the records on the socket -/

/-- One call pending, on context 0, with the XID 16909060 (the bytes 1, 2, 3, 4);
buffers of 64 bytes. -/
def one_pending : transport :=
  transport_run [acquire 0, assign_xid 0, encode 0, send_ok 0] (transport_init 16909060 64 64)

/-- A connection that holds a record of 8 bytes (record mark with bit 31 set) with the
XID 16909060 and the four bytes 9, 8, 7, 6, and then the first byte of the next record
mark; the calls of `read` return at most 3, 5, 2, 2 bytes and then one byte each. -/
def reply_sock : sock :=
  ⟨[128, 0, 0, 8, 1, 2, 3, 4, 9, 8, 7, 6, 128], [3, 5, 2, 2, 1, 1, 1, 1, 1, 1, 1, 1], 0⟩

/-- The same record with the XID 16909061 (the bytes 1, 2, 3, 5), which no call is
waiting for. -/
def stray_sock : sock :=
  ⟨[128, 0, 0, 8, 1, 2, 3, 5, 9, 8, 7, 6, 128], [3, 5, 2, 2, 1, 1, 1, 1, 1, 1, 1, 1], 0⟩

/-! ## Inputs and vocabulary of the statements on a context registered twice and on the
open owner as the encoder reads it -/

/-- What the encoder reads for a slot when `ktcread` / `ktcwrite` hand the array to
`fs_nfsv4_call`. The slot of an OPEN holds `owner.owner_val`, a pointer, and
`owner.owner_len`; `do_ktcread` and `do_ktcwrite` store there the address of their local
array `owner_val` and the length of the string in it, and they have returned when the
array is encoded. The calls come from one loop, so their frames lie at the same
address: every OPEN slot of the batch points to the same memory, which no longer
belongs to an object; `stack` is what that memory holds when the encoder reads it, and
the encoder takes `owner_len` bytes of it. (The owner of an OPEN of the model is what
`owner_val` held when the slot was filled.) -/
def nfs_argop4.encoded (stack : List Char) : nfs_argop4 → nfs_argop4
  | OPEN create seqid clientid attrs name owner =>
    OPEN create seqid clientid attrs name (stack.take owner.length)
  | o => o

/-- The owners of the OPEN operations of an array, in order. -/
def open_owners : List nfs_argop4 → List (List Char)
  | [] => []
  | OPEN _ _ _ _ _ owner :: ops => owner :: open_owners ops
  | _ :: ops => open_owners ops

/-! ## Lemmas: tokens and the path resolver -/

theorem do_ktcread_eq : do_ktcread = do_ktc io_read := rfl

theorem do_ktcwrite_eq : do_ktcwrite = do_ktc io_write := rfl

theorem ktcread_build_eq (env : Env) (ks : List tcread_kargs) (ops : List nfs_argop4)
    (fcnt : Nat) : ktcread_build env ks ops fcnt = ktc_build io_read env ks ops fcnt := by
  induction ks generalizing ops fcnt with
  | nil => rfl
  | cons k ks ih =>
    simp only [ktcread_build, ktc_build, do_ktcread_eq]
    cases do_ktc io_read env k ops fcnt with
    | none => rfl
    | some r => simp only [ih]

theorem ktcwrite_build_eq (env : Env) (ks : List tcread_kargs) (ops : List nfs_argop4)
    (fcnt : Nat) : ktcwrite_build env ks ops fcnt = ktc_build io_write env ks ops fcnt := by
  induction ks generalizing ops fcnt with
  | nil => rfl
  | cons k ks ih =>
    simp only [ktcwrite_build, ktc_build, do_ktcwrite_eq]
    cases do_ktc io_write env k ops fcnt with
    | none => rfl
    | some r => simp only [ih]

theorem strtok_r_slash_free (c rest : List Char) (h : '/' ∉ c) (cur : List Char) :
    strtok_r (c ++ rest) cur = strtok_r rest (c.reverse ++ cur) := by
  induction c generalizing cur with
  | nil => rfl
  | cons a c ih =>
    have ha : a ≠ '/' := fun e => h (by simp [e])
    have hc : '/' ∉ c := fun e => h (by simp [e])
    have step : strtok_r (a :: (c ++ rest)) cur = strtok_r (c ++ rest) (a :: cur) := by
      simp only [strtok_r, if_neg ha]
    rw [List.cons_append, step, ih hc]
    simp

theorem strtok_r_slash_join (cs : List (List Char)) (h : ∀ c ∈ cs, c ≠ [] ∧ '/' ∉ c)
    (cur : List Char) :
    strtok_r (slash_join cs) cur = if cur = [] then cs else cur.reverse :: cs := by
  induction cs generalizing cur with
  | nil => simp [slash_join, strtok_r]
  | cons c cs ih =>
    have hc := h c (by simp)
    have hcs : ∀ d ∈ cs, d ≠ [] ∧ '/' ∉ d := fun d hd => h d (by simp [hd])
    have key : strtok_r (c ++ slash_join cs) [] = c :: cs := by
      rw [strtok_r_slash_free c _ hc.2, ih hcs]
      simp [hc.1]
    simp only [slash_join, strtok_r, if_true, key]

theorem slash_join_snoc_ne_nil (ds : List (List Char)) (name : List Char) :
    ∃ x, slash_join (ds ++ [name]) = '/' :: x := by
  cases ds with
  | nil => exact ⟨_, rfl⟩
  | cons d ds => exact ⟨_, rfl⟩

/-- On the tokens of a path `/dirs.../name` the loop either looks up every directory
and leaves the marker on `name`, or stops at a directory name that does not fit the
name buffer. -/
theorem construct_lookup_loop_canon (M : Nat) (path : List Char) (dirs : List (List Char))
    (name : List Char) (hd : ∀ c ∈ dirs, c ≠ ['.', '.']) (hn : name ≠ ['.', '.'])
    (ops : List nfs_argop4) (marker : Nat)
    (hp : path.drop marker = (slash_join (dirs ++ [name])).drop 1) :
    (∃ m, construct_lookup_loop M path (dirs ++ [name]) ops marker
        = lookup_ret.ok (ops ++ dirs.map LOOKUP) m ∧ path.drop m = name)
    ∨ (construct_lookup_loop M path (dirs ++ [name]) ops marker = lookup_ret.undef
        ∧ ∃ c ∈ dirs, ¬ c.length < M) := by
  induction dirs generalizing ops marker with
  | nil =>
    left
    refine ⟨marker, ?_, ?_⟩
    · simp [construct_lookup_loop, hn]
    · simpa [slash_join] using hp
  | cons d ds ih =>
    obtain ⟨x, hx⟩ := slash_join_snoc_ne_nil ds name
    have hp2 : path.drop marker = d ++ '/' :: x := by
      rw [hp]; simp [slash_join, hx]
    have hne : d ≠ ['.', '.'] := hd d (by simp)
    have hds : ∀ c ∈ ds, c ≠ ['.', '.'] := fun c hc => hd c (by simp [hc])
    obtain ⟨t, ts, hts⟩ : ∃ t ts, ds ++ [name] = t :: ts := by
      cases ds with
      | nil => exact ⟨_, _, rfl⟩
      | cons a b => exact ⟨_, _, rfl⟩
    by_cases hlen : d.length < M
    · have hstep : construct_lookup_loop M path (d :: ds ++ [name]) ops marker
          = construct_lookup_loop M path (ds ++ [name])
              (ops ++ [LOOKUP ((path.drop marker).take d.length)])
              (marker + (d.length + 1)) := by
        rw [List.cons_append, hts]
        simp [construct_lookup_loop, hne, hlen]
      have htake : (path.drop marker).take d.length = d := by
        rw [hp2]; simp
      have hdrop : path.drop (marker + (d.length + 1)) = (slash_join (ds ++ [name])).drop 1 := by
        rw [← List.drop_drop, hp2, hx]
        simp [List.drop_append]
      rcases ih hds (ops ++ [LOOKUP ((path.drop marker).take d.length)])
          (marker + (d.length + 1)) hdrop with ⟨m, h1, h2⟩ | ⟨h1, c, hc, hcl⟩
      · left
        refine ⟨m, ?_, h2⟩
        rw [hstep, h1, htake]
        simp
      · right
        exact ⟨by rw [hstep, h1], c, by simp [hc], hcl⟩
    · right
      refine ⟨?_, d, by simp, hlen⟩
      rw [List.cons_append, hts]
      simp [construct_lookup_loop, hne, hlen]

/-- Whatever the tokens, an accepted path adds LOOKUP operations only, one for each
token but the last. -/
theorem construct_lookup_loop_ok (M : Nat) (path : List Char) (toks : List (List Char))
    (ops : List nfs_argop4) (marker : Nat) (ops2 : List nfs_argop4) (m : Nat)
    (h : construct_lookup_loop M path toks ops marker = lookup_ret.ok ops2 m) :
    ∃ names : List (List Char), ops2 = ops ++ names.map LOOKUP
      ∧ names.length = toks.length - 1 := by
  induction toks generalizing ops marker with
  | nil =>
    simp [construct_lookup_loop] at h
    exact ⟨[], by simp [h.1], rfl⟩
  | cons p rest ih =>
    cases rest with
    | nil =>
      by_cases hp : p = ['.', '.']
      · simp [construct_lookup_loop, hp] at h
      · simp [construct_lookup_loop, hp] at h
        exact ⟨[], by simp [h.1], rfl⟩
    | cons q rest =>
      by_cases hp : p = ['.', '.']
      · simp [construct_lookup_loop, hp] at h
      · by_cases hlen : p.length < M
        · simp only [construct_lookup_loop, if_neg hp, if_pos hlen] at h
          obtain ⟨names, h1, h2⟩ := ih _ _ h
          refine ⟨(path.drop marker).take p.length :: names, ?_, ?_⟩
          · simp [h1]
          · simp [h2]
        · simp [construct_lookup_loop, hp, hlen] at h

/-- A `..` token is never accepted. -/
theorem construct_lookup_loop_dotdot (M : Nat) (path : List Char) (toks : List (List Char))
    (ops : List nfs_argop4) (marker : Nat) (hdd : ['.', '.'] ∈ toks) (ops2 : List nfs_argop4)
    (m : Nat) : construct_lookup_loop M path toks ops marker ≠ lookup_ret.ok ops2 m := by
  induction toks generalizing ops marker with
  | nil => simp at hdd
  | cons p rest ih =>
    by_cases hp : p = ['.', '.']
    · simp [construct_lookup_loop, hp]
    · have hr : ['.', '.'] ∈ rest := by
        rcases List.mem_cons.mp hdd with h | h
        · exact absurd h.symm hp
        · exact h
      cases rest with
      | nil => simp at hr
      | cons q rest =>
        by_cases hlen : p.length < M
        · simp only [construct_lookup_loop, if_neg hp, if_pos hlen]
          exact ih _ _ hr
        · simp [construct_lookup_loop, hp, hlen]

/-- With every token shorter than the name buffer the loop is defined. -/
theorem construct_lookup_loop_defined (M : Nat) (path : List Char) (toks : List (List Char))
    (ops : List nfs_argop4) (marker : Nat) (hs : ∀ t ∈ toks, t.length < M) :
    construct_lookup_loop M path toks ops marker ≠ lookup_ret.undef := by
  induction toks generalizing ops marker with
  | nil => simp [construct_lookup_loop]
  | cons p rest ih =>
    have hlen : p.length < M := hs p (by simp)
    have hrest : ∀ t ∈ rest, t.length < M := fun t ht => hs t (by simp [ht])
    by_cases hp : p = ['.', '.']
    · simp [construct_lookup_loop, hp]
    · cases rest with
      | nil => simp [construct_lookup_loop, hp]
      | cons q rest =>
        simp only [construct_lookup_loop, if_neg hp, if_pos hlen]
        exact ih _ _ hrest

/-! ## Lemmas: one element of the batch -/

/-- What a call of the common form returns, case by case. -/
theorem do_ktc_spec (io : tc_iovec → nfs_argop4) (env : Env) (ka : tcread_kargs)
    (ops : List nfs_argop4) (fcnt : Nat) (r : do_out)
    (h : do_ktc io env ka ops fcnt = some r) :
    r.kern_arg = reset_item env ka ∧ r.fcnt = atomic_inc_uint64_t fcnt ∧
    ((r.st.major = ERR_FSAL_INVAL ∧ r.ops = ops)
      ∨ (r.st = fsalstat ERR_FSAL_NO_ERROR 0 ∧ ka.path = none ∧ ops ≠ []
          ∧ r.ops = ops ++ [io (reset_item env ka).user_arg])
      ∨ (r.st = fsalstat ERR_FSAL_NO_ERROR 0 ∧
          ∃ path ops2 marker attrs owner, ka.path = some path
            ∧ construct_lookup env.MAX_FILENAME_LENGTH path
                (if ops.length ≠ 0 then ops ++ [CLOSE_NOSTATE] else ops)
              = lookup_ret.ok ops2 marker
            ∧ r.ops = ops2 ++ [OPEN ka.user_arg.is_creation 0 env.fs_clientid attrs
                (path.drop marker) owner, io (reset_item env ka).user_arg])) := by
  unfold do_ktc at h
  simp only at h
  split at h
  · simp only [Option.some.injEq] at h
    subst h
    exact ⟨rfl, rfl, Or.inl ⟨rfl, rfl⟩⟩
  · split at h
    · split at h
      · simp only [Option.some.injEq] at h
        subst h
        exact ⟨rfl, rfl, Or.inl ⟨rfl, rfl⟩⟩
      · rename_i hpath hlen
        simp only [Option.some.injEq] at h
        subst h
        refine ⟨rfl, rfl, Or.inr (Or.inl ⟨rfl, hpath, ?_, rfl⟩)⟩
        intro e
        exact hlen (by simp [e])
    · rename_i path hpath
      split at h
      · exact absurd h (by simp)
      · simp only [Option.some.injEq] at h
        subst h
        exact ⟨rfl, rfl, Or.inl ⟨rfl, rfl⟩⟩
      · rename_i ops2 marker hcl
        simp only [Option.some.injEq] at h
        subst h
        rename_i data _ _ _
        refine ⟨rfl, rfl, Or.inr (Or.inr ⟨rfl, path, ops2, marker,
          ⟨empty_bitmap, data.attr_vals⟩, owner_string env.pid (atomic_inc_uint64_t fcnt),
          hpath, hcl, ?_⟩)⟩
        simp [reset_item]

/-- An accepted path adds one PUTROOTFH and then LOOKUP operations only. -/
theorem construct_lookup_ok (M : Nat) (path : List Char) (ops ops2 : List nfs_argop4)
    (m : Nat) (h : construct_lookup M path ops = lookup_ret.ok ops2 m) :
    ∃ names : List (List Char), ops2 = ops ++ PUTROOTFH :: names.map LOOKUP
      ∧ names.length = (strtok_r path []).length - 1 := by
  unfold construct_lookup at h
  obtain ⟨names, h1, h2⟩ := construct_lookup_loop_ok _ _ _ _ _ _ _ h
  exact ⟨names, by simp [h1], h2⟩

theorem count_op_append (op : nfs_opnum4) (a b : List nfs_argop4) :
    count_op op (a ++ b) = count_op op a + count_op op b := by
  simp [count_op, List.countP_append]

theorem count_op_lookups (op : nfs_opnum4) (hop : op ≠ NFS4_OP_LOOKUP)
    (names : List (List Char)) : count_op op (names.map LOOKUP) = 0 := by
  induction names with
  | nil => rfl
  | cons n ns ih =>
    simp only [count_op, List.map_cons, List.countP_cons] at ih ⊢
    rw [ih]
    have : ¬ NFS4_OP_LOOKUP = op := fun e => hop e.symm
    simp [nfs_argop4.argop, this]

theorem FSAL_IS_ERROR_inval (st : fsal_status_t) (h : st.major = ERR_FSAL_INVAL) :
    FSAL_IS_ERROR st = true := by
  simp [FSAL_IS_ERROR, h]

/-- The operations a successful call of the common form appends. -/
theorem do_ktc_ok_seg (io : tc_iovec → nfs_argop4) (env : Env) (ka : tcread_kargs)
    (ops : List nfs_argop4) (fcnt : Nat) (r : do_out)
    (h : do_ktc io env ka ops fcnt = some r) (hok : FSAL_IS_ERROR r.st = false) :
    r.kern_arg = reset_item env ka ∧ r.fcnt = atomic_inc_uint64_t fcnt ∧
    ((ka.path = none ∧ ops ≠ [] ∧ r.ops = ops ++ [io (reset_item env ka).user_arg])
      ∨ (∃ (path : List Char) (names : List (List Char)) (marker : Nat) (attrs : fattr4)
            (owner : List Char), ka.path = some path
          ∧ construct_lookup env.MAX_FILENAME_LENGTH path
              (if ops.length ≠ 0 then ops ++ [CLOSE_NOSTATE] else ops)
            = lookup_ret.ok
                ((if ops.length ≠ 0 then ops ++ [CLOSE_NOSTATE] else ops)
                  ++ PUTROOTFH :: names.map LOOKUP) marker
          ∧ r.ops = ops ++ ((if ops = [] then [] else [CLOSE_NOSTATE])
              ++ PUTROOTFH :: names.map LOOKUP
              ++ [OPEN ka.user_arg.is_creation 0 env.fs_clientid attrs (path.drop marker) owner])
              ++ [io (reset_item env ka).user_arg])) := by
  obtain ⟨h1, h2, h3⟩ := do_ktc_spec io env ka ops fcnt r h
  refine ⟨h1, h2, ?_⟩
  rcases h3 with ⟨he, _⟩ | ⟨_, hp, hne, hops⟩ | ⟨_, path, ops2, marker, attrs, owner, hp, hcl, hops⟩
  · rw [FSAL_IS_ERROR_inval _ he] at hok
    exact absurd hok (by simp)
  · exact Or.inl ⟨hp, hne, hops⟩
  · right
    obtain ⟨names, hn, _⟩ := construct_lookup_ok _ _ _ _ _ hcl
    refine ⟨path, names, marker, attrs, owner, hp, by rw [hcl, hn], ?_⟩
    rw [hops, hn]
    by_cases ho : ops = []
    · simp [ho]
    · have : ops.length ≠ 0 := fun e => ho (List.length_eq_zero.mp e)
      simp [ho, this]

/-- A build loop that ran to the end, unfolded by one element. -/
theorem ktc_build_cons_ok (io : tc_iovec → nfs_argop4) (env : Env) (k : tcread_kargs)
    (ks : List tcread_kargs) (ops : List nfs_argop4) (fcnt : Nat) (b : build_out)
    (h : ktc_build io env (k :: ks) ops fcnt = some b) (herr : b.err = none) :
    ∃ r b2, do_ktc io env k ops fcnt = some r ∧ FSAL_IS_ERROR r.st = false
      ∧ ktc_build io env ks r.ops r.fcnt = some b2 ∧ b2.err = none ∧ b.ops = b2.ops
      ∧ b.kern_arg = r.kern_arg :: b2.kern_arg ∧ b.fcnt = b2.fcnt := by
  simp only [ktc_build] at h
  cases hd : do_ktc io env k ops fcnt with
  | none => rw [hd] at h; exact absurd h (by simp)
  | some r =>
    rw [hd] at h
    simp only at h
    by_cases he : FSAL_IS_ERROR r.st = true
    · rw [if_pos he] at h
      simp only [Option.some.injEq] at h
      subst h
      exact absurd herr (by simp)
    · rw [if_neg he] at h
      cases hb : ktc_build io env ks r.ops r.fcnt with
      | none => rw [hb] at h; exact absurd h (by simp)
      | some b2 =>
        rw [hb] at h
        simp only [Option.some.injEq] at h
        subst h
        exact ⟨r, b2, rfl, by simpa using he, hb, herr, rfl, rfl, rfl⟩

theorem count_op_cons (op : nfs_opnum4) (o : nfs_argop4) (l : List nfs_argop4) :
    count_op op (o :: l) = count_op op l + if o.argop = op then 1 else 0 := by
  simp [count_op, List.countP_cons]

theorem count_op_nil (op : nfs_opnum4) : count_op op [] = 0 := rfl

theorem argop_PUTROOTFH : PUTROOTFH.argop = NFS4_OP_PUTROOTFH := rfl

theorem argop_LOOKUP (n : List Char) : (LOOKUP n).argop = NFS4_OP_LOOKUP := rfl

theorem argop_OPEN (c : Bool) (s cid : Nat) (a : fattr4) (n o : List Char) :
    (OPEN c s cid a n o).argop = NFS4_OP_OPEN := rfl

theorem argop_READ (o l : Nat) : (READ o l).argop = NFS4_OP_READ := rfl

theorem argop_WRITE (o : Nat) (d : List Nat) (l : Nat) : (WRITE o d l).argop = NFS4_OP_WRITE := rfl

theorem argop_CLOSE : CLOSE_NOSTATE.argop = NFS4_OP_CLOSE := rfl

/-- On a path `/dirs.../name` the resolver either adds PUTROOTFH and a LOOKUP for every
directory, leaving the marker on `name`, or meets a directory name that does not fit
the name buffer. -/
theorem construct_lookup_canon (M : Nat) (dirs : List (List Char)) (name : List Char)
    (hc : ∀ c ∈ dirs ++ [name], component_ok c) (ops : List nfs_argop4) :
    (∃ m, construct_lookup M (slash_join (dirs ++ [name])) ops
        = lookup_ret.ok (ops ++ PUTROOTFH :: dirs.map LOOKUP) m
        ∧ (slash_join (dirs ++ [name])).drop m = name)
    ∨ (construct_lookup M (slash_join (dirs ++ [name])) ops = lookup_ret.undef
        ∧ ∃ c ∈ dirs, ¬ c.length < M) := by
  have htok : strtok_r (slash_join (dirs ++ [name])) [] = dirs ++ [name] := by
    rw [strtok_r_slash_join _ (fun c h => ⟨(hc c h).1, (hc c h).2.1⟩)]
    simp
  have hd : ∀ c ∈ dirs, c ≠ ['.', '.'] := fun c h => (hc c (by simp [h])).2.2
  have hn : name ≠ ['.', '.'] := (hc name (by simp)).2.2
  unfold construct_lookup
  rw [htok]
  rcases construct_lookup_loop_canon M (slash_join (dirs ++ [name])) dirs name hd hn
      (ops ++ [PUTROOTFH]) 1 rfl with ⟨m, h1, h2⟩ | ⟨h1, h2⟩
  · left
    exact ⟨m, by rw [h1]; simp, h2⟩
  · right
    exact ⟨h1, h2⟩

theorem shape_OPEN (c : Bool) (s cid : Nat) (a : fattr4) (n o : List Char) :
    (OPEN c s cid a n o).shape = OPEN c 0 0 ⟨empty_bitmap, []⟩ n [] := rfl

theorem shape_CLOSE : CLOSE_NOSTATE.shape = CLOSE_NOSTATE := rfl

theorem shape_PUTROOTFH : PUTROOTFH.shape = PUTROOTFH := rfl

theorem shape_lookups (names : List (List Char)) :
    (names.map LOOKUP).map nfs_argop4.shape = names.map LOOKUP := by
  induction names with
  | nil => rfl
  | cons n ns ih => simp only [List.map_cons, ih]; rfl

/-- The operations a build loop adds for elements given by their components. -/
theorem ktc_build_shape (io : tc_iovec → nfs_argop4) (hs : ∀ u, (io u).shape = io u)
    (hr : ∀ u : tc_iovec, io { u with is_failure := false, is_eof := false } = io u)
    (env : Env) (ps : List path_item) (hok : ∀ p ∈ ps, p.ok) (ops : List nfs_argop4)
    (fcnt : Nat) (b : build_out)
    (h : ktc_build io env (ps.map path_item.kargs) ops fcnt = some b) (herr : b.err = none) :
    b.ops.map nfs_argop4.shape
      = ops.map nfs_argop4.shape ++ plan_ops io (decide (ops = [])) ps := by
  induction ps generalizing ops fcnt b with
  | nil =>
    simp only [List.map_nil, ktc_build, Option.some.injEq] at h
    subst h
    simp [plan_ops]
  | cons p ps ih =>
    have hp : p.ok := hok p (by simp)
    have hps : ∀ q ∈ ps, q.ok := fun q hq => hok q (by simp [hq])
    rw [List.map_cons] at h
    obtain ⟨r, b2, hd, hnoerr, hb, he2, hops, _, _⟩ :=
      ktc_build_cons_ok io env p.kargs (ps.map path_item.kargs) ops fcnt b h herr
    obtain ⟨_, _, hseg⟩ := do_ktc_ok_seg io env p.kargs ops fcnt r hd hnoerr
    have hu : io (reset_item env p.kargs).user_arg = io p.user_arg := hr p.user_arg
    rcases hseg with ⟨hpath, hne, hrops⟩ | ⟨path, names, marker, attrs, owner, hpath, hcl, hrops⟩
    · have hcomps : p.comps = none := by
        cases hc : p.comps with
        | none => rfl
        | some d => simp [path_item.kargs, hc] at hpath
      have hrne : r.ops ≠ [] := by rw [hrops]; simp
      rw [hops, ih hps r.ops r.fcnt b2 hb he2, hrops, hu]
      simp [plan_ops, hcomps, hne, hrne, hs]
    · cases hc : p.comps with
      | none => simp [path_item.kargs, hc] at hpath
      | some d =>
        obtain ⟨dirs, name⟩ := d
        have hpath2 : path = slash_join (dirs ++ [name]) := by
          simp [path_item.kargs, hc] at hpath
          exact hpath.symm
        subst hpath2
        have hcomp : ∀ c ∈ dirs ++ [name], component_ok c := by
          have := hp
          simp only [path_item.ok, hc] at this
          exact this
        have hmark : names.map LOOKUP = dirs.map LOOKUP
            ∧ (slash_join (dirs ++ [name])).drop marker = name := by
          rcases construct_lookup_canon env.MAX_FILENAME_LENGTH dirs name hcomp
              (if ops.length ≠ 0 then ops ++ [CLOSE_NOSTATE] else ops) with
            ⟨m, h1, h2⟩ | ⟨h1, _⟩
          · rw [h1] at hcl
            simp only [lookup_ret.ok.injEq, List.append_cancel_left_eq, List.cons.injEq,
              true_and] at hcl
            exact ⟨hcl.1.symm, by rw [← hcl.2]; exact h2⟩
          · rw [h1] at hcl
            exact absurd hcl (by simp)
        have hrne : r.ops ≠ [] := by rw [hrops]; simp
        rw [hops, ih hps r.ops r.fcnt b2 hb he2, hrops, hu, hmark.2]
        have hcr : (p.kargs).user_arg.is_creation = p.user_arg.is_creation := rfl
        have e1 : ∀ l : List nfs_argop4, (names.map LOOKUP ++ l).map nfs_argop4.shape
            = dirs.map LOOKUP ++ l.map nfs_argop4.shape := fun l => by
          rw [List.map_append, shape_lookups, hmark.1]
        by_cases ho : ops = []
        · cases hcre : p.user_arg.is_creation <;>
            simp [plan_ops, hc, ho, hrne, hs, shape_lookups, shape_OPEN, shape_CLOSE,
              shape_PUTROOTFH, hcr, hcre, OPEN_CREATE, OPEN_NOCREATE, -List.map_map, e1]
        · cases hcre : p.user_arg.is_creation <;>
            simp [plan_ops, hc, ho, hrne, hs, shape_lookups, shape_OPEN, shape_CLOSE,
              shape_PUTROOTFH, hcr, hcre, OPEN_CREATE, OPEN_NOCREATE, -List.map_map, e1]


/-- A call of the common form succeeds when the attribute encoder does, a NULL path is
not first, and the resolver accepts the path. -/
theorem do_ktc_run (io : tc_iovec → nfs_argop4) (env : Env) (ka : tcread_kargs)
    (ops : List nfs_argop4) (fcnt : Nat)
    (henc : fs_fsalattr_to_fattr4 env (reset_item env ka).attrib ≠ none)
    (hnull : ka.path = none → ops ≠ [])
    (hpath : ∀ path, ka.path = some path →
      ∃ ops2 m, construct_lookup env.MAX_FILENAME_LENGTH path
        (if ops.length ≠ 0 then ops ++ [CLOSE_NOSTATE] else ops) = lookup_ret.ok ops2 m) :
    ∃ r, do_ktc io env ka ops fcnt = some r ∧ FSAL_IS_ERROR r.st = false := by
  obtain ⟨data, hdata⟩ := Option.ne_none_iff_exists'.mp henc
  simp only [reset_item] at hdata
  unfold do_ktc
  simp only [hdata]
  cases hp : ka.path with
  | none =>
    have hne := hnull hp
    have hlen : ¬ ops.length = 0 := fun e => hne (List.length_eq_zero.mp e)
    simp only [if_neg hlen]
    exact ⟨_, rfl, rfl⟩
  | some path =>
    obtain ⟨ops2, m, hcl⟩ := hpath path hp
    simp only [hcl]
    exact ⟨_, rfl, rfl⟩

/-- The build loop runs to the end on elements given by their components when the
directory names fit the name buffer and the attribute encoder succeeds. -/
theorem ktc_build_total (io : tc_iovec → nfs_argop4) (env : Env) (ps : List path_item)
    (hok : ∀ p ∈ ps, p.ok) (hfit : ∀ p ∈ ps, p.fits env.MAX_FILENAME_LENGTH)
    (henc : ∀ p ∈ ps, fs_fsalattr_to_fattr4 env (reset_item env p.kargs).attrib ≠ none)
    (ops : List nfs_argop4) (fcnt : Nat)
    (hfirst : ops = [] → ∀ p ∈ ps.head?, p.comps ≠ none) :
    ∃ b, ktc_build io env (ps.map path_item.kargs) ops fcnt = some b ∧ b.err = none := by
  induction ps generalizing ops fcnt with
  | nil => exact ⟨_, rfl, rfl⟩
  | cons p ps ih =>
    have hps : ∀ q ∈ ps, q.ok := fun q hq => hok q (by simp [hq])
    have hfs : ∀ q ∈ ps, q.fits env.MAX_FILENAME_LENGTH := fun q hq => hfit q (by simp [hq])
    have hes : ∀ q ∈ ps, fs_fsalattr_to_fattr4 env (reset_item env q.kargs).attrib ≠ none :=
      fun q hq => henc q (by simp [hq])
    have hrun : ∃ r, do_ktc io env p.kargs ops fcnt = some r ∧ FSAL_IS_ERROR r.st = false := by
      apply do_ktc_run io env p.kargs ops fcnt (henc p (by simp))
      · intro hnone hops
        have := hfirst hops p (by simp)
        apply this
        cases hc : p.comps with
        | none => rfl
        | some d => simp [path_item.kargs, hc] at hnone
      · intro path hpath
        cases hc : p.comps with
        | none => simp [path_item.kargs, hc] at hpath
        | some d =>
          obtain ⟨dirs, name⟩ := d
          have hpath2 : path = slash_join (dirs ++ [name]) := by
            simp [path_item.kargs, hc] at hpath
            exact hpath.symm
          subst hpath2
          have hcomp : ∀ c ∈ dirs ++ [name], component_ok c := by
            have := hok p (by simp)
            simp only [path_item.ok, hc] at this
            exact this
          have hshort : ∀ c ∈ dirs, c.length < env.MAX_FILENAME_LENGTH := by
            have := hfit p (by simp)
            simp only [path_item.fits, hc] at this
            exact this
          rcases construct_lookup_canon env.MAX_FILENAME_LENGTH dirs name hcomp
              (if ops.length ≠ 0 then ops ++ [CLOSE_NOSTATE] else ops) with
            ⟨m, h1, _⟩ | ⟨_, c, hcm, hcl⟩
          · exact ⟨_, m, h1⟩
          · exact absurd (hshort c hcm) hcl
    obtain ⟨r, hd, hnoerr⟩ := hrun
    obtain ⟨_, _, hseg⟩ := do_ktc_ok_seg io env p.kargs ops fcnt r hd hnoerr
    have hrne : r.ops ≠ [] := by
      rcases hseg with ⟨_, _, h⟩ | ⟨_, _, _, _, _, _, _, h⟩ <;> rw [h] <;> simp
    obtain ⟨b2, hb2, he2⟩ := ih hps hfs hes r.ops r.fcnt (fun e => absurd e hrne)
    refine ⟨{ b2 with kern_arg := r.kern_arg :: b2.kern_arg }, ?_, he2⟩
    simp only [List.map_cons, ktc_build, hd, hnoerr, hb2]
    simp

theorem shape_io_read (u : tc_iovec) : (io_read u).shape = io_read u := rfl

theorem shape_io_write (u : tc_iovec) : (io_write u).shape = io_write u := rfl

/-- Walking results that are all OK and then one that failed at an operation other than
READ, the loop of `ktcread` stops with `*fail_index` the number of READ results it
passed. -/
theorem ktcread_attribute_walk (arg_count : Nat) (bad : nfs_resop4)
    (hbad : bad.status ≠ NFS4_OK) (hbop : walk_op bad.resop) (oks : List nfs_resop4)
    (hoks : ∀ r ∈ oks, r.status = NFS4_OK ∧ (r.resop = NFS4_OP_READ ∨ walk_op r.resop))
    (i : Nat) (ts : Option nfsstat4) (ks : List tcread_kargs) (fi : Int)
    (hlt : i + oks.countP (fun r => r.resop == NFS4_OP_READ) < arg_count) :
    ∃ ks2, ktcread_attribute arg_count (oks ++ [bad]) i ts ks fi
      = some (ks2, ((i + oks.countP (fun r => r.resop == NFS4_OP_READ) : Nat) : Int)) := by
  induction oks generalizing i ts ks with
  | nil =>
    have hi : i < arg_count := by simpa using hlt
    have hnr : ¬ bad.resop = NFS4_OP_READ := by
      intro e; rw [e] at hbop; revert hbop; unfold walk_op; decide
    refine ⟨modify_at set_is_failure ks i, ?_⟩
    simp only [List.nil_append, ktcread_attribute, if_pos hi, if_neg hnr]
    have hw : bad.resop = NFS4_OP_LOOKUP ∨ bad.resop = NFS4_OP_OPEN
        ∨ bad.resop = NFS4_OP_PUTROOTFH ∨ bad.resop = NFS4_OP_CLOSE := hbop
    simp [if_pos hw, hbad]
  | cons r oks ih =>
    have hr := hoks r (by simp)
    have hrest : ∀ q ∈ oks, q.status = NFS4_OK ∧ (q.resop = NFS4_OP_READ ∨ walk_op q.resop) :=
      fun q hq => hoks q (by simp [hq])
    have hi : i < arg_count := by omega
    by_cases hrd : r.resop = NFS4_OP_READ
    · have hcnt : (r :: oks).countP (fun r => r.resop == NFS4_OP_READ)
          = oks.countP (fun r => r.resop == NFS4_OP_READ) + 1 := by
        simp [List.countP_cons, hrd]
      rw [hcnt] at hlt ⊢
      obtain ⟨ks2, h2⟩ := ih hrest (i + 1) (some r.status)
        (if r.eof = true then modify_at set_is_eof ks i else ks) (by omega)
      refine ⟨ks2, ?_⟩
      simp only [List.cons_append, ktcread_attribute, if_pos hi, if_pos hrd, hr.1]
      simp only [ne_eq, not_true_eq_false, if_false]
      have e : i + (List.countP (fun r => r.resop == NFS4_OP_READ) oks + 1)
          = i + 1 + List.countP (fun r => r.resop == NFS4_OP_READ) oks := by omega
      rw [← hr.1, e]
      exact h2
    · have hcnt : (r :: oks).countP (fun r => r.resop == NFS4_OP_READ)
          = oks.countP (fun r => r.resop == NFS4_OP_READ) := by
        simp [List.countP_cons, hrd]
      rw [hcnt] at hlt ⊢
      have hw : r.resop = NFS4_OP_LOOKUP ∨ r.resop = NFS4_OP_OPEN
          ∨ r.resop = NFS4_OP_PUTROOTFH ∨ r.resop = NFS4_OP_CLOSE := by
        rcases hr.2 with h | h
        · exact absurd h hrd
        · exact h
      obtain ⟨ks2, h2⟩ := ih hrest i (some r.status) ks hlt
      refine ⟨ks2, ?_⟩
      simp only [List.cons_append, ktcread_attribute, if_pos hi, if_neg hrd, if_pos hw, hr.1]
      simp only [ne_eq, not_true_eq_false, if_false]
      rw [← hr.1]
      exact h2

/-- The same for the loop of `ktcwrite`, with WRITE results counted. -/
theorem ktcwrite_attribute_walk (arg_count : Nat) (cur_arg : Nat) (bad : nfs_resop4)
    (hbad : bad.status ≠ NFS4_OK) (hbop : walk_op bad.resop) (oks : List nfs_resop4)
    (hoks : ∀ r ∈ oks, r.status = NFS4_OK ∧ (r.resop = NFS4_OP_WRITE ∨ walk_op r.resop))
    (i : Nat) (ts : Option nfsstat4) (ks : List tcread_kargs) (fi : Int)
    (hlt : i + oks.countP (fun r => r.resop == NFS4_OP_WRITE) < arg_count) :
    ∃ ks2, ktcwrite_attribute arg_count cur_arg (oks ++ [bad]) i ts ks fi
      = some (ks2, ((i + oks.countP (fun r => r.resop == NFS4_OP_WRITE) : Nat) : Int)) := by
  induction oks generalizing i ts ks with
  | nil =>
    have hi : i < arg_count := by simpa using hlt
    have hnr : ¬ bad.resop = NFS4_OP_WRITE := by
      intro e; rw [e] at hbop; revert hbop; unfold walk_op; decide
    refine ⟨modify_at set_is_failure ks cur_arg, ?_⟩
    simp only [List.nil_append, ktcwrite_attribute, if_pos hi, if_neg hnr]
    have hw : bad.resop = NFS4_OP_LOOKUP ∨ bad.resop = NFS4_OP_OPEN
        ∨ bad.resop = NFS4_OP_PUTROOTFH ∨ bad.resop = NFS4_OP_CLOSE := hbop
    simp [if_pos hw, hbad]
  | cons r oks ih =>
    have hr := hoks r (by simp)
    have hrest : ∀ q ∈ oks, q.status = NFS4_OK ∧ (q.resop = NFS4_OP_WRITE ∨ walk_op q.resop) :=
      fun q hq => hoks q (by simp [hq])
    have hi : i < arg_count := by omega
    by_cases hrd : r.resop = NFS4_OP_WRITE
    · have hcnt : (r :: oks).countP (fun r => r.resop == NFS4_OP_WRITE)
          = oks.countP (fun r => r.resop == NFS4_OP_WRITE) + 1 := by
        simp [List.countP_cons, hrd]
      rw [hcnt] at hlt ⊢
      obtain ⟨ks2, h2⟩ := ih hrest (i + 1) (some r.status)
        (modify_at (set_length r.count) ks cur_arg) (by omega)
      refine ⟨ks2, ?_⟩
      simp only [List.cons_append, ktcwrite_attribute, if_pos hi, if_pos hrd, hr.1]
      simp only [ne_eq, not_true_eq_false, if_false]
      have e : i + (List.countP (fun r => r.resop == NFS4_OP_WRITE) oks + 1)
          = i + 1 + List.countP (fun r => r.resop == NFS4_OP_WRITE) oks := by omega
      rw [← hr.1, e]
      exact h2
    · have hcnt : (r :: oks).countP (fun r => r.resop == NFS4_OP_WRITE)
          = oks.countP (fun r => r.resop == NFS4_OP_WRITE) := by
        simp [List.countP_cons, hrd]
      rw [hcnt] at hlt ⊢
      have hw : r.resop = NFS4_OP_LOOKUP ∨ r.resop = NFS4_OP_OPEN
          ∨ r.resop = NFS4_OP_PUTROOTFH ∨ r.resop = NFS4_OP_CLOSE := by
        rcases hr.2 with h | h
        · exact absurd h hrd
        · exact h
      obtain ⟨ks2, h2⟩ := ih hrest i (some r.status) ks hlt
      refine ⟨ks2, ?_⟩
      simp only [List.cons_append, ktcwrite_attribute, if_pos hi, if_neg hrd, if_pos hw, hr.1]
      simp only [ne_eq, not_true_eq_false, if_false]
      rw [← hr.1]
      exact h2


/-! ## Lemmas: the build loop as a whole -/

/-- A build loop that ran to the end over `xs ++ ys` ran to the end over `xs` and then
over `ys`. -/
theorem ktc_build_split (io : tc_iovec → nfs_argop4) (env : Env) (xs ys : List tcread_kargs)
    (ops : List nfs_argop4) (fcnt : Nat) (b : build_out)
    (h : ktc_build io env (xs ++ ys) ops fcnt = some b) (herr : b.err = none) :
    ∃ bx b2, ktc_build io env xs ops fcnt = some bx ∧ bx.err = none
      ∧ ktc_build io env ys bx.ops bx.fcnt = some b2 ∧ b2.err = none ∧ b.ops = b2.ops := by
  induction xs generalizing ops fcnt b with
  | nil => exact ⟨⟨none, [], ops, fcnt⟩, b, rfl, rfl, h, herr, rfl⟩
  | cons x xs ih =>
    rw [List.cons_append] at h
    obtain ⟨r, b2, hd, hok, hb, he2, hops, _, _⟩ := ktc_build_cons_ok io env x _ ops fcnt b h herr
    obtain ⟨bx, b3, h1, h2, h3, h4, h5⟩ := ih r.ops r.fcnt b2 hb he2
    refine ⟨{ bx with kern_arg := r.kern_arg :: bx.kern_arg }, b3, ?_, h2, h3, h4, ?_⟩
    · simp only [ktc_build, hd, hok, h1]
      simp
    · rw [hops, h5]

/-- Two build loops that ran one after the other make one build loop. -/
theorem ktc_build_join (io : tc_iovec → nfs_argop4) (env : Env) (xs ys : List tcread_kargs)
    (ops : List nfs_argop4) (fcnt : Nat) (bx b2 : build_out)
    (h1 : ktc_build io env xs ops fcnt = some bx) (he : bx.err = none)
    (h2 : ktc_build io env ys bx.ops bx.fcnt = some b2) :
    ∃ b, ktc_build io env (xs ++ ys) ops fcnt = some b ∧ b.ops = b2.ops := by
  induction xs generalizing ops fcnt bx with
  | nil =>
    simp only [ktc_build, Option.some.injEq] at h1
    subst h1
    exact ⟨b2, h2, rfl⟩
  | cons x xs ih =>
    obtain ⟨r, b3, hd, hok, hb, he3, hops, _, hf⟩ := ktc_build_cons_ok io env x xs ops fcnt bx h1 he
    rw [hops, hf] at h2
    obtain ⟨b, hb1, hb2⟩ := ih r.ops r.fcnt b3 hb he3 h2
    refine ⟨{ b with kern_arg := r.kern_arg :: b.kern_arg }, ?_, hb2⟩
    rw [List.cons_append]
    simp only [ktc_build, hd, hok, hb1]
    simp

/-- A build loop that ran to the end only appended operations, one READ / WRITE for
each element, all of them operations the attribution loop knows. -/
theorem ktc_build_appends (io : tc_iovec → nfs_argop4) (ioop : nfs_opnum4)
    (hio : ∀ u, (io u).argop = ioop) (h1 : ioop ≠ NFS4_OP_OPEN) (h2 : ioop ≠ NFS4_OP_CLOSE)
    (h3 : ioop ≠ NFS4_OP_PUTROOTFH) (h4 : ioop ≠ NFS4_OP_LOOKUP) (env : Env)
    (ks : List tcread_kargs) (ops : List nfs_argop4) (fcnt : Nat) (b : build_out)
    (h : ktc_build io env ks ops fcnt = some b) (herr : b.err = none) :
    ∃ tail, b.ops = ops ++ tail ∧ count_op ioop tail = ks.length
      ∧ ∀ o ∈ tail, o.argop = ioop ∨ walk_op o.argop := by
  induction ks generalizing ops fcnt b with
  | nil =>
    simp only [ktc_build, Option.some.injEq] at h
    subst h
    exact ⟨[], by simp, rfl, by simp⟩
  | cons k ks ih =>
    obtain ⟨r, b2, hd, hok, hb, he2, hops, _, _⟩ := ktc_build_cons_ok io env k ks ops fcnt b h herr
    obtain ⟨_, _, hseg⟩ := do_ktc_ok_seg io env k ops fcnt r hd hok
    obtain ⟨tail, t1, t2, t3⟩ := ih r.ops r.fcnt b2 hb he2
    have c1 : ¬ NFS4_OP_PUTROOTFH = ioop := fun e => h3 e.symm
    have c2 : ¬ NFS4_OP_OPEN = ioop := fun e => h1 e.symm
    have c3 : ¬ NFS4_OP_CLOSE = ioop := fun e => h2 e.symm
    rcases hseg with ⟨_, _, hr⟩ | ⟨path, names, marker, attrs, owner, _, _, hr⟩
    · refine ⟨io (reset_item env k).user_arg :: tail, ?_, ?_, ?_⟩
      · rw [hops, t1, hr]; simp
      · rw [count_op_cons, t2, hio]; simp
      · intro o ho
        rcases List.mem_cons.mp ho with e | e
        · left; rw [e]; exact hio _
        · exact t3 o e
    · refine ⟨((if ops = [] then [] else [CLOSE_NOSTATE]) ++ PUTROOTFH :: names.map LOOKUP
          ++ [OPEN k.user_arg.is_creation 0 env.fs_clientid attrs (path.drop marker) owner])
          ++ [io (reset_item env k).user_arg] ++ tail, ?_, ?_, ?_⟩
      · rw [hops, t1, hr]; simp
      · have l1 := count_op_lookups ioop h4 names
        by_cases ho : ops = []
        · simp only [if_pos ho, count_op_append, count_op_cons, count_op_nil, t2, hio, l1,
            argop_PUTROOTFH, argop_OPEN, if_neg c1, if_neg c2, if_true, List.length_cons]
          omega
        · simp only [if_neg ho, count_op_append, count_op_cons, count_op_nil, t2, hio, l1,
            argop_PUTROOTFH, argop_OPEN, argop_CLOSE, if_neg c1, if_neg c2, if_neg c3, if_true,
            List.length_cons]
          omega
      · intro o ho
        rcases List.mem_append.mp ho with ho | ho
        · rcases List.mem_append.mp ho with ho | ho
          · rcases List.mem_append.mp ho with ho | ho
            · rcases List.mem_append.mp ho with hc | hp
              · by_cases hq : ops = []
                · simp [hq] at hc
                · simp only [if_neg hq, List.mem_singleton] at hc
                  right; rw [hc]; unfold walk_op; simp [argop_CLOSE]
              · rcases List.mem_cons.mp hp with hp | hp
                · right; rw [hp]; unfold walk_op; simp [argop_PUTROOTFH]
                · obtain ⟨n, _, hn⟩ := List.mem_map.mp hp
                  right; rw [← hn]; unfold walk_op; simp [argop_LOOKUP]
            · rw [List.mem_singleton] at ho
              right; rw [ho]; unfold walk_op; simp [argop_OPEN]
          · rw [List.mem_singleton] at ho
            left; rw [ho]; exact hio _
        · exact t3 o ho


theorem walk_op_ne (ioop : nfs_opnum4) (h1 : ioop ≠ NFS4_OP_OPEN) (h2 : ioop ≠ NFS4_OP_CLOSE)
    (h3 : ioop ≠ NFS4_OP_PUTROOTFH) (h4 : ioop ≠ NFS4_OP_LOOKUP) (op : nfs_opnum4)
    (hw : walk_op op) : op ≠ ioop := by
  intro e
  rw [e] at hw
  rcases hw with h | h | h | h
  · exact h4 h
  · exact h1 h
  · exact h3 h
  · exact h2 h

theorem count_op_walk (ioop : nfs_opnum4) (h1 : ioop ≠ NFS4_OP_OPEN) (h2 : ioop ≠ NFS4_OP_CLOSE)
    (h3 : ioop ≠ NFS4_OP_PUTROOTFH) (h4 : ioop ≠ NFS4_OP_LOOKUP) (l : List nfs_argop4)
    (hl : ∀ o ∈ l, walk_op o.argop) : count_op ioop l = 0 := by
  induction l with
  | nil => rfl
  | cons o l ih =>
    have ho := walk_op_ne ioop h1 h2 h3 h4 _ (hl o (by simp))
    rw [count_op_cons, if_neg ho, ih (fun q hq => hl q (by simp [hq]))]

/-- The operations a successful call of the common form appends: operations other than
READ / WRITE, then the one READ / WRITE. -/
theorem do_ktc_ok_walk (io : tc_iovec → nfs_argop4) (env : Env) (ka : tcread_kargs)
    (ops : List nfs_argop4) (fcnt : Nat) (r : do_out)
    (h : do_ktc io env ka ops fcnt = some r) (hok : FSAL_IS_ERROR r.st = false) :
    ∃ S, r.ops = ops ++ S ++ [io (reset_item env ka).user_arg]
      ∧ ∀ o ∈ S, walk_op o.argop := by
  obtain ⟨_, _, hseg⟩ := do_ktc_ok_seg io env ka ops fcnt r h hok
  rcases hseg with ⟨_, _, hr⟩ | ⟨path, names, marker, attrs, owner, _, _, hr⟩
  · exact ⟨[], by simp [hr], fun o ho => absurd ho (by simp)⟩
  · refine ⟨(if ops = [] then [] else [CLOSE_NOSTATE]) ++ PUTROOTFH :: names.map LOOKUP
        ++ [OPEN ka.user_arg.is_creation 0 env.fs_clientid attrs (path.drop marker) owner],
      by rw [hr], ?_⟩
    intro o ho
    rcases List.mem_append.mp ho with ho | ho
    · rcases List.mem_append.mp ho with hc | hp
      · by_cases hq : ops = []
        · simp [hq] at hc
        · simp only [if_neg hq, List.mem_singleton] at hc
          rw [hc]; unfold walk_op; simp [argop_CLOSE]
      · rcases List.mem_cons.mp hp with hp | hp
        · rw [hp]; unfold walk_op; simp [argop_PUTROOTFH]
        · obtain ⟨n, _, hn⟩ := List.mem_map.mp hp
          rw [← hn]; unfold walk_op; simp [argop_LOOKUP]
    · rw [List.mem_singleton] at ho
      rw [ho]; unfold walk_op; simp [argop_OPEN]

/-- Where the first failed result lies when it belongs to a PUTROOTFH, LOOKUP or OPEN
emitted for the element after `pre`: the results before it are OK results of planner
operations, `pre.length` of them READ / WRITE results. -/
theorem ktc_fail_position (io : tc_iovec → nfs_argop4) (ioop : nfs_opnum4)
    (hio : ∀ u, (io u).argop = ioop) (h1 : ioop ≠ NFS4_OP_OPEN) (h2 : ioop ≠ NFS4_OP_CLOSE)
    (h3 : ioop ≠ NFS4_OP_PUTROOTFH) (h4 : ioop ≠ NFS4_OP_LOOKUP) (env : Env)
    (pre : List tcread_kargs) (item : tcread_kargs) (post : List tcread_kargs) (fcnt : Nat)
    (b : build_out) (hb : ktc_build io env (pre ++ item :: post) [] fcnt = some b)
    (herr : b.err = none) (oks : List nfs_resop4) (bad : nfs_resop4)
    (hrep : failed_reply (b.ops ++ [CLOSE_NOSTATE]) oks bad)
    (hlo : ktc_opcnt io env pre fcnt ≤ oks.length)
    (hhi : oks.length < ktc_opcnt io env (pre ++ [item]) fcnt)
    (hkind : bad.resop = NFS4_OP_PUTROOTFH ∨ bad.resop = NFS4_OP_LOOKUP
      ∨ bad.resop = NFS4_OP_OPEN) :
    (∀ r ∈ oks, r.status = NFS4_OK ∧ (r.resop = ioop ∨ walk_op r.resop))
      ∧ oks.countP (fun r => r.resop == ioop) = pre.length ∧ walk_op bad.resop
      ∧ bad.status ≠ NFS4_OK := by
  obtain ⟨hmap, hoks, hbad, hlen⟩ := hrep
  have hwalk : walk_op bad.resop := by
    unfold walk_op
    rcases hkind with h | h | h
    · exact Or.inr (Or.inr (Or.inl h))
    · exact Or.inl h
    · exact Or.inr (Or.inl h)
  have hbne : bad.resop ≠ ioop := walk_op_ne ioop h1 h2 h3 h4 _ hwalk
  -- the structure of the array
  obtain ⟨bp, b1, hpre, hpe, hb1, he1, hops1⟩ :=
    ktc_build_split io env pre (item :: post) [] fcnt b hb herr
  obtain ⟨r, b2, hd, hok, hb2, he2, hops2, _, _⟩ :=
    ktc_build_cons_ok io env item post bp.ops bp.fcnt b1 hb1 he1
  obtain ⟨tail2, ht2, _, _⟩ :=
    ktc_build_appends io ioop hio h1 h2 h3 h4 env post r.ops r.fcnt b2 hb2 he2
  obtain ⟨tailp, htp, hcp, _⟩ :=
    ktc_build_appends io ioop hio h1 h2 h3 h4 env pre [] fcnt bp hpre hpe
  obtain ⟨tailb, htb, _, hallb⟩ :=
    ktc_build_appends io ioop hio h1 h2 h3 h4 env (pre ++ item :: post) [] fcnt b hb herr
  obtain ⟨S, hS, hSw⟩ := do_ktc_ok_walk io env item bp.ops bp.fcnt r hd hok
  have hcS : count_op ioop S = 0 := count_op_walk ioop h1 h2 h3 h4 S hSw
  have hcbp : count_op ioop bp.ops = pre.length := by rw [htp]; simpa using hcp
  -- the two bounds
  have hlo2 : bp.ops.length ≤ oks.length := by
    simpa [ktc_opcnt, hpre] using hlo
  have hone : ktc_build io env [item] bp.ops bp.fcnt
      = some ⟨none, [r.kern_arg], r.ops, r.fcnt⟩ := by
    simp [ktc_build, hd, hok]
  obtain ⟨bk, hbk, hbkops⟩ := ktc_build_join io env pre [item] [] fcnt bp _ hpre hpe hone
  have hhi2 : oks.length < bp.ops.length + S.length + 1 := by
    have : ktc_opcnt io env (pre ++ [item]) fcnt = r.ops.length := by
      simp [ktc_opcnt, hbk, hbkops]
    rw [this, hS] at hhi
    simpa using hhi
  -- the whole array
  have hall : b.ops ++ [CLOSE_NOSTATE]
      = bp.ops ++ S ++ ([io (reset_item env item).user_arg] ++ tail2 ++ [CLOSE_NOSTATE]) := by
    rw [hops1, hops2, ht2, hS]; simp
  -- the operation at the failing position
  have htake : (b.ops ++ [CLOSE_NOSTATE]).take (oks.length + 1)
      = (b.ops ++ [CLOSE_NOSTATE]).take oks.length
        ++ ((b.ops ++ [CLOSE_NOSTATE])[oks.length]?).toList := List.take_succ
  obtain ⟨o, ho⟩ : ∃ o, (b.ops ++ [CLOSE_NOSTATE])[oks.length]? = some o := by
    have := List.getElem?_eq_getElem hlen
    exact ⟨_, this⟩
  rw [htake, ho] at hmap
  simp only [Option.toList_some, List.map_append, List.map_cons, List.map_nil] at hmap
  have hlt : ((b.ops ++ [CLOSE_NOSTATE]).take oks.length).length = oks.length := by
    rw [List.length_take]; omega
  obtain ⟨hm1, hm2⟩ := List.append_inj hmap (by rw [List.length_map, List.length_map, hlt])
  have hbo : bad.resop = o.argop := by simpa using hm2
  -- the failing position lies before the READ / WRITE of the element
  have hpos : oks.length < bp.ops.length + S.length := by
    by_contra hge
    have hfe : oks.length = (bp.ops ++ S).length := by simp; omega
    rw [hall, hfe, List.getElem?_append_right (Nat.le_refl _)] at ho
    simp at ho
    rw [← ho, hio] at hbo
    exact hbne hbo
  have htk : (b.ops ++ [CLOSE_NOSTATE]).take oks.length
      = bp.ops ++ S.take (oks.length - bp.ops.length) := by
    rw [hall, List.take_append_of_le_length (by simp; omega), List.take_append_eq_append_take,
      List.take_of_length_le hlo2]
  refine ⟨?_, ?_, hwalk, hbad⟩
  · intro q hq
    refine ⟨hoks q hq, ?_⟩
    have hqm : q.resop ∈ oks.map (fun r => r.resop) := List.mem_map.mpr ⟨q, hq, rfl⟩
    rw [hm1] at hqm
    obtain ⟨o2, ho2, ho2e⟩ := List.mem_map.mp hqm
    have ho2m : o2 ∈ b.ops ++ [CLOSE_NOSTATE] := List.mem_of_mem_take ho2
    rw [← ho2e]
    rcases List.mem_append.mp ho2m with hm | hm
    · rw [htb] at hm
      exact hallb o2 (by simpa using hm)
    · rw [List.mem_singleton] at hm
      right; rw [hm]; unfold walk_op; simp [argop_CLOSE]
  · have hc : oks.countP (fun r => r.resop == ioop)
        = (oks.map (fun r => r.resop)).countP (fun x => x == ioop) := by
      rw [List.countP_map]; rfl
    rw [hc, hm1, List.countP_map, htk]
    have hc2 : ∀ l : List nfs_argop4,
        List.countP ((fun x => x == ioop) ∘ fun o => o.argop) l = count_op ioop l := fun l => rfl
    rw [hc2, count_op_append, hcbp]
    have hle : count_op ioop (S.take (oks.length - bp.ops.length)) ≤ count_op ioop S :=
      List.Sublist.countP_le _ (List.take_sublist _ _)
    omega


theorem read_opcnt_eq (env : Env) (ks : List tcread_kargs) (fcnt : Nat) :
    read_opcnt env ks fcnt = ktc_opcnt io_read env ks fcnt := by
  simp [read_opcnt, ktc_opcnt, ktcread_build_eq]

theorem write_opcnt_eq (env : Env) (ks : List tcread_kargs) (fcnt : Nat) :
    write_opcnt env ks fcnt = ktc_opcnt io_write env ks fcnt := by
  simp [write_opcnt, ktc_opcnt, ktcwrite_build_eq]

/-- C4. When the compound of a read or write batch returns a status that is not OK and
the first result that is not OK belongs to a PUTROOTFH, LOOKUP or OPEN emitted for the
element at position k, `ktcread` / `ktcwrite` return with `*fail_index = k`. -/
theorem C4_fail_index_of_lookup_failure (env : Env) (exec : Executor)
    (calls : List (List nfs_argop4)) (pre : List tcread_kargs) (item : tcread_kargs)
    (post : List tcread_kargs) (fail_index : Int) (fcnt : Nat) (oks : List nfs_resop4)
    (bad : nfs_resop4)
    (hkind : bad.resop = NFS4_OP_PUTROOTFH ∨ bad.resop = NFS4_OP_LOOKUP
      ∨ bad.resop = NFS4_OP_OPEN) :
    (∀ b, ktcread_build env (pre ++ item :: post) [] fcnt = some b → b.err = none →
      (exec calls (b.ops ++ [CLOSE_NOSTATE])).rc ≠ NFS4_OK →
      (exec calls (b.ops ++ [CLOSE_NOSTATE])).resoparray = oks ++ [bad] →
      failed_reply (b.ops ++ [CLOSE_NOSTATE]) oks bad →
      read_opcnt env pre fcnt ≤ oks.length →
      oks.length < read_opcnt env (pre ++ [item]) fcnt →
      ∃ r, ktcread env exec calls (pre ++ item :: post) fail_index fcnt = some r
        ∧ r.fail_index = (pre.length : Int))
    ∧ (∀ b, ktcwrite_build env (pre ++ item :: post) [] fcnt = some b → b.err = none →
      (exec calls (b.ops ++ [CLOSE_NOSTATE])).rc ≠ NFS4_OK →
      (exec calls (b.ops ++ [CLOSE_NOSTATE])).resoparray = oks ++ [bad] →
      failed_reply (b.ops ++ [CLOSE_NOSTATE]) oks bad →
      write_opcnt env pre fcnt ≤ oks.length →
      oks.length < write_opcnt env (pre ++ [item]) fcnt →
      ∃ r, ktcwrite env exec calls (pre ++ item :: post) fail_index fcnt = some r
        ∧ r.fail_index = (pre.length : Int)) := by
  constructor
  · intro b hb herr hrc hres hrep hlo hhi
    have hb2 := hb
    rw [ktcread_build_eq] at hb2
    rw [read_opcnt_eq] at hlo hhi
    obtain ⟨hoks, hcnt, hwalk, hbad⟩ := ktc_fail_position io_read NFS4_OP_READ (fun _ => rfl)
      (by decide) (by decide) (by decide) (by decide) env pre item post fcnt b hb2 herr oks bad
      hrep hlo hhi hkind
    obtain ⟨ks2, hk⟩ := ktcread_attribute_walk (pre ++ item :: post).length bad hbad hwalk oks
      hoks 0 none b.kern_arg fail_index (by rw [hcnt]; simp)
    refine ⟨⟨nfsstat4_to_fsal (exec calls (b.ops ++ [CLOSE_NOSTATE])).rc, pre.length, ks2,
      calls ++ [b.ops ++ [CLOSE_NOSTATE]], b.fcnt⟩, ?_, rfl⟩
    unfold ktcread
    rw [hb]
    simp only [herr, hrc, ne_eq, not_false_eq_true, if_true, hres, hk, hcnt, Nat.zero_add]
  · intro b hb herr hrc hres hrep hlo hhi
    have hb2 := hb
    rw [ktcwrite_build_eq] at hb2
    rw [write_opcnt_eq] at hlo hhi
    obtain ⟨hoks, hcnt, hwalk, hbad⟩ := ktc_fail_position io_write NFS4_OP_WRITE (fun _ => rfl)
      (by decide) (by decide) (by decide) (by decide) env pre item post fcnt b hb2 herr oks bad
      hrep hlo hhi hkind
    obtain ⟨ks2, hk⟩ := ktcwrite_attribute_walk (pre ++ item :: post).length
      ((pre ++ item :: post).length - 1) bad hbad hwalk oks
      hoks 0 none b.kern_arg fail_index (by rw [hcnt]; simp)
    refine ⟨⟨nfsstat4_to_fsal (exec calls (b.ops ++ [CLOSE_NOSTATE])).rc, pre.length, ks2,
      calls ++ [b.ops ++ [CLOSE_NOSTATE]], b.fcnt⟩, ?_, rfl⟩
    unfold ktcwrite
    rw [hb]
    simp only [herr, hrc, ne_eq, not_false_eq_true, if_true, hres, hk, hcnt, Nat.zero_add]


/-- C4 (witness): three elements whose second directory is missing: the LOOKUP in slot 6
fails with NOENT and `*fail_index` is 1, for `ktcread` and for `ktcwrite`. -/
theorem C4_fail_index_of_lookup_failure_witness :
    (({ resop := NFS4_OP_LOOKUP, status := NFS4ERR_NOENT } : nfs_resop4).resop
        = NFS4_OP_PUTROOTFH
      ∨ ({ resop := NFS4_OP_LOOKUP, status := NFS4ERR_NOENT } : nfs_resop4).resop
        = NFS4_OP_LOOKUP
      ∨ ({ resop := NFS4_OP_LOOKUP, status := NFS4ERR_NOENT } : nfs_resop4).resop
        = NFS4_OP_OPEN)
    ∧ (∃ r, ktcread env0 (exec_fail_at 6 NFS4ERR_NOENT) [] three_files (-1) 0 = some r
        ∧ r.fail_index = 1)
    ∧ (∃ r, ktcwrite env0 (exec_fail_at 6 NFS4ERR_NOENT) [] three_files (-1) 0 = some r
        ∧ r.fail_index = 1) :=
  ⟨by decide,
   (C4_fail_index_of_lookup_failure env0 (exec_fail_at 6 NFS4ERR_NOENT) []
      [mk_item (some ['/', 'd', '/', 'f', '0']) 0 4096]
      (mk_item (some ['/', 'n', 'o', 'd', 'i', 'r', '/', 'f', '1']) 0 4096)
      [mk_item (some ['/', 'd', '/', 'f', '2']) 0 4096] (-1) 0
      ((three_files_read.ops.take 6).map (ok_result 512))
      { resop := NFS4_OP_LOOKUP, status := NFS4ERR_NOENT } (by decide)).1
      three_files_read (by decide) (by decide) (by decide) (by decide) (by decide) (by decide)
      (by decide),
   (C4_fail_index_of_lookup_failure env0 (exec_fail_at 6 NFS4ERR_NOENT) []
      [mk_item (some ['/', 'd', '/', 'f', '0']) 0 4096]
      (mk_item (some ['/', 'n', 'o', 'd', 'i', 'r', '/', 'f', '1']) 0 4096)
      [mk_item (some ['/', 'd', '/', 'f', '2']) 0 4096] (-1) 0
      ((three_files_write.ops.take 6).map (ok_result 512))
      { resop := NFS4_OP_LOOKUP, status := NFS4ERR_NOENT } (by decide)).2
      three_files_write (by decide) (by decide) (by decide) (by decide) (by decide) (by decide)
      (by decide)⟩


/-! ## Lemmas: error returns of the build loop -/

/-- A NULL path in the first element is refused. -/
theorem do_ktc_null_first (io : tc_iovec → nfs_argop4) (env : Env) (ka : tcread_kargs)
    (fcnt : Nat) (h : ka.path = none) :
    ∃ r, do_ktc io env ka [] fcnt = some r ∧ r.st = fsalstat ERR_FSAL_INVAL (-1) := by
  unfold do_ktc
  simp only [h]
  split
  · exact ⟨_, rfl, rfl⟩
  · exact ⟨_, rfl, rfl⟩

theorem ktc_build_null_first (io : tc_iovec → nfs_argop4) (env : Env) (k : tcread_kargs)
    (rest : List tcread_kargs) (fcnt : Nat) (h : k.path = none) :
    ∃ b, ktc_build io env (k :: rest) [] fcnt = some b
      ∧ b.err = some (fsalstat ERR_FSAL_INVAL (-1)) := by
  obtain ⟨r, hr, hst⟩ := do_ktc_null_first io env k fcnt h
  have he : FSAL_IS_ERROR r.st = true := by rw [hst]; rfl
  refine ⟨⟨some r.st, r.kern_arg :: rest, [], r.fcnt⟩, ?_, by rw [hst]⟩
  simp only [ktc_build, hr, he, if_true]

/-- What `ktcread` returns when its build loop stopped on an error. -/
theorem ktcread_of_build_err (env : Env) (exec : Executor) (calls : List (List nfs_argop4))
    (ks : List tcread_kargs) (fail_index : Int) (fcnt : Nat) (b : build_out) (st : fsal_status_t)
    (hb : ktcread_build env ks [] fcnt = some b) (he : b.err = some st) :
    ktcread env exec calls ks fail_index fcnt = some ⟨st, fail_index, b.kern_arg, calls, b.fcnt⟩ := by
  unfold ktcread
  rw [hb]
  simp only [he]

/-- What `ktcwrite` returns when its build loop stopped on an error. -/
theorem ktcwrite_of_build_err (env : Env) (exec : Executor) (calls : List (List nfs_argop4))
    (ks : List tcread_kargs) (fail_index : Int) (fcnt : Nat) (b : build_out) (st : fsal_status_t)
    (hb : ktcwrite_build env ks [] fcnt = some b) (he : b.err = some st) :
    ktcwrite env exec calls ks fail_index fcnt = some ⟨st, fail_index, b.kern_arg, calls, b.fcnt⟩ := by
  unfold ktcwrite
  rw [hb]
  simp only [he]

/-- Every error the build loop stops on is the invalid-argument error. -/
theorem ktc_build_err_inval (io : tc_iovec → nfs_argop4) (env : Env) (ks : List tcread_kargs)
    (ops : List nfs_argop4) (fcnt : Nat) (b : build_out) (st : fsal_status_t)
    (h : ktc_build io env ks ops fcnt = some b) (he : b.err = some st) :
    st.major = ERR_FSAL_INVAL := by
  induction ks generalizing ops fcnt b with
  | nil =>
    simp only [ktc_build, Option.some.injEq] at h
    subst h
    exact absurd he (by simp)
  | cons k ks ih =>
    simp only [ktc_build] at h
    cases hd : do_ktc io env k ops fcnt with
    | none => rw [hd] at h; exact absurd h (by simp)
    | some r =>
      rw [hd] at h
      simp only at h
      obtain ⟨_, _, hcases⟩ := do_ktc_spec io env k ops fcnt r hd
      by_cases hE : FSAL_IS_ERROR r.st = true
      · rw [if_pos hE] at h
        simp only [Option.some.injEq] at h
        subst h
        simp only [Option.some.injEq] at he
        subst he
        rcases hcases with ⟨hm, _⟩ | ⟨hs, _⟩ | ⟨hs, _⟩
        · exact hm
        · rw [hs] at hE; exact absurd hE (by decide)
        · rw [hs] at hE; exact absurd hE (by decide)
      · rw [if_neg hE] at h
        cases hb : ktc_build io env ks r.ops r.fcnt with
        | none => rw [hb] at h; exact absurd h (by simp)
        | some b2 =>
          rw [hb] at h
          simp only [Option.some.injEq] at h
          subst h
          exact ih r.ops r.fcnt b2 hb he

/-- A batch with a `..` element in a path never gets through the build loop. -/
theorem ktc_build_dotdot (io : tc_iovec → nfs_argop4) (env : Env) (ks : List tcread_kargs)
    (hdd : ∃ k ∈ ks, ∃ path, k.path = some path ∧ ['.', '.'] ∈ strtok_r path [])
    (ops : List nfs_argop4) (fcnt : Nat) (b : build_out)
    (h : ktc_build io env ks ops fcnt = some b) : b.err ≠ none := by
  induction ks generalizing ops fcnt b with
  | nil =>
    obtain ⟨k, hk, _⟩ := hdd
    simp at hk
  | cons k ks ih =>
    intro herr
    obtain ⟨r, b2, hd, hok, hb, he2, _, _, _⟩ := ktc_build_cons_ok io env k ks ops fcnt b h herr
    obtain ⟨q, hq, path, hpath, hmem⟩ := hdd
    rcases List.mem_cons.mp hq with e | e
    · subst e
      obtain ⟨_, _, hseg⟩ := do_ktc_ok_seg io env q ops fcnt r hd hok
      rcases hseg with ⟨hn, _, _⟩ | ⟨path2, names, marker, _, _, hp2, hcl, _⟩
      · rw [hn] at hpath; exact absurd hpath (by simp)
      · rw [hp2] at hpath
        simp only [Option.some.injEq] at hpath
        subst hpath
        unfold construct_lookup at hcl
        exact construct_lookup_loop_dotdot _ _ _ _ _ hmem _ _ hcl
    · exact ih ⟨q, e, path, hpath, hmem⟩ r.ops r.fcnt b2 hb he2

/-- With every path component shorter than the name buffer a call of the common form is
defined. -/
theorem do_ktc_defined (io : tc_iovec → nfs_argop4) (env : Env) (ka : tcread_kargs)
    (hs : ∀ path, ka.path = some path →
      ∀ t ∈ strtok_r path [], t.length < env.MAX_FILENAME_LENGTH)
    (ops : List nfs_argop4) (fcnt : Nat) : ∃ r, do_ktc io env ka ops fcnt = some r := by
  unfold do_ktc
  simp only
  split
  · exact ⟨_, rfl⟩
  · split
    · split
      · exact ⟨_, rfl⟩
      · exact ⟨_, rfl⟩
    · rename_i path hpath
      split
      · rename_i hcl
        unfold construct_lookup at hcl
        exact absurd hcl (construct_lookup_loop_defined _ _ _ _ _ (hs path hpath))
      · exact ⟨_, rfl⟩
      · exact ⟨_, rfl⟩

/-- With every path component shorter than the name buffer the build loop is defined. -/
theorem ktc_build_defined (io : tc_iovec → nfs_argop4) (env : Env) (ks : List tcread_kargs)
    (hs : ∀ k ∈ ks, ∀ path, k.path = some path →
      ∀ t ∈ strtok_r path [], t.length < env.MAX_FILENAME_LENGTH)
    (ops : List nfs_argop4) (fcnt : Nat) : ∃ b, ktc_build io env ks ops fcnt = some b := by
  induction ks generalizing ops fcnt with
  | nil => exact ⟨_, rfl⟩
  | cons k ks ih =>
    obtain ⟨r, hr⟩ := do_ktc_defined io env k (hs k (by simp)) ops fcnt
    simp only [ktc_build, hr]
    by_cases hE : FSAL_IS_ERROR r.st = true
    · rw [if_pos hE]; exact ⟨_, rfl⟩
    · rw [if_neg hE]
      obtain ⟨b2, hb2⟩ := ih (fun q hq => hs q (by simp [hq])) r.ops r.fcnt
      rw [hb2]; exact ⟨_, rfl⟩

/-- C3. A read or write batch whose first element has a NULL path makes `ktcread` /
`ktcwrite` return the invalid-argument error ERR_FSAL_INVAL, and nothing is handed to
the executor: no RPC is issued. -/
theorem C3_null_first_path_is_invalid (env : Env) (exec : Executor)
    (calls : List (List nfs_argop4)) (k : tcread_kargs) (rest : List tcread_kargs)
    (fail_index : Int) (fcnt : Nat) (h : k.path = none) :
    (∃ r, ktcread env exec calls (k :: rest) fail_index fcnt = some r
        ∧ r.st.major = ERR_FSAL_INVAL ∧ r.calls = calls)
    ∧ (∃ r, ktcwrite env exec calls (k :: rest) fail_index fcnt = some r
        ∧ r.st.major = ERR_FSAL_INVAL ∧ r.calls = calls) := by
  constructor
  · obtain ⟨b, hb, he⟩ := ktc_build_null_first io_read env k rest fcnt h
    rw [← ktcread_build_eq] at hb
    exact ⟨_, ktcread_of_build_err env exec calls _ fail_index fcnt b _ hb he, rfl, rfl⟩
  · obtain ⟨b, hb, he⟩ := ktc_build_null_first io_write env k rest fcnt h
    rw [← ktcwrite_build_eq] at hb
    exact ⟨_, ktcwrite_of_build_err env exec calls _ fail_index fcnt b _ hb he, rfl, rfl⟩

/-- C3 (witness): a batch whose first element has a NULL path. -/
theorem C3_null_first_path_is_invalid_witness :
    (mk_item none 0 4096).path = none
    ∧ (∃ r, ktcread env0 exec_ok [] [mk_item none 0 4096, mk_item (some ['/', 'a']) 0 1] (-1) 0
          = some r ∧ r.st.major = ERR_FSAL_INVAL ∧ r.calls = [])
    ∧ (∃ r, ktcwrite env0 exec_ok [] [mk_item none 0 4096, mk_item (some ['/', 'a']) 0 1] (-1) 0
          = some r ∧ r.st.major = ERR_FSAL_INVAL ∧ r.calls = []) :=
  ⟨rfl, C3_null_first_path_is_invalid env0 exec_ok [] (mk_item none 0 4096)
    [mk_item (some ['/', 'a']) 0 1] (-1) 0 rfl⟩

/-- C5 (the code at the failing inputs). On the batch `/d/f0`, `/nodir/f1`, `/d/f2`:
when the READ of element 0 fails, `ktcread` marks element 0 and sets `*fail_index` to 1;
when the READ of the last element fails, it marks element 2 and sets `*fail_index` to
3, the number of elements; when only the final CLOSE fails, it marks nothing and leaves
`*fail_index` as it was (-1 here). -/
theorem C5_ktcread_read_failure_index :
    (ktcread env0 (exec_fail_at 3 NFS4ERR_IO) [] three_files (-1) 0).map
        (fun r => (r.fail_index, r.kern_arg.map (fun k => k.user_arg.is_failure)))
      = some (1, [true, false, false])
    ∧ (ktcread env0 (exec_fail_at 13 NFS4ERR_IO) [] three_files (-1) 0).map
        (fun r => (r.fail_index, r.kern_arg.map (fun k => k.user_arg.is_failure)))
      = some (3, [false, false, true])
    ∧ (ktcread env0 (exec_fail_at 14 NFS4ERR_IO) [] three_files (-1) 0).map
        (fun r => (r.fail_index, r.kern_arg.map (fun k => k.user_arg.is_failure)))
      = some (-1, [false, false, false]) := by
  decide

/-- C6 (the code at the failing input). Three writes of 4096 bytes to `/d/f0`,
`/nodir/f1`, `/d/f2`, the LOOKUP of `nodir` failing: `ktcwrite` sets `*fail_index` to 1
but marks element 2, not element 1, and overwrites the length of element 2 with the
count of the first WRITE (512 here). -/
theorem C6_ktcwrite_marks_last_element :
    (ktcwrite env0 (exec_fail_at 6 NFS4ERR_NOENT) [] three_files (-1) 0).map
        (fun r => (r.fail_index,
          r.kern_arg.map (fun k => (k.user_arg.is_failure, k.user_arg.length))))
      = some (1, [(false, 4096), (false, 4096), (true, 512)]) := by
  decide

/-- C7 (counterexample). A read batch and a write batch with the path `/a/../b`: the
error returned is ERR_FSAL_INVAL, not ERR_FSAL_ACCESS. -/
theorem C7_dotdot_not_access :
    (ktcread env0 exec_ok [] [mk_item (some ['/', 'a', '/', '.', '.', '/', 'b']) 0 4096] (-1) 0).map
        (fun r => (r.st, r.calls)) = some (fsalstat ERR_FSAL_INVAL 0, [])
    ∧ (ktcwrite env0 exec_ok [] [mk_item (some ['/', 'a', '/', '.', '.', '/', 'b']) 0 4096] (-1)
        0).map (fun r => (r.st, r.calls)) = some (fsalstat ERR_FSAL_INVAL 0, [])
    ∧ (fsalstat ERR_FSAL_INVAL 0).major ≠ ERR_FSAL_ACCESS := by
  decide

/-- C7 (amended). For every read or write batch in which some path contains a `..`
component, `ktcread` / `ktcwrite` fail with the invalid-argument error ERR_FSAL_INVAL
and hand nothing to the executor (no RPC is issued); they do return whenever every path
component is shorter than the name buffer. -/
theorem C7_dotdot_is_invalid_argument (env : Env) (exec : Executor)
    (calls : List (List nfs_argop4)) (kern_arg : List tcread_kargs) (fail_index : Int)
    (fcnt : Nat)
    (hdd : ∃ k ∈ kern_arg, ∃ path, k.path = some path ∧ ['.', '.'] ∈ strtok_r path []) :
    (∀ r, ktcread env exec calls kern_arg fail_index fcnt = some r →
        r.st.major = ERR_FSAL_INVAL ∧ r.calls = calls)
    ∧ (∀ r, ktcwrite env exec calls kern_arg fail_index fcnt = some r →
        r.st.major = ERR_FSAL_INVAL ∧ r.calls = calls)
    ∧ ((∀ k ∈ kern_arg, ∀ path, k.path = some path →
          ∀ t ∈ strtok_r path [], t.length < env.MAX_FILENAME_LENGTH) →
        (∃ r, ktcread env exec calls kern_arg fail_index fcnt = some r)
        ∧ (∃ r, ktcwrite env exec calls kern_arg fail_index fcnt = some r)) := by
  have key : ∀ (io : tc_iovec → nfs_argop4) (b : build_out),
      ktc_build io env kern_arg [] fcnt = some b →
        ∃ st, b.err = some st ∧ st.major = ERR_FSAL_INVAL := by
    intro io b hb
    have hne := ktc_build_dotdot io env kern_arg hdd [] fcnt b hb
    obtain ⟨st, hst⟩ := Option.ne_none_iff_exists'.mp hne
    exact ⟨st, hst, ktc_build_err_inval io env kern_arg [] fcnt b st hb hst⟩
  refine ⟨?_, ?_, ?_⟩
  · intro r hr
    cases hb : ktcread_build env kern_arg [] fcnt with
    | none => simp [ktcread, hb] at hr
    | some b =>
      obtain ⟨st, hst, hm⟩ := key io_read b (by rw [← ktcread_build_eq]; exact hb)
      rw [ktcread_of_build_err env exec calls _ fail_index fcnt b st hb hst] at hr
      simp only [Option.some.injEq] at hr
      subst hr
      exact ⟨hm, rfl⟩
  · intro r hr
    cases hb : ktcwrite_build env kern_arg [] fcnt with
    | none => simp [ktcwrite, hb] at hr
    | some b =>
      obtain ⟨st, hst, hm⟩ := key io_write b (by rw [← ktcwrite_build_eq]; exact hb)
      rw [ktcwrite_of_build_err env exec calls _ fail_index fcnt b st hb hst] at hr
      simp only [Option.some.injEq] at hr
      subst hr
      exact ⟨hm, rfl⟩
  · intro hs
    constructor
    · obtain ⟨b, hb⟩ := ktc_build_defined io_read env kern_arg hs [] fcnt
      obtain ⟨st, hst, _⟩ := key io_read b hb
      rw [← ktcread_build_eq] at hb
      exact ⟨_, ktcread_of_build_err env exec calls _ fail_index fcnt b st hb hst⟩
    · obtain ⟨b, hb⟩ := ktc_build_defined io_write env kern_arg hs [] fcnt
      obtain ⟨st, hst, _⟩ := key io_write b hb
      rw [← ktcwrite_build_eq] at hb
      exact ⟨_, ktcwrite_of_build_err env exec calls _ fail_index fcnt b st hb hst⟩

/-- C7 (witness): a batch whose second path is `/a/../b`. -/
theorem C7_dotdot_is_invalid_argument_witness :
    (∃ k ∈ [mk_item (some ['/', 'a', '/', 'b']) 0 4096,
          mk_item (some ['/', 'a', '/', '.', '.', '/', 'b']) 0 4096],
        ∃ path, k.path = some path ∧ ['.', '.'] ∈ strtok_r path [])
    ∧ (∃ r, ktcread env0 exec_ok [] [mk_item (some ['/', 'a', '/', 'b']) 0 4096,
          mk_item (some ['/', 'a', '/', '.', '.', '/', 'b']) 0 4096] (-1) 0 = some r
        ∧ r.st.major = ERR_FSAL_INVAL ∧ r.calls = [])
    ∧ (∃ r, ktcwrite env0 exec_ok [] [mk_item (some ['/', 'a', '/', 'b']) 0 4096,
          mk_item (some ['/', 'a', '/', '.', '.', '/', 'b']) 0 4096] (-1) 0 = some r
        ∧ r.st.major = ERR_FSAL_INVAL ∧ r.calls = []) :=
  have hdd : ∃ k ∈ [mk_item (some ['/', 'a', '/', 'b']) 0 4096,
          mk_item (some ['/', 'a', '/', '.', '.', '/', 'b']) 0 4096],
        ∃ path, k.path = some path ∧ ['.', '.'] ∈ strtok_r path [] :=
    ⟨mk_item (some ['/', 'a', '/', '.', '.', '/', 'b']) 0 4096, by simp, _, rfl, by decide⟩
  have hthm := C7_dotdot_is_invalid_argument env0 exec_ok []
    [mk_item (some ['/', 'a', '/', 'b']) 0 4096,
      mk_item (some ['/', 'a', '/', '.', '.', '/', 'b']) 0 4096] (-1) 0 hdd
  have hdef := hthm.2.2 (by decide)
  ⟨hdd, ⟨hdef.1.choose, hdef.1.choose_spec, hthm.1 _ hdef.1.choose_spec⟩,
    ⟨hdef.2.choose, hdef.2.choose_spec, hthm.2.1 _ hdef.2.choose_spec⟩⟩


/-! ## Lemmas and statements: the path resolvers -/

/-- C9 (counterexample). For the slash-separated path `a/b` (components `a`, `b`)
`construct_lookup` emits a LOOKUP whose name is `/`, not `a`, and the string at
`path + marker` is empty, not `b`. -/
theorem C9_relative_path_names :
    construct_lookup 256 ['a', '/', 'b'] [] = lookup_ret.ok [PUTROOTFH, LOOKUP ['/']] 3
    ∧ (['a', '/', 'b'] : List Char).drop 3 = []
    ∧ strtok_r ['a', '/', 'b'] [] = [['a'], ['b']] := by
  decide

/-- C9 (amended). For every path of the form `/c1/.../cm` (m >= 1; one slash before
each component, none after the last; components not empty, without slash, none `..`;
c1 .. c(m-1) shorter than the name buffer), `construct_lookup` adds PUTROOTFH and
exactly m - 1 LOOKUP operations whose names are c1 .. c(m-1) in order, none for cm, and
returns a marker such that the string at `path + marker` is cm. -/
theorem C9_construct_lookup_canonical (M : Nat) (dirs : List (List Char)) (name : List Char)
    (ops : List nfs_argop4) (hc : ∀ c ∈ dirs ++ [name], component_ok c)
    (hfit : ∀ c ∈ dirs, c.length < M) :
    ∃ marker, construct_lookup M (slash_join (dirs ++ [name])) ops
        = lookup_ret.ok (ops ++ PUTROOTFH :: dirs.map LOOKUP) marker
      ∧ (slash_join (dirs ++ [name])).drop marker = name := by
  rcases construct_lookup_canon M dirs name hc ops with h | ⟨_, c, hcm, hcl⟩
  · exact h
  · exact absurd (hfit c hcm) hcl

/-- C9 (witness): the path `/usr/lib/x`. -/
theorem C9_construct_lookup_canonical_witness :
    (∀ c ∈ [['u', 's', 'r'], ['l', 'i', 'b']] ++ [['x']], component_ok c)
    ∧ (∀ c ∈ [['u', 's', 'r'], ['l', 'i', 'b']], c.length < 256)
    ∧ ∃ marker, construct_lookup 256 ['/', 'u', 's', 'r', '/', 'l', 'i', 'b', '/', 'x'] []
          = lookup_ret.ok [PUTROOTFH, LOOKUP ['u', 's', 'r'], LOOKUP ['l', 'i', 'b']] marker
        ∧ (['/', 'u', 's', 'r', '/', 'l', 'i', 'b', '/', 'x'] : List Char).drop marker = ['x'] :=
  ⟨by decide, by decide,
    C9_construct_lookup_canonical 256 [['u', 's', 'r'], ['l', 'i', 'b']] ['x'] []
      (by decide) (by decide)⟩

/-- C10 (counterexample). The chain built for the path `dir/file`, which does not begin
with a slash, contains PUTROOTFH (it is its first operation). -/
theorem C10_relative_path_has_putrootfh :
    (['d', 'i', 'r', '/', 'f', 'i', 'l', 'e'] : List Char).head? ≠ some '/'
    ∧ construct_lookup 256 ['d', 'i', 'r', '/', 'f', 'i', 'l', 'e'] []
        = lookup_ret.ok [PUTROOTFH, LOOKUP ['i', 'r', '/']] 5
    ∧ PUTROOTFH ∈ [PUTROOTFH, LOOKUP ['i', 'r', '/']] := by
  decide

/-- C10 (amended). The chain `construct_lookup` builds starts with PUTROOTFH for every
path it accepts, whether the path begins with a slash or not: what it appends to the
array is one PUTROOTFH followed by LOOKUP operations only. -/
theorem C10_chain_starts_with_putrootfh (M : Nat) (path : List Char)
    (ops ops2 : List nfs_argop4) (marker : Nat)
    (h : construct_lookup M path ops = lookup_ret.ok ops2 marker) :
    ∃ names : List (List Char), ops2 = ops ++ PUTROOTFH :: names.map LOOKUP := by
  obtain ⟨names, hn, _⟩ := construct_lookup_ok M path ops ops2 marker h
  exact ⟨names, hn⟩

/-- C10 (witness): the paths `/a/b` and `a/b`. -/
theorem C10_chain_starts_with_putrootfh_witness :
    construct_lookup 256 ['/', 'a', '/', 'b'] [CLOSE_NOSTATE]
        = lookup_ret.ok [CLOSE_NOSTATE, PUTROOTFH, LOOKUP ['a']] 3
    ∧ construct_lookup 256 ['a', '/', 'b'] [CLOSE_NOSTATE]
        = lookup_ret.ok [CLOSE_NOSTATE, PUTROOTFH, LOOKUP ['/']] 3
    ∧ (∃ names : List (List Char), [CLOSE_NOSTATE, PUTROOTFH, LOOKUP ['a']]
        = [CLOSE_NOSTATE] ++ PUTROOTFH :: names.map LOOKUP)
    ∧ (∃ names : List (List Char), [CLOSE_NOSTATE, PUTROOTFH, LOOKUP ['/']]
        = [CLOSE_NOSTATE] ++ PUTROOTFH :: names.map LOOKUP) :=
  ⟨by decide, by decide,
    C10_chain_starts_with_putrootfh 256 ['/', 'a', '/', 'b'] [CLOSE_NOSTATE] _ 3 (by decide),
    C10_chain_starts_with_putrootfh 256 ['a', '/', 'b'] [CLOSE_NOSTATE] _ 3 (by decide)⟩


/-! ## Statements on the size of the operation arrays -/

/-- The shape of an operation is an operation of the same kind. -/
theorem argop_shape (o : nfs_argop4) : o.shape.argop = o.argop := by
  cases o <;> rfl

/-- Counting operations of a kind in the shapes of an array. -/
theorem count_op_shape (op : nfs_opnum4) (ops : List nfs_argop4) :
    count_op op (ops.map nfs_argop4.shape) = count_op op ops := by
  induction ops with
  | nil => rfl
  | cons o ops ih =>
    rw [List.map_cons, count_op_cons, count_op_cons, ih, argop_shape]

/-- Counting the LOOKUP operations among LOOKUP operations. -/
theorem count_op_lookup_lookups (names : List (List Char)) :
    count_op NFS4_OP_LOOKUP (names.map LOOKUP) = names.length := by
  induction names with
  | nil => rfl
  | cons n ns ih =>
    rw [List.map_cons, count_op_cons, ih, argop_LOOKUP, List.length_cons]
    simp

/-- The planned operations of a batch that starts with an element below `depth`
directories. -/
theorem plan_ops_deep_cons (io : tc_iovec → nfs_argop4) (first : Bool) (depth : Nat)
    (ps : List path_item) :
    plan_ops io first (deep_item depth :: ps)
      = (if first then [] else [CLOSE_NOSTATE]) ++ [PUTROOTFH]
          ++ (List.replicate depth ['d']).map LOOKUP ++ [OPEN_NOCREATE ['f']]
          ++ [io (deep_item depth).user_arg] ++ plan_ops io false ps := rfl

/-- The planned operations of `m` elements below `depth` directories, none of them the
first of its batch: `depth + 4` operations each, `depth` of them LOOKUP. -/
theorem plan_ops_deep (io : tc_iovec → nfs_argop4) (ioop : nfs_opnum4)
    (hio : ∀ u, (io u).argop = ioop) (h4 : ioop ≠ NFS4_OP_LOOKUP) (depth m : Nat) :
    (plan_ops io false (List.replicate m (deep_item depth))).length = (depth + 4) * m
    ∧ count_op NFS4_OP_LOOKUP (plan_ops io false (List.replicate m (deep_item depth)))
      = depth * m := by
  induction m with
  | zero => exact ⟨rfl, rfl⟩
  | succ m ih =>
    have hne : ¬ (io (deep_item depth).user_arg).argop = NFS4_OP_LOOKUP := by
      rw [hio]; exact h4
    rw [List.replicate_succ, plan_ops_deep_cons]
    constructor
    · simp only [Bool.false_eq_true, if_false, List.length_append, List.length_cons,
        List.length_nil, List.length_map, List.length_replicate, ih.1]
      ring
    · simp only [Bool.false_eq_true, if_false, count_op_append, count_op_cons, count_op_nil,
        ih.2, count_op_lookup_lookups, List.length_replicate, OPEN_NOCREATE, argop_OPEN,
        argop_CLOSE, argop_PUTROOTFH]
      have e1 : ¬ NFS4_OP_CLOSE = NFS4_OP_LOOKUP := by decide
      have e2 : ¬ NFS4_OP_PUTROOTFH = NFS4_OP_LOOKUP := by decide
      have e3 : ¬ NFS4_OP_OPEN = NFS4_OP_LOOKUP := by decide
      rw [if_neg e1, if_neg e2, if_neg e3, if_neg hne]
      ring

/-- The planned operations of a batch of `m + 1` elements below `depth` directories,
with the final CLOSE: `(depth + 4) * (m + 1)` operations, `depth * (m + 1)` of them
LOOKUP. -/
theorem plan_ops_deep_batch (io : tc_iovec → nfs_argop4) (ioop : nfs_opnum4)
    (hio : ∀ u, (io u).argop = ioop) (h4 : ioop ≠ NFS4_OP_LOOKUP) (depth m : Nat) :
    (plan_ops io true (List.replicate (m + 1) (deep_item depth)) ++ [CLOSE_NOSTATE]).length
      = (depth + 4) * (m + 1)
    ∧ count_op NFS4_OP_LOOKUP
        (plan_ops io true (List.replicate (m + 1) (deep_item depth)) ++ [CLOSE_NOSTATE])
      = depth * (m + 1) := by
  have hne : ¬ (io (deep_item depth).user_arg).argop = NFS4_OP_LOOKUP := by
    rw [hio]; exact h4
  obtain ⟨h1, h2⟩ := plan_ops_deep io ioop hio h4 depth m
  rw [List.replicate_succ, plan_ops_deep_cons]
  constructor
  · simp only [if_true, List.length_append, List.length_cons, List.length_nil,
      List.length_map, List.length_replicate, h1]
    ring
  · simp only [if_true, count_op_append, count_op_cons, count_op_nil, h2,
      count_op_lookup_lookups, List.length_replicate, OPEN_NOCREATE, argop_OPEN, argop_CLOSE,
      argop_PUTROOTFH]
    have e1 : ¬ NFS4_OP_CLOSE = NFS4_OP_LOOKUP := by decide
    have e2 : ¬ NFS4_OP_PUTROOTFH = NFS4_OP_LOOKUP := by decide
    have e3 : ¬ NFS4_OP_OPEN = NFS4_OP_LOOKUP := by decide
    rw [if_neg e1, if_neg e2, if_neg e3, if_neg hne]
    ring

/-- The build loop on a batch of `m + 1` elements below `depth` directories, in the
environment `env0`: it runs to the end, and with the final CLOSE the array holds
`(depth + 4) * (m + 1)` operations, `depth * (m + 1)` of them LOOKUP. -/
theorem deep_batch_build (io : tc_iovec → nfs_argop4) (ioop : nfs_opnum4)
    (hio : ∀ u, (io u).argop = ioop) (h4 : ioop ≠ NFS4_OP_LOOKUP)
    (hs : ∀ u, (io u).shape = io u)
    (hr : ∀ u : tc_iovec, io { u with is_failure := false, is_eof := false } = io u)
    (depth m fcnt : Nat) :
    ∃ b, ktc_build io env0 (deep_batch depth (m + 1)) [] fcnt = some b ∧ b.err = none
      ∧ (b.ops ++ [CLOSE_NOSTATE]).length = (depth + 4) * (m + 1)
      ∧ count_op NFS4_OP_LOOKUP (b.ops ++ [CLOSE_NOSTATE]) = depth * (m + 1) := by
  have hmem : ∀ p ∈ List.replicate (m + 1) (deep_item depth), p = deep_item depth :=
    fun p hp => (List.mem_replicate.mp hp).2
  have hok : ∀ p ∈ List.replicate (m + 1) (deep_item depth), p.ok := by
    intro p hp
    rw [hmem p hp]
    simp only [path_item.ok, deep_item]
    intro c hc
    rcases List.mem_append.mp hc with hc | hc
    · rw [(List.mem_replicate.mp hc).2]; decide
    · rw [List.mem_singleton.mp hc]; decide
  have hfit : ∀ p ∈ List.replicate (m + 1) (deep_item depth),
      p.fits env0.MAX_FILENAME_LENGTH := by
    intro p hp
    rw [hmem p hp]
    simp only [path_item.fits, deep_item]
    intro c hc
    rw [(List.mem_replicate.mp hc).2]; decide
  have henc : ∀ p ∈ List.replicate (m + 1) (deep_item depth),
      fs_fsalattr_to_fattr4 env0 (reset_item env0 p.kargs).attrib ≠ none := by
    intro p _
    simp [fs_fsalattr_to_fattr4, env0]
  obtain ⟨b, hb, herr⟩ := ktc_build_total io env0 (List.replicate (m + 1) (deep_item depth))
    hok hfit henc [] fcnt (fun _ p hp => by
      rw [List.replicate_succ, List.head?_cons, Option.mem_def, Option.some.injEq] at hp
      rw [← hp]
      simp [deep_item])
  have hshape := ktc_build_shape io hs hr env0 (List.replicate (m + 1) (deep_item depth)) hok
    [] fcnt b hb herr
  rw [List.map_nil, List.nil_append] at hshape
  have hdec : decide (([] : List nfs_argop4) = []) = true := by decide
  rw [hdec] at hshape
  obtain ⟨hl, hc⟩ := plan_ops_deep_batch io ioop hio h4 depth m
  refine ⟨b, hb, herr, ?_, ?_⟩
  · rw [← hl, List.length_append, List.length_append, ← hshape, List.length_map]
  · rw [← hc, ← count_op_shape, List.map_append, hshape]
    rfl

/-- What `ktcread` returns when its build loop ran to the end and the compound
succeeds. -/
theorem ktcread_ok (env : Env) (exec : Executor) (calls : List (List nfs_argop4))
    (kern_arg : List tcread_kargs) (fail_index : Int) (fcnt : Nat) (b : build_out)
    (hb : ktcread_build env kern_arg [] fcnt = some b) (herr : b.err = none)
    (hrc : (exec calls (b.ops ++ [CLOSE_NOSTATE])).rc = NFS4_OK) :
    ktcread env exec calls kern_arg fail_index fcnt
      = some ⟨fsalstat ERR_FSAL_NO_ERROR 0, fail_index, b.kern_arg,
          calls ++ [b.ops ++ [CLOSE_NOSTATE]], b.fcnt⟩ := by
  simp only [ktcread, hb, herr, hrc, ne_eq, not_true_eq_false, if_false]

/-- What `ktcwrite` returns when its build loop ran to the end and the compound
succeeds. -/
theorem ktcwrite_ok (env : Env) (exec : Executor) (calls : List (List nfs_argop4))
    (kern_arg : List tcwrite_kargs) (fail_index : Int) (fcnt : Nat) (b : build_out)
    (hb : ktcwrite_build env kern_arg [] fcnt = some b) (herr : b.err = none)
    (hrc : (exec calls (b.ops ++ [CLOSE_NOSTATE])).rc = NFS4_OK) :
    ktcwrite env exec calls kern_arg fail_index fcnt
      = some ⟨fsalstat ERR_FSAL_NO_ERROR 0, fail_index, b.kern_arg,
          calls ++ [b.ops ++ [CLOSE_NOSTATE]], b.fcnt⟩ := by
  simp only [ktcwrite, hb, herr, hrc, ne_eq, not_true_eq_false, if_false]

/-- A batch of N = n + 1 elements, each on a file below `depth` directories, with
`MAX_DIR_DEPTH = depth`: every element emits `depth` LOOKUP operations, and `ktcread`
and `ktcwrite` write `(depth + 4) * N` operations (the final CLOSE included) into
arrays allocated for `(depth + 3) * N`: N operations are written beyond the end of the
arrays. -/
theorem deep_batch_overflow (depth n : Nat) :
    (∃ r ops, ktcread env0 exec_ok [] (deep_batch depth (n + 1)) (-1) 0 = some r
      ∧ r.calls = [ops] ∧ count_op NFS4_OP_LOOKUP ops = depth * (n + 1)
      ∧ ops.length = (depth + 4) * (n + 1)
      ∧ ops.length = FSAL_TCREAD_NB_OP_ALLOC depth (n + 1) + (n + 1))
    ∧ (∃ r ops, ktcwrite env0 exec_ok [] (deep_batch depth (n + 1)) (-1) 0 = some r
      ∧ r.calls = [ops] ∧ count_op NFS4_OP_LOOKUP ops = depth * (n + 1)
      ∧ ops.length = (depth + 4) * (n + 1)
      ∧ ops.length = FSAL_TCWRITE_NB_OP_ALLOC depth (n + 1) + (n + 1)) := by
  constructor
  · obtain ⟨b, hb, herr, hl, hc⟩ := deep_batch_build io_read NFS4_OP_READ (fun _ => rfl)
      (by decide) shape_io_read (fun _ => rfl) depth n 0
    rw [← ktcread_build_eq] at hb
    refine ⟨_, _, ktcread_ok env0 exec_ok [] _ (-1) 0 b hb herr rfl, rfl, hc, hl, ?_⟩
    rw [hl, FSAL_TCREAD_NB_OP_ALLOC]
    ring
  · obtain ⟨b, hb, herr, hl, hc⟩ := deep_batch_build io_write NFS4_OP_WRITE (fun _ => rfl)
      (by decide) shape_io_write (fun _ => rfl) depth n 0
    rw [← ktcwrite_build_eq] at hb
    refine ⟨_, _, ktcwrite_ok env0 exec_ok [] _ (-1) 0 b hb herr rfl, rfl, hc, hl, ?_⟩
    rw [hl, FSAL_TCWRITE_NB_OP_ALLOC]
    ring

/-- The operations a successful call of the common form appends: at most four besides
the LOOKUP operations (three at the head of the array), and as many LOOKUP operations
as `lookups_of` says. -/
theorem do_ktc_ok_len (io : tc_iovec → nfs_argop4) (ioop : nfs_opnum4)
    (hio : ∀ u, (io u).argop = ioop) (h4 : ioop ≠ NFS4_OP_LOOKUP) (env : Env)
    (ka : tcread_kargs) (ops : List nfs_argop4) (fcnt : Nat) (r : do_out)
    (h : do_ktc io env ka ops fcnt = some r) (hok : FSAL_IS_ERROR r.st = false) :
    r.ops ≠ []
    ∧ r.ops.length + (if ops = [] then 1 else 0) ≤ ops.length + lookups_of ka + 4
    ∧ count_op NFS4_OP_LOOKUP r.ops = count_op NFS4_OP_LOOKUP ops + lookups_of ka := by
  have hne : ¬ (io (reset_item env ka).user_arg).argop = NFS4_OP_LOOKUP := by
    rw [hio]; exact h4
  have e1 : ¬ NFS4_OP_CLOSE = NFS4_OP_LOOKUP := by decide
  have e2 : ¬ NFS4_OP_PUTROOTFH = NFS4_OP_LOOKUP := by decide
  have e3 : ¬ NFS4_OP_OPEN = NFS4_OP_LOOKUP := by decide
  obtain ⟨_, _, hseg⟩ := do_ktc_ok_seg io env ka ops fcnt r h hok
  rcases hseg with ⟨hp, hops, hr⟩ | ⟨path, names, marker, attrs, owner, hp, hcl, hr⟩
  · have hl : lookups_of ka = 0 := by simp [lookups_of, hp]
    refine ⟨by rw [hr]; simp, ?_, ?_⟩
    · rw [hr, if_neg hops, List.length_append, List.length_singleton]
      omega
    · rw [hr, count_op_append, count_op_cons, count_op_nil, if_neg hne, hl]
  · obtain ⟨names2, hn1, hn2⟩ := construct_lookup_ok _ _ _ _ _ hcl
    have hlen : names.length = names2.length := by
      have := congrArg List.length hn1
      simp only [List.length_append, List.length_cons, List.length_map] at this
      omega
    have hl : lookups_of ka = names.length := by
      simp only [lookups_of, hp]
      rw [hlen, hn2]
    refine ⟨by rw [hr]; simp, ?_, ?_⟩
    · rw [hr, hl]
      by_cases ho : ops = []
      · simp [ho]
      · simp [ho]
        omega
    · rw [hr, hl]
      simp only [count_op_append, count_op_cons, count_op_nil, count_op_lookup_lookups,
        argop_OPEN, argop_PUTROOTFH]
      rw [if_neg e2, if_neg e3, if_neg hne]
      by_cases ho : ops = []
      · simp [ho, count_op_nil]
      · simp only [ho, if_false, count_op_cons, count_op_nil, argop_CLOSE]
        rw [if_neg e1]
        omega

/-- The number of operations a build loop leaves, whether it ran to the end or not:
with every element emitting fewer than `depth` LOOKUP operations, at most `depth + 3`
for each element, and one less at the head of the array. -/
theorem ktc_build_len (io : tc_iovec → nfs_argop4) (ioop : nfs_opnum4)
    (hio : ∀ u, (io u).argop = ioop) (h4 : ioop ≠ NFS4_OP_LOOKUP) (env : Env) (depth : Nat)
    (ks : List tcread_kargs) (hd : ∀ k ∈ ks, lookups_of k + 1 ≤ depth)
    (ops : List nfs_argop4) (fcnt : Nat) (b : build_out)
    (h : ktc_build io env ks ops fcnt = some b) :
    b.ops.length + (if ops = [] ∧ ks ≠ [] then 1 else 0)
      ≤ ops.length + (depth + 3) * ks.length := by
  induction ks generalizing ops fcnt b with
  | nil =>
    simp only [ktc_build, Option.some.injEq] at h
    subst h
    simp
  | cons k ks ih =>
    have hk := hd k (by simp)
    have hks : ∀ q ∈ ks, lookups_of q + 1 ≤ depth := fun q hq => hd q (by simp [hq])
    have hmul : (depth + 3) * (k :: ks).length = (depth + 3) * ks.length + (depth + 3) := by
      rw [List.length_cons]; ring
    have hite : (if ops = [] ∧ k :: ks ≠ [] then 1 else 0) = if ops = [] then 1 else 0 := by
      simp
    rw [hmul, hite]
    simp only [ktc_build] at h
    cases hdo : do_ktc io env k ops fcnt with
    | none => rw [hdo] at h; exact absurd h (by simp)
    | some r =>
      rw [hdo] at h
      simp only at h
      by_cases he : FSAL_IS_ERROR r.st = true
      · rw [if_pos he] at h
        simp only [Option.some.injEq] at h
        subst h
        simp only
        split <;> omega
      · rw [if_neg he] at h
        cases hb : ktc_build io env ks r.ops r.fcnt with
        | none => rw [hb] at h; exact absurd h (by simp)
        | some b2 =>
          rw [hb] at h
          simp only [Option.some.injEq] at h
          subst h
          obtain ⟨hne, hlen, _⟩ := do_ktc_ok_len io ioop hio h4 env k ops fcnt r hdo
            (by simpa using he)
          have := ih hks r.ops r.fcnt b2 hb
          simp only [hne, false_and, if_false, Nat.add_zero] at this
          simp only
          omega

/-- The LOOKUP operations a build loop that ran to the end adds: as many for each
element as `lookups_of` says. -/
theorem ktc_build_lookups (io : tc_iovec → nfs_argop4) (ioop : nfs_opnum4)
    (hio : ∀ u, (io u).argop = ioop) (h4 : ioop ≠ NFS4_OP_LOOKUP) (env : Env)
    (ks : List tcread_kargs) (ops : List nfs_argop4) (fcnt : Nat) (b : build_out)
    (h : ktc_build io env ks ops fcnt = some b) (herr : b.err = none) :
    count_op NFS4_OP_LOOKUP b.ops
      = count_op NFS4_OP_LOOKUP ops + (ks.map lookups_of).sum := by
  induction ks generalizing ops fcnt b with
  | nil =>
    simp only [ktc_build, Option.some.injEq] at h
    subst h
    simp
  | cons k ks ih =>
    obtain ⟨r, b2, hdo, hok, hb, he2, hops, _, _⟩ := ktc_build_cons_ok io env k ks ops fcnt b h herr
    obtain ⟨_, _, hc⟩ := do_ktc_ok_len io ioop hio h4 env k ops fcnt r hdo hok
    rw [hops, ih r.ops r.fcnt b2 hb he2, hc, List.map_cons, List.sum_cons]
    omega

/-- C11 (counterexample): with `MAX_DIR_DEPTH = 1`, the one-element batch on `/d/f`
emits one LOOKUP, and `ktcread` and `ktcwrite` write five operations (PUTROOTFH, LOOKUP,
OPEN, READ or WRITE, CLOSE) into arrays allocated for four. -/
theorem C11_five_ops_in_four_slots :
    (ktcread env0 exec_ok [] (deep_batch 1 1) (-1) 0).map (fun r => r.calls)
      = some [[PUTROOTFH, LOOKUP ['d'],
          OPEN false 0 7 ⟨empty_bitmap, []⟩ ['f'] (owner_string 4242 1), READ 0 1,
          CLOSE_NOSTATE]]
    ∧ (ktcwrite env0 exec_ok [] (deep_batch 1 1) (-1) 0).map (fun r => r.calls)
      = some [[PUTROOTFH, LOOKUP ['d'],
          OPEN false 0 7 ⟨empty_bitmap, []⟩ ['f'] (owner_string 4242 1), WRITE 0 [] 1,
          CLOSE_NOSTATE]]
    ∧ FSAL_TCREAD_NB_OP_ALLOC 1 1 = 4 ∧ FSAL_TCWRITE_NB_OP_ALLOC 1 1 = 4 := by
  decide

/-- C11 (amended). For every batch of N >= 1 elements in which each element emits at
most `MAX_DIR_DEPTH - 1` LOOKUP operations (its path has at most `MAX_DIR_DEPTH`
components), the operations the build loop of `ktcread` / `ktcwrite` leaves in the
array, and one more slot for the final CLOSE, are at most `(MAX_DIR_DEPTH + 3) * N`, the
number of slots allocated; when the loop ran to the end the LOOKUP operations in the
array are those the elements emit. -/
theorem C11_op_arrays_suffice (env : Env) (MAX_DIR_DEPTH : Nat) (kern_arg : List tcread_kargs)
    (fcnt : Nat) (hN : 1 ≤ kern_arg.length)
    (hdepth : ∀ k ∈ kern_arg, lookups_of k + 1 ≤ MAX_DIR_DEPTH) :
    (∀ b, ktcread_build env kern_arg [] fcnt = some b →
      (b.ops ++ [CLOSE_NOSTATE]).length ≤ FSAL_TCREAD_NB_OP_ALLOC MAX_DIR_DEPTH kern_arg.length
      ∧ (b.err = none →
        count_op NFS4_OP_LOOKUP (b.ops ++ [CLOSE_NOSTATE]) = (kern_arg.map lookups_of).sum))
    ∧ (∀ b, ktcwrite_build env kern_arg [] fcnt = some b →
      (b.ops ++ [CLOSE_NOSTATE]).length ≤ FSAL_TCWRITE_NB_OP_ALLOC MAX_DIR_DEPTH kern_arg.length
      ∧ (b.err = none →
        count_op NFS4_OP_LOOKUP (b.ops ++ [CLOSE_NOSTATE]) = (kern_arg.map lookups_of).sum)) := by
  have hne : kern_arg ≠ [] := by
    intro e; rw [e] at hN; simp at hN
  have e1 : ¬ NFS4_OP_CLOSE = NFS4_OP_LOOKUP := by decide
  constructor
  · intro b hb
    rw [ktcread_build_eq] at hb
    have hlen := ktc_build_len io_read NFS4_OP_READ (fun _ => rfl) (by decide) env
      MAX_DIR_DEPTH kern_arg hdepth [] fcnt b hb
    refine ⟨?_, fun herr => ?_⟩
    · simp only [hne, ne_eq, not_false_eq_true, and_self, if_true, List.length_nil,
        Nat.zero_add] at hlen
      rw [List.length_append, List.length_singleton, FSAL_TCREAD_NB_OP_ALLOC]
      exact hlen
    · rw [count_op_append, count_op_cons, count_op_nil, argop_CLOSE, if_neg e1,
        ktc_build_lookups io_read NFS4_OP_READ (fun _ => rfl) (by decide) env kern_arg []
          fcnt b hb herr, count_op_nil]
      omega
  · intro b hb
    rw [ktcwrite_build_eq] at hb
    have hlen := ktc_build_len io_write NFS4_OP_WRITE (fun _ => rfl) (by decide) env
      MAX_DIR_DEPTH kern_arg hdepth [] fcnt b hb
    refine ⟨?_, fun herr => ?_⟩
    · simp only [hne, ne_eq, not_false_eq_true, and_self, if_true, List.length_nil,
        Nat.zero_add] at hlen
      rw [List.length_append, List.length_singleton, FSAL_TCWRITE_NB_OP_ALLOC]
      exact hlen
    · rw [count_op_append, count_op_cons, count_op_nil, argop_CLOSE, if_neg e1,
        ktc_build_lookups io_write NFS4_OP_WRITE (fun _ => rfl) (by decide) env kern_arg []
          fcnt b hb herr, count_op_nil]
      omega

/-- C11 (witness): the two-file batch `/a/b`, `/a/c` with `MAX_DIR_DEPTH = 2`: one LOOKUP
for each element, and the ten operations fill the ten slots allocated. -/
theorem C11_op_arrays_suffice_witness :
    1 ≤ (two_files.map path_item.kargs).length
    ∧ (∀ k ∈ two_files.map path_item.kargs, lookups_of k + 1 ≤ 2)
    ∧ ∃ b, ktcread_build env0 (two_files.map path_item.kargs) [] 0 = some b
      ∧ (b.ops ++ [CLOSE_NOSTATE]).length = 10
      ∧ (b.ops ++ [CLOSE_NOSTATE]).length
        ≤ FSAL_TCREAD_NB_OP_ALLOC 2 (two_files.map path_item.kargs).length :=
  ⟨by decide, by decide,
    (ktcread_build env0 (two_files.map path_item.kargs) [] 0).getD ⟨none, [], [], 0⟩,
    by decide, by decide,
    ((C11_op_arrays_suffice env0 2 (two_files.map path_item.kargs) 0 (by decide)
      (by decide)).1 _ (by decide)).1⟩

/-! ## Statements on the status translation -/

/-- C12. `nfsstat4_to_fsal` maps each of NFS4ERR_NOENT, IO, EXIST, NOTDIR, ISDIR, FBIG,
NOSPC, ROFS, MLINK, NAMETOOLONG, NOTEMPTY and DQUOT to the major code of the same name,
and the twelve major codes are pairwise distinct. -/
theorem C12_same_name_codes :
    (nfsstat4_to_fsal NFS4ERR_NOENT).major = ERR_FSAL_NOENT
    ∧ (nfsstat4_to_fsal NFS4ERR_IO).major = ERR_FSAL_IO
    ∧ (nfsstat4_to_fsal NFS4ERR_EXIST).major = ERR_FSAL_EXIST
    ∧ (nfsstat4_to_fsal NFS4ERR_NOTDIR).major = ERR_FSAL_NOTDIR
    ∧ (nfsstat4_to_fsal NFS4ERR_ISDIR).major = ERR_FSAL_ISDIR
    ∧ (nfsstat4_to_fsal NFS4ERR_FBIG).major = ERR_FSAL_FBIG
    ∧ (nfsstat4_to_fsal NFS4ERR_NOSPC).major = ERR_FSAL_NOSPC
    ∧ (nfsstat4_to_fsal NFS4ERR_ROFS).major = ERR_FSAL_ROFS
    ∧ (nfsstat4_to_fsal NFS4ERR_MLINK).major = ERR_FSAL_MLINK
    ∧ (nfsstat4_to_fsal NFS4ERR_NAMETOOLONG).major = ERR_FSAL_NAMETOOLONG
    ∧ (nfsstat4_to_fsal NFS4ERR_NOTEMPTY).major = ERR_FSAL_NOTEMPTY
    ∧ (nfsstat4_to_fsal NFS4ERR_DQUOT).major = ERR_FSAL_DQUOT
    ∧ ([NFS4ERR_NOENT, NFS4ERR_IO, NFS4ERR_EXIST, NFS4ERR_NOTDIR, NFS4ERR_ISDIR,
        NFS4ERR_FBIG, NFS4ERR_NOSPC, NFS4ERR_ROFS, NFS4ERR_MLINK, NFS4ERR_NAMETOOLONG,
        NFS4ERR_NOTEMPTY, NFS4ERR_DQUOT].map (fun s => (nfsstat4_to_fsal s).major)).Nodup := by
  decide

/-- C13 (counterexample): NFS4ERR_STALE and NFS4ERR_BADHANDLE get different major codes,
and so do NFS4ERR_NOTSUPP and NFS4ERR_LOCK_NOTSUPP. -/
theorem C13_groups_split :
    (nfsstat4_to_fsal NFS4ERR_STALE).major ≠ (nfsstat4_to_fsal NFS4ERR_BADHANDLE).major
    ∧ (nfsstat4_to_fsal NFS4ERR_NOTSUPP).major
        ≠ (nfsstat4_to_fsal NFS4ERR_LOCK_NOTSUPP).major := by
  decide

/-- C13 (amended). NFS4ERR_ACCESS, DENIED, LOCKED and FILE_OPEN map to the one major
code `ERR_FSAL_ACCESS`, NFS4ERR_GRACE and DELAY to the one major code `ERR_FSAL_DELAY`;
NFS4ERR_STALE maps to `ERR_FSAL_STALE` but NFS4ERR_BADHANDLE to `ERR_FSAL_BADHANDLE`,
and NFS4ERR_NOTSUPP maps to `ERR_FSAL_NOTSUPP` but NFS4ERR_LOCK_NOTSUPP to
`ERR_FSAL_INVAL`. -/
theorem C13_status_groups :
    (∀ s ∈ [NFS4ERR_ACCESS, NFS4ERR_DENIED, NFS4ERR_LOCKED, NFS4ERR_FILE_OPEN],
      (nfsstat4_to_fsal s).major = ERR_FSAL_ACCESS)
    ∧ (∀ s ∈ [NFS4ERR_GRACE, NFS4ERR_DELAY], (nfsstat4_to_fsal s).major = ERR_FSAL_DELAY)
    ∧ (nfsstat4_to_fsal NFS4ERR_STALE).major = ERR_FSAL_STALE
    ∧ (nfsstat4_to_fsal NFS4ERR_BADHANDLE).major = ERR_FSAL_BADHANDLE
    ∧ (nfsstat4_to_fsal NFS4ERR_NOTSUPP).major = ERR_FSAL_NOTSUPP
    ∧ (nfsstat4_to_fsal NFS4ERR_LOCK_NOTSUPP).major = ERR_FSAL_INVAL := by
  decide

/-! ## Statements on the executor and on single operations -/

/-- C14. An RPC-layer failure reaches the caller of `fs_read` as the NFS status with
the same number: a reply that cannot be decoded (`RPC_CANTDECODERES`, 2) is reported
as `ERR_FSAL_NOENT`, a missing authentication handle (`RPC_AUTHERROR`, 7) as
`ERR_FSAL_INVAL`; and `nfsstat4_to_fsal` gives `ERR_FSAL_IO` for the number of
`RPC_TIMEDOUT` and `ERR_FSAL_INVAL` for that of `RPC_CANTSEND`. -/
theorem C14_rpc_failure_read_as_nfs_status :
    (fs_compoundv4_execute script_undecodable 0).map (fun r => r.ret)
      = some RPC_CANTDECODERES
    ∧ fs_read 4096 (exec_script script_undecodable) [] file_abc 0 512
      = some ⟨fsalstat ERR_FSAL_NOENT 2, none, none, [[PUTFH [97, 98, 99], READ 0 512]]⟩
    ∧ (fs_compoundv4_execute script_no_auth 0).map (fun r => r.ret) = some RPC_AUTHERROR
    ∧ fs_read 4096 (exec_script script_no_auth) [] file_abc 0 512
      = some ⟨fsalstat ERR_FSAL_INVAL 7, none, none, [[PUTFH [97, 98, 99], READ 0 512]]⟩
    ∧ nfsstat4_to_fsal RPC_TIMEDOUT = fsalstat ERR_FSAL_IO 5
    ∧ nfsstat4_to_fsal RPC_CANTSEND = fsalstat ERR_FSAL_INVAL 3 := by
  decide

/-- C15 (counterexample): a call whose first wait for the reply times out: the record
is written a second time, within the same call of `fs_compoundv4_call`, and the
executor returns the status of the reply to it, not `RPC_TIMEDOUT`. -/
theorem C15_resent_after_timeout :
    fs_compoundv4_execute script_timeout_then_reply 0 = some ⟨NFS4_OK, 1, 2⟩
    ∧ NFS4_OK ≠ RPC_TIMEDOUT := by
  decide

/-- The value `fs_process_reply` returns when it finds `iodone` set is not
`RPC_TIMEDOUT`. -/
theorem fs_process_reply_woken (io : Int) (reply : rpc_reply) :
    fs_process_reply (wait_result.woken io reply) ≠ RPC_TIMEDOUT := by
  simp only [fs_process_reply]
  split
  · cases reply with
    | undecodable => decide
    | accepted a s => cases a <;> exact Nat.ne_of_beq_eq_false rfl
    | denied r => cases r <;> decide
  · decide

/-- The send loop passes over waits that time out, writing the record once more for
each. -/
theorem fs_compoundv4_call_loop_timeouts (k : Nat) (rest : List send_attempt) (sent : Nat)
    (io : Int) (st : nfsstat4) :
    fs_compoundv4_call_loop
        (List.replicate k (send_attempt.sent wait_result.timed_out) ++ rest) sent io st
      = fs_compoundv4_call_loop rest (sent + k) io st := by
  induction k generalizing sent with
  | zero => rfl
  | succ k ih =>
    rw [List.replicate_succ, List.cons_append, fs_compoundv4_call_loop, ih]
    congr 1
    omega

/-- The send loop does not return `RPC_TIMEDOUT`. -/
theorem fs_compoundv4_call_loop_rc (attempts : List send_attempt) (sent : Nat) (io : Int)
    (st : nfsstat4) (r : call_out)
    (h : fs_compoundv4_call_loop attempts sent io st = some r) : r.rc ≠ RPC_TIMEDOUT := by
  induction attempts generalizing sent with
  | nil => simp [fs_compoundv4_call_loop] at h
  | cons a rest ih =>
    cases a with
    | cant_write =>
      simp only [fs_compoundv4_call_loop, Option.some.injEq] at h
      subst h
      exact Nat.ne_of_beq_eq_false rfl
    | sent w =>
      cases w with
      | timed_out => exact ih _ h
      | woken io2 reply =>
        simp only [fs_compoundv4_call_loop, Option.some.injEq] at h
        subst h
        exact fs_process_reply_woken io2 reply

/-- C15 (amended). Within `fs_compoundv4_call` every wait that times out is followed by
another write of the record: after `k` timeouts a reply ends the call with `k + 1`
records written, a failed write ends it with `RPC_CANTSEND`; the call never returns
`RPC_TIMEDOUT`. `fs_compoundv4_execute` makes the call again exactly when it returned
`RPC_CANTSEND`, or `RPC_CANTRECV` with `ioresult = -EAGAIN`; otherwise it returns the
compound status after `RPC_SUCCESS` and the RPC status else. -/
theorem C15_executor_resends :
    (∀ (k : Nat) (io : Int) (reply : rpc_reply) (rest : List send_attempt) (io0 : Int)
        (st0 : nfsstat4),
      fs_compoundv4_call
          ⟨true, true, List.replicate k (send_attempt.sent wait_result.timed_out)
            ++ send_attempt.sent (wait_result.woken io reply) :: rest⟩ io0 st0
        = some ⟨fs_process_reply (wait_result.woken io reply), k + 1, io,
            decoded_status st0 (wait_result.woken io reply)⟩)
    ∧ (∀ (k : Nat) (rest : List send_attempt) (io0 : Int) (st0 : nfsstat4),
      fs_compoundv4_call
          ⟨true, true, List.replicate k (send_attempt.sent wait_result.timed_out)
            ++ send_attempt.cant_write :: rest⟩ io0 st0
        = some ⟨RPC_CANTSEND, k, io0, st0⟩)
    ∧ (∀ (cs : call_script) (io0 : Int) (st0 : nfsstat4) (r : call_out),
      fs_compoundv4_call cs io0 st0 = some r → r.rc ≠ RPC_TIMEDOUT)
    ∧ (∀ (cs : call_script) (rest : List call_script) (calls sent : Nat) (io0 : Int)
        (st0 : nfsstat4) (r : call_out), fs_compoundv4_call cs io0 st0 = some r →
      fs_compoundv4_execute_loop (cs :: rest) calls sent io0 st0
        = if r.rc = RPC_CANTSEND ∨ (r.rc = RPC_CANTRECV ∧ r.ioresult = -EAGAIN) then
            fs_compoundv4_execute_loop rest (calls + 1) (sent + r.sent) r.ioresult r.status
          else some ⟨if r.rc = RPC_SUCCESS then r.status else r.rc, calls + 1, sent + r.sent⟩) := by
  refine ⟨?_, ?_, ?_, ?_⟩
  · intro k io reply rest io0 st0
    simp only [fs_compoundv4_call, Bool.not_true, Bool.false_eq_true, if_false, if_true,
      fs_compoundv4_call_loop_timeouts, fs_compoundv4_call_loop, Nat.zero_add]
  · intro k rest io0 st0
    simp only [fs_compoundv4_call, Bool.not_true, Bool.false_eq_true, if_false, if_true,
      fs_compoundv4_call_loop_timeouts, fs_compoundv4_call_loop, Nat.zero_add]
  · intro cs io0 st0 r h
    unfold fs_compoundv4_call at h
    split at h
    · simp only [Option.some.injEq] at h
      subst h
      exact Nat.ne_of_beq_eq_false rfl
    · split at h
      · exact fs_compoundv4_call_loop_rc _ _ _ _ _ h
      · simp only [Option.some.injEq] at h
        subst h
        exact Nat.ne_of_beq_eq_false rfl
  · intro cs rest calls sent io0 st0 r h
    simp only [fs_compoundv4_execute_loop, h, execute_again]
    by_cases h1 : r.rc = RPC_CANTSEND
    · simp [h1]
    · by_cases h2 : r.rc = RPC_CANTRECV ∧ r.ioresult = -EAGAIN
      · simp [h1, h2]
      · simp [h1, h2]

/-- C15 (witness): a call whose wait times out twice before the reply arrives: three
records written, and the call returns `RPC_SUCCESS`, which is not `RPC_TIMEDOUT`. -/
theorem C15_executor_resends_witness :
    fs_compoundv4_call
        ⟨true, true,
          [send_attempt.sent wait_result.timed_out, send_attempt.sent wait_result.timed_out,
           send_attempt.sent
            (wait_result.woken 100 (rpc_reply.accepted accept_stat.SUCCESS NFS4_OK))]⟩ 0 0
      = some ⟨RPC_SUCCESS, 3, 100, NFS4_OK⟩
    ∧ (⟨RPC_SUCCESS, 3, 100, NFS4_OK⟩ : call_out).rc ≠ RPC_TIMEDOUT :=
  ⟨C15_executor_resends.1 2 100 (rpc_reply.accepted accept_stat.SUCCESS NFS4_OK) [] 0 0,
    C15_executor_resends.2.2.1
      ⟨true, true,
        [send_attempt.sent wait_result.timed_out, send_attempt.sent wait_result.timed_out,
         send_attempt.sent
          (wait_result.woken 100 (rpc_reply.accepted accept_stat.SUCCESS NFS4_OK))]⟩ 0 0
      ⟨RPC_SUCCESS, 3, 100, NFS4_OK⟩ (by decide)⟩

/-- C16. For every handle and offset, `fs_read` with `buffer_size = 0` returns success
with `*read_amount = 0` and `*end_of_file = false`, and hands no compound to the
executor. -/
theorem C16_read_of_nothing (fs_maxread : Nat) (exec : Executor)
    (calls : List (List nfs_argop4)) (obj_hdl : fs_obj_handle) (offset : Nat) :
    fs_read fs_maxread exec calls obj_hdl offset 0
      = some ⟨fsalstat ERR_FSAL_NO_ERROR 0, some 0, some false, calls⟩ := by
  simp [fs_read]

/-- What `fs_open_confirm` does when the compound fails: the stateid is left as it was
and the status of the compound is returned. -/
theorem fs_open_confirm_failed (exec : Executor) (calls : List (List nfs_argop4))
    (fh4 : List Nat) (stateid : stateid4)
    (hrc : (exec calls (confirm_ops fh4 stateid)).rc ≠ NFS4_OK) :
    fs_open_confirm exec calls fh4 stateid
      = some ⟨nfsstat4_to_fsal (exec calls (confirm_ops fh4 stateid)).rc, stateid,
          calls ++ [confirm_ops fh4 stateid]⟩ := by
  simp only [confirm_ops] at hrc
  simp only [fs_open_confirm, confirm_ops, hrc, ne_eq, not_false_eq_true, if_true]

/-- What `fs_open_confirm` does when the compound succeeds: the stateid becomes the one
of the OPEN_CONFIRM result. -/
theorem fs_open_confirm_ok (exec : Executor) (calls : List (List nfs_argop4))
    (fh4 : List Nat) (stateid : stateid4) (c : nfs_resop4)
    (hrc : (exec calls (confirm_ops fh4 stateid)).rc = NFS4_OK)
    (hc : (exec calls (confirm_ops fh4 stateid)).resoparray.get? 1 = some c) :
    fs_open_confirm exec calls fh4 stateid
      = some ⟨fsalstat ERR_FSAL_NO_ERROR 0, c.open_stateid,
          calls ++ [confirm_ops fh4 stateid]⟩ := by
  simp only [confirm_ops] at hrc hc
  simp only [fs_open_confirm, confirm_ops, hrc, ne_eq, not_true_eq_false, if_false, hc]

/-- What `fs_open_confirm` does when the compound succeeds and the reply holds no
result of the OPEN_CONFIRM. -/
theorem fs_open_confirm_short (exec : Executor) (calls : List (List nfs_argop4))
    (fh4 : List Nat) (stateid : stateid4)
    (hrc : (exec calls (confirm_ops fh4 stateid)).rc = NFS4_OK)
    (hc : (exec calls (confirm_ops fh4 stateid)).resoparray.get? 1 = none) :
    fs_open_confirm exec calls fh4 stateid = none := by
  simp only [confirm_ops] at hrc hc
  simp only [fs_open_confirm, confirm_ops, hrc, ne_eq, not_true_eq_false, if_false, hc]

/-- With an OPEN result that asks for it, `fs_create` goes through `fs_open_confirm`. -/
theorem fs_create_with_confirm (env : Env) (exec : Executor)
    (calls : List (List nfs_argop4)) (dir_hdl : fs_obj_handle) (name : List Char)
    (attrib : attrlist) (fcnt : Nat) (input_attr : fattr4) (o f a : nfs_resop4)
    (henc : fs_fsalattr_to_fattr4 env (create_attrib env attrib) = some input_attr)
    (hrc : (exec calls (create_ops env dir_hdl name input_attr fcnt)).rc = NFS4_OK)
    (ho : (exec calls (create_ops env dir_hdl name input_attr fcnt)).resoparray.get? 1
      = some o)
    (hf : (exec calls (create_ops env dir_hdl name input_attr fcnt)).resoparray.get? 2
      = some f)
    (ha : (exec calls (create_ops env dir_hdl name input_attr fcnt)).resoparray.get? 3
      = some a)
    (hflag : o.rflags &&& OPEN4_RESULT_CONFIRM ≠ 0) :
    fs_create env exec calls dir_hdl name attrib fcnt
      = match fs_open_confirm exec (calls ++ [create_ops env dir_hdl name input_attr fcnt])
          f.object o.stateid with
        | none => none
        | some c =>
          if FSAL_IS_ERROR c.st then
            some ⟨c.st, none, create_attrib env attrib, c.calls, atomic_inc_uint64_t fcnt⟩
          else
            some (fs_create_close env exec c.calls f.object c.stateid a.obj_attributes
              (create_attrib env attrib) (atomic_inc_uint64_t fcnt)) := by
  simp only [create_attrib, create_ops] at henc hrc ho hf ha ⊢
  simp only [fs_create, henc, hrc, ne_eq, not_true_eq_false, if_false, ho, hf, ha, hflag,
    not_false_eq_true, if_true]

/-- The compounds `fs_create_close` hands to the executor are those of `fs_do_close`. -/
theorem fs_create_close_calls_eq (env : Env) (exec : Executor)
    (calls : List (List nfs_argop4)) (object : List Nat) (stateid : stateid4)
    (obj_attributes : fattr4) (attrib : attrlist) (fcnt : Nat) :
    (fs_create_close env exec calls object stateid obj_attributes attrib fcnt).calls
      = (fs_do_close exec calls object stateid).calls := by
  unfold fs_create_close
  simp only
  split
  · rfl
  · split
    · rfl
    · split <;> rfl

/-- The compounds `fs_do_close` hands to the executor: none for a stateid that is all
zero, else PUTFH, CLOSE with the stateid. -/
theorem fs_do_close_calls (exec : Executor) (calls : List (List nfs_argop4))
    (object : List Nat) (stateid : stateid4) :
    (stateid.other = List.replicate 12 0
      ∧ (fs_do_close exec calls object stateid).calls = calls)
    ∨ (stateid.other ≠ List.replicate 12 0
      ∧ (fs_do_close exec calls object stateid).calls
        = calls ++ [[PUTFH object, CLOSE stateid]]) := by
  by_cases hz : stateid.other = List.replicate 12 0
  · exact Or.inl ⟨hz, by simp only [fs_do_close, hz, if_true]⟩
  · refine Or.inr ⟨hz, ?_⟩
    simp only [fs_do_close, hz, if_false]
    split <;> rfl

/-- The compounds `fs_create_close` hands to the executor: none for a stateid that is
all zero, else PUTFH, CLOSE with the stateid. -/
theorem fs_create_close_calls (env : Env) (exec : Executor)
    (calls : List (List nfs_argop4)) (object : List Nat) (stateid : stateid4)
    (obj_attributes : fattr4) (attrib : attrlist) (fcnt : Nat) :
    (stateid.other = List.replicate 12 0
      ∧ (fs_create_close env exec calls object stateid obj_attributes attrib fcnt).calls
        = calls)
    ∨ (stateid.other ≠ List.replicate 12 0
      ∧ (fs_create_close env exec calls object stateid obj_attributes attrib fcnt).calls
        = calls ++ [[PUTFH object, CLOSE stateid]]) := by
  rw [fs_create_close_calls_eq]
  exact fs_do_close_calls exec calls object stateid

/-- C17. Let the first compound of `fs_create` succeed with an OPEN result that carries
`OPEN4_RESULT_CONFIRM`. Then the next compound `fs_create` hands to the executor is
PUTFH(the handle GETFH returned), OPEN_CONFIRM(the stateid OPEN returned, seqid 1).
When this compound succeeds, `fs_create` goes on with the stateid of the OPEN_CONFIRM
result, which is the stateid of the CLOSE it then sends (no CLOSE is sent for a stateid
that is all zero). When it fails, `fs_open_confirm` leaves the stateid as OPEN returned
it and returns the translated status of the compound, and `fs_create` returns that
status at once when it is an error. -/
theorem C17_create_confirms_open (env : Env) (exec : Executor)
    (calls : List (List nfs_argop4)) (dir_hdl : fs_obj_handle) (name : List Char)
    (attrib : attrlist) (fcnt : Nat) (input_attr : fattr4) (o f a : nfs_resop4)
    (henc : fs_fsalattr_to_fattr4 env (create_attrib env attrib) = some input_attr)
    (hrc : (exec calls (create_ops env dir_hdl name input_attr fcnt)).rc = NFS4_OK)
    (ho : (exec calls (create_ops env dir_hdl name input_attr fcnt)).resoparray.get? 1
      = some o)
    (hf : (exec calls (create_ops env dir_hdl name input_attr fcnt)).resoparray.get? 2
      = some f)
    (ha : (exec calls (create_ops env dir_hdl name input_attr fcnt)).resoparray.get? 3
      = some a)
    (hflag : o.rflags &&& OPEN4_RESULT_CONFIRM ≠ 0) :
    (∀ r, fs_create env exec calls dir_hdl name attrib fcnt = some r →
      ∃ more, r.calls
        = calls ++ create_ops env dir_hdl name input_attr fcnt
            :: confirm_ops f.object o.stateid :: more)
    ∧ (∀ c,
      (exec (calls ++ [create_ops env dir_hdl name input_attr fcnt])
          (confirm_ops f.object o.stateid)).rc = NFS4_OK →
      (exec (calls ++ [create_ops env dir_hdl name input_attr fcnt])
          (confirm_ops f.object o.stateid)).resoparray.get? 1 = some c →
      fs_create env exec calls dir_hdl name attrib fcnt
          = some (fs_create_close env exec
              (calls ++ [create_ops env dir_hdl name input_attr fcnt,
                confirm_ops f.object o.stateid])
              f.object c.open_stateid a.obj_attributes (create_attrib env attrib)
              (atomic_inc_uint64_t fcnt))
        ∧ ∃ r, fs_create env exec calls dir_hdl name attrib fcnt = some r
          ∧ ((c.open_stateid.other = List.replicate 12 0
              ∧ r.calls = calls ++ [create_ops env dir_hdl name input_attr fcnt,
                  confirm_ops f.object o.stateid])
            ∨ (c.open_stateid.other ≠ List.replicate 12 0
              ∧ r.calls = calls ++ [create_ops env dir_hdl name input_attr fcnt,
                  confirm_ops f.object o.stateid, [PUTFH f.object, CLOSE c.open_stateid]])))
    ∧ ((exec (calls ++ [create_ops env dir_hdl name input_attr fcnt])
          (confirm_ops f.object o.stateid)).rc ≠ NFS4_OK →
      fs_open_confirm exec (calls ++ [create_ops env dir_hdl name input_attr fcnt]) f.object
          o.stateid
        = some ⟨nfsstat4_to_fsal
              (exec (calls ++ [create_ops env dir_hdl name input_attr fcnt])
                (confirm_ops f.object o.stateid)).rc,
            o.stateid,
            calls ++ [create_ops env dir_hdl name input_attr fcnt,
              confirm_ops f.object o.stateid]⟩
      ∧ (FSAL_IS_ERROR (nfsstat4_to_fsal
            (exec (calls ++ [create_ops env dir_hdl name input_attr fcnt])
              (confirm_ops f.object o.stateid)).rc) = true →
        fs_create env exec calls dir_hdl name attrib fcnt
          = some ⟨nfsstat4_to_fsal
                (exec (calls ++ [create_ops env dir_hdl name input_attr fcnt])
                  (confirm_ops f.object o.stateid)).rc,
              none, create_attrib env attrib,
              calls ++ [create_ops env dir_hdl name input_attr fcnt,
                confirm_ops f.object o.stateid],
              atomic_inc_uint64_t fcnt⟩)) := by
  have hcr := fs_create_with_confirm env exec calls dir_hdl name attrib fcnt input_attr o f a
    henc hrc ho hf ha hflag
  have happ : ∀ (x y : List nfs_argop4), calls ++ [x] ++ [y] = calls ++ [x, y] := by
    intro x y; simp
  refine ⟨?_, ?_, ?_⟩
  · intro r hr
    rw [hcr] at hr
    by_cases hrc2 : (exec (calls ++ [create_ops env dir_hdl name input_attr fcnt])
        (confirm_ops f.object o.stateid)).rc = NFS4_OK
    · cases hc : (exec (calls ++ [create_ops env dir_hdl name input_attr fcnt])
          (confirm_ops f.object o.stateid)).resoparray.get? 1 with
      | none =>
        rw [fs_open_confirm_short exec _ f.object o.stateid hrc2 hc] at hr
        exact absurd hr (by simp)
      | some c =>
        rw [fs_open_confirm_ok exec _ f.object o.stateid c hrc2 hc] at hr
        simp only [FSAL_IS_ERROR, fsalstat, beq_self_eq_true, Bool.not_true,
          Bool.false_eq_true, if_false, Option.some.injEq] at hr
        subst hr
        rcases fs_create_close_calls env exec
            (calls ++ [create_ops env dir_hdl name input_attr fcnt]
              ++ [confirm_ops f.object o.stateid])
            f.object c.open_stateid a.obj_attributes (create_attrib env attrib)
            (atomic_inc_uint64_t fcnt) with ⟨_, h⟩ | ⟨_, h⟩
        · exact ⟨[], by rw [h]; simp⟩
        · exact ⟨[[PUTFH f.object, CLOSE c.open_stateid]], by rw [h]; simp⟩
    · rw [fs_open_confirm_failed exec _ f.object o.stateid hrc2] at hr
      simp only at hr
      split at hr
      · simp only [Option.some.injEq] at hr
        subst hr
        exact ⟨[], by simp⟩
      · simp only [Option.some.injEq] at hr
        subst hr
        rcases fs_create_close_calls env exec
            (calls ++ [create_ops env dir_hdl name input_attr fcnt]
              ++ [confirm_ops f.object o.stateid])
            f.object o.stateid a.obj_attributes (create_attrib env attrib)
            (atomic_inc_uint64_t fcnt) with ⟨_, h⟩ | ⟨_, h⟩
        · exact ⟨[], by rw [h]; simp⟩
        · exact ⟨[[PUTFH f.object, CLOSE o.stateid]], by rw [h]; simp⟩
  · intro c hrc2 hc
    have hfc : fs_create env exec calls dir_hdl name attrib fcnt
        = some (fs_create_close env exec
            (calls ++ [create_ops env dir_hdl name input_attr fcnt,
              confirm_ops f.object o.stateid])
            f.object c.open_stateid a.obj_attributes (create_attrib env attrib)
            (atomic_inc_uint64_t fcnt)) := by
      rw [hcr, fs_open_confirm_ok exec _ f.object o.stateid c hrc2 hc]
      simp only [FSAL_IS_ERROR, fsalstat, beq_self_eq_true, Bool.not_true,
        Bool.false_eq_true, if_false, happ]
    refine ⟨hfc, _, hfc, ?_⟩
    rcases fs_create_close_calls env exec
        (calls ++ [create_ops env dir_hdl name input_attr fcnt,
          confirm_ops f.object o.stateid])
        f.object c.open_stateid a.obj_attributes (create_attrib env attrib)
        (atomic_inc_uint64_t fcnt) with ⟨hz, h⟩ | ⟨hz, h⟩
    · exact Or.inl ⟨hz, h⟩
    · exact Or.inr ⟨hz, by rw [h]; simp⟩
  · intro hrc2
    have hoc := fs_open_confirm_failed exec
      (calls ++ [create_ops env dir_hdl name input_attr fcnt]) f.object o.stateid hrc2
    rw [happ] at hoc
    refine ⟨hoc, fun herr => ?_⟩
    rw [hcr, hoc]
    simp only [herr, if_true]

/-- C17 (witness): creating `f` in a directory on a server that marks the OPEN as to be
confirmed: three compounds, the second PUTFH + OPEN_CONFIRM(stateid of the OPEN, 1),
the third PUTFH + CLOSE with the stateid of the OPEN_CONFIRM result. -/
theorem C17_create_confirms_open_witness :
    (confirming_result NFS4_OP_OPEN).rflags &&& OPEN4_RESULT_CONFIRM ≠ 0
    ∧ (fs_create env0 exec_confirming [] dir_xy ['f'] attr0 0).map (fun r => (r.st, r.calls))
      = some (fsalstat ERR_FSAL_NO_ERROR 0,
          [[PUTFH [120, 121],
            OPEN true 0 7 ⟨empty_bitmap, []⟩ ['f'] (owner_string 4242 1), GETFH,
            GETATTR fs_bitmap_getattr],
           [PUTFH [7, 7], OPEN_CONFIRM ⟨1, List.replicate 12 1⟩ 1],
           [PUTFH [7, 7], CLOSE ⟨2, List.replicate 12 2⟩]]) :=
  ⟨by decide, by
    rw [((C17_create_confirms_open env0 exec_confirming [] dir_xy ['f'] attr0 0
      ⟨empty_bitmap, []⟩ (confirming_result NFS4_OP_OPEN) (confirming_result NFS4_OP_GETFH)
      (confirming_result NFS4_OP_GETATTR) (by decide) (by decide) (by decide) (by decide)
      (by decide) (by decide)).2.1 (confirming_result NFS4_OP_OPEN_CONFIRM) (by decide)
      (by decide)).1]
    decide⟩

/-- The operations a build loop adds are none of PUTFH and OPEN_CONFIRM. -/
theorem ktc_build_no_confirm (io : tc_iovec → nfs_argop4) (ioop : nfs_opnum4)
    (hio : ∀ u, (io u).argop = ioop) (h1 : ioop ≠ NFS4_OP_OPEN) (h2 : ioop ≠ NFS4_OP_CLOSE)
    (h3 : ioop ≠ NFS4_OP_PUTROOTFH) (h4 : ioop ≠ NFS4_OP_LOOKUP)
    (h5 : ioop ≠ NFS4_OP_OPEN_CONFIRM) (h6 : ioop ≠ NFS4_OP_PUTFH) (env : Env)
    (ks : List tcread_kargs) (fcnt : Nat) (b : build_out)
    (h : ktc_build io env ks [] fcnt = some b) (herr : b.err = none) :
    ∀ o ∈ b.ops ++ [CLOSE_NOSTATE],
      o.argop ≠ NFS4_OP_OPEN_CONFIRM ∧ o.argop ≠ NFS4_OP_PUTFH := by
  obtain ⟨tail, ht, _, hall⟩ := ktc_build_appends io ioop hio h1 h2 h3 h4 env ks [] fcnt b h herr
  intro o ho
  rcases List.mem_append.mp ho with ho | ho
  · rw [ht, List.nil_append] at ho
    rcases hall o ho with hr | hw
    · rw [hr]; exact ⟨h5, h6⟩
    · rcases hw with hw | hw | hw | hw <;> rw [hw] <;> exact ⟨by decide, by decide⟩
  · rw [List.mem_singleton.mp ho]
    exact ⟨by decide, by decide⟩

/-- C18 (counterexample): a read and a write of `/a/b` on a server that marks the OPEN as
to be confirmed: the planner returns success with the one batch compound handed to the
executor; no PUTFH + OPEN_CONFIRM compound follows. -/
theorem C18_no_confirm_compound :
    ((exec_confirming [] [PUTROOTFH, LOOKUP ['a'],
        OPEN false 0 7 ⟨empty_bitmap, []⟩ ['b'] (owner_string 4242 1), READ 0 4096,
        CLOSE_NOSTATE]).resoparray.map
      (fun r => decide (r.resop = NFS4_OP_OPEN ∧ r.rflags &&& OPEN4_RESULT_CONFIRM ≠ 0)))
      = [false, false, true, false, false]
    ∧ (ktcread env0 exec_confirming [] [mk_item (some ['/', 'a', '/', 'b']) 0 4096] (-1) 0).map
        (fun r => (r.st, r.calls))
      = some (fsalstat ERR_FSAL_NO_ERROR 0,
          [[PUTROOTFH, LOOKUP ['a'],
            OPEN false 0 7 ⟨empty_bitmap, []⟩ ['b'] (owner_string 4242 1), READ 0 4096,
            CLOSE_NOSTATE]])
    ∧ (ktcwrite env0 exec_confirming [] [mk_item (some ['/', 'a', '/', 'b']) 0 4096] (-1) 0).map
        (fun r => (r.st, r.calls))
      = some (fsalstat ERR_FSAL_NO_ERROR 0,
          [[PUTROOTFH, LOOKUP ['a'],
            OPEN false 0 7 ⟨empty_bitmap, []⟩ ['b'] (owner_string 4242 1), WRITE 0 [] 4096,
            CLOSE_NOSTATE]]) := by
  decide

/-- What `ktcread` hands to the executor: nothing, or the one compound it built. -/
theorem ktcread_calls (env : Env) (exec : Executor) (calls : List (List nfs_argop4))
    (kern_arg : List tcread_kargs) (fail_index : Int) (fcnt : Nat) (r : ktc_out)
    (h : ktcread env exec calls kern_arg fail_index fcnt = some r) :
    r.calls = calls
    ∨ ∃ b, ktcread_build env kern_arg [] fcnt = some b ∧ b.err = none
        ∧ r.calls = calls ++ [b.ops ++ [CLOSE_NOSTATE]] := by
  unfold ktcread at h
  cases hb : ktcread_build env kern_arg [] fcnt with
  | none => rw [hb] at h; exact absurd h (by simp)
  | some b =>
    rw [hb] at h
    cases he : b.err with
    | some st =>
      simp only [he, Option.some.injEq] at h
      subst h
      exact Or.inl rfl
    | none =>
      simp only [he] at h
      refine Or.inr ⟨b, rfl, he, ?_⟩
      split at h
      · split at h
        · exact absurd h (by simp)
        · simp only [Option.some.injEq] at h
          subst h
          rfl
      · simp only [Option.some.injEq] at h
        subst h
        rfl

/-- What `ktcwrite` hands to the executor: nothing, or the one compound it built. -/
theorem ktcwrite_calls (env : Env) (exec : Executor) (calls : List (List nfs_argop4))
    (kern_arg : List tcwrite_kargs) (fail_index : Int) (fcnt : Nat) (r : ktc_out)
    (h : ktcwrite env exec calls kern_arg fail_index fcnt = some r) :
    r.calls = calls
    ∨ ∃ b, ktcwrite_build env kern_arg [] fcnt = some b ∧ b.err = none
        ∧ r.calls = calls ++ [b.ops ++ [CLOSE_NOSTATE]] := by
  unfold ktcwrite at h
  cases hb : ktcwrite_build env kern_arg [] fcnt with
  | none => rw [hb] at h; exact absurd h (by simp)
  | some b =>
    rw [hb] at h
    cases he : b.err with
    | some st =>
      simp only [he, Option.some.injEq] at h
      subst h
      exact Or.inl rfl
    | none =>
      simp only [he] at h
      refine Or.inr ⟨b, rfl, he, ?_⟩
      split at h
      · split at h
        · exact absurd h (by simp)
        · simp only [Option.some.injEq] at h
          subst h
          rfl
      · simp only [Option.some.injEq] at h
        subst h
        rfl

/-- C18 (amended). Whatever the replies carry, `ktcread` and `ktcwrite` hand at most one
compound to the executor before they return, the batch compound they built, and no
operation of it is a PUTFH or an OPEN_CONFIRM: the planner never confirms an OPEN. -/
theorem C18_planner_never_confirms (env : Env) (exec : Executor)
    (calls : List (List nfs_argop4)) (kern_arg : List tcread_kargs) (fail_index : Int)
    (fcnt : Nat) :
    (∀ r, ktcread env exec calls kern_arg fail_index fcnt = some r →
      r.calls = calls
      ∨ ∃ ops, r.calls = calls ++ [ops]
          ∧ ∀ o ∈ ops, o.argop ≠ NFS4_OP_OPEN_CONFIRM ∧ o.argop ≠ NFS4_OP_PUTFH)
    ∧ (∀ r, ktcwrite env exec calls kern_arg fail_index fcnt = some r →
      r.calls = calls
      ∨ ∃ ops, r.calls = calls ++ [ops]
          ∧ ∀ o ∈ ops, o.argop ≠ NFS4_OP_OPEN_CONFIRM ∧ o.argop ≠ NFS4_OP_PUTFH) := by
  constructor
  · intro r h
    rcases ktcread_calls env exec calls kern_arg fail_index fcnt r h with h0 | ⟨b, hb, he, hc⟩
    · exact Or.inl h0
    · rw [ktcread_build_eq] at hb
      exact Or.inr ⟨_, hc, ktc_build_no_confirm io_read NFS4_OP_READ (fun _ => rfl)
        (by decide) (by decide) (by decide) (by decide) (by decide) (by decide) env kern_arg
        fcnt b hb he⟩
  · intro r h
    rcases ktcwrite_calls env exec calls kern_arg fail_index fcnt r h with h0 | ⟨b, hb, he, hc⟩
    · exact Or.inl h0
    · rw [ktcwrite_build_eq] at hb
      exact Or.inr ⟨_, hc, ktc_build_no_confirm io_write NFS4_OP_WRITE (fun _ => rfl)
        (by decide) (by decide) (by decide) (by decide) (by decide) (by decide) env kern_arg
        fcnt b hb he⟩

/-- C18 (witness): the read of `/a/b` on a server that marks the OPEN as to be confirmed
returns having handed one compound to the executor, without PUTFH or OPEN_CONFIRM. -/
theorem C18_planner_never_confirms_witness :
    ∃ r, ktcread env0 exec_confirming [] [mk_item (some ['/', 'a', '/', 'b']) 0 4096] (-1) 0
        = some r
      ∧ (r.calls = []
        ∨ ∃ ops, r.calls = [] ++ [ops]
            ∧ ∀ o ∈ ops, o.argop ≠ NFS4_OP_OPEN_CONFIRM ∧ o.argop ≠ NFS4_OP_PUTFH) :=
  ⟨(ktcread env0 exec_confirming [] [mk_item (some ['/', 'a', '/', 'b']) 0 4096] (-1) 0).getD
      ⟨fsalstat ERR_FSAL_NO_ERROR 0, 0, [], [], 0⟩,
    by decide,
    (C18_planner_never_confirms env0 exec_confirming []
      [mk_item (some ['/', 'a', '/', 'b']) 0 4096] (-1) 0).1 _ (by decide)⟩

/-- The length byte `fs_alloc_handle` stores for a handle of at most 128 bytes. -/
theorem fs_alloc_handle_blob_len (fh : List Nat) (attr : attrlist) (hfh : fh.length ≤ 128) :
    (fs_alloc_handle fh attr).blob_len = fh.length + 2 := by
  simp only [fs_alloc_handle]
  omega

/-- C19. For every server file handle `fh` of at most 128 bytes and every attribute
record, the object `fs_alloc_handle` makes round-trips through its digest:
`fs_handle_digest` (NFSv4 kind, a buffer of at least `blob.len` bytes) writes the blob
`len, type, fh` of length `fh.len + 2`; `fs_extract_handle` accepts it unchanged; and
`fs_create_handle` on it asks for the attributes of the handle `fh` (one compound
PUTFH(fh), GETATTR) and, when that succeeds, makes an object with handle `fh`. -/
theorem C19_digest_round_trip (env : Env) (exec : Executor) (calls : List (List nfs_argop4))
    (fh : List Nat) (attr : attrlist) (buf : List Nat) (len : Nat)
    (hfh : fh.length ≤ 128) (hlen : (fs_alloc_handle fh attr).blob_len ≤ len)
    (hbuf : len ≤ buf.length) :
    fs_handle_digest (fs_alloc_handle fh attr) fsal_digesttype_t.FSAL_DIGEST_NFSV4
        (some ⟨some buf, len⟩)
      = some (fsalstat ERR_FSAL_NO_ERROR 0,
          some ⟨some ([fh.length + 2, attr.type.code] ++ fh ++ buf.drop (fh.length + 2)),
            fh.length + 2⟩)
    ∧ fs_extract_handle fsal_digesttype_t.FSAL_DIGEST_NFSV4
        (some ⟨some ([fh.length + 2, attr.type.code] ++ fh ++ buf.drop (fh.length + 2)),
          fh.length + 2⟩)
      = some (fsalstat ERR_FSAL_NO_ERROR 0,
          some ⟨some ([fh.length + 2, attr.type.code] ++ fh ++ buf.drop (fh.length + 2)),
            fh.length + 2⟩)
    ∧ fs_create_handle env exec calls
        ⟨some ([fh.length + 2, attr.type.code] ++ fh ++ buf.drop (fh.length + 2)),
          fh.length + 2⟩
      = (fs_getattrs_impl env exec calls fh ⟨0, object_file_type_t.NO_FILE_TYPE, 0, 0, 0, 0⟩).map
          (fun g =>
            if FSAL_IS_ERROR g.st then ⟨g.st, none, g.calls⟩
            else ⟨fsalstat ERR_FSAL_NO_ERROR 0, some (fs_alloc_handle fh g.obj_attr), g.calls⟩)
    ∧ ∀ r, fs_create_handle env exec calls
          ⟨some ([fh.length + 2, attr.type.code] ++ fh ++ buf.drop (fh.length + 2)),
            fh.length + 2⟩ = some r →
        r.calls = calls ++ [[PUTFH fh, GETATTR fs_bitmap_getattr]]
        ∧ ∀ h ∈ r.handle, h.fh4 = fh ∧ h.fh4.length = fh.length := by
  have hbl := fs_alloc_handle_blob_len fh attr hfh
  rw [hbl] at hlen
  have hcreate : fs_create_handle env exec calls
        ⟨some ([fh.length + 2, attr.type.code] ++ fh ++ buf.drop (fh.length + 2)),
          fh.length + 2⟩
      = (fs_getattrs_impl env exec calls fh ⟨0, object_file_type_t.NO_FILE_TYPE, 0, 0, 0, 0⟩).map
          (fun g =>
            if FSAL_IS_ERROR g.st then ⟨g.st, none, g.calls⟩
            else
              ⟨fsalstat ERR_FSAL_NO_ERROR 0, some (fs_alloc_handle fh g.obj_attr), g.calls⟩) := by
    have h1 : (fh.length + 2 + 2 ^ 32 - 2) % 2 ^ 32 = fh.length := by omega
    have h2 : ¬ ([fh.length + 2, attr.type.code] ++ fh ++ buf.drop (fh.length + 2)).length
        < 2 + fh.length := by
      simp only [List.length_append, List.length_cons, List.length_nil]
      omega
    have h3 : ((([fh.length + 2, attr.type.code] ++ fh) ++ buf.drop (fh.length + 2)).drop 2).take
        fh.length = fh := by
      simp
    simp only [fs_create_handle, List.cons_append, List.nil_append, List.head?_cons, ne_eq,
      not_true_eq_false, if_false, h1]
    simp only [List.cons_append, List.nil_append] at h2 h3
    rw [if_neg h2, h3]
    cases fs_getattrs_impl env exec calls fh ⟨0, object_file_type_t.NO_FILE_TYPE, 0, 0, 0, 0⟩ with
    | none => rfl
    | some g =>
      simp only [Option.map_some']
      split <;> rfl
  refine ⟨?_, ?_, hcreate, ?_⟩
  · have hb : (fs_alloc_handle fh attr).blob = [fh.length + 2, attr.type.code] ++ fh := by
      simp only [fs_obj_handle.blob, hbl]
      rfl
    have ht : ([fh.length + 2, attr.type.code] ++ fh).take (fh.length + 2)
        = [fh.length + 2, attr.type.code] ++ fh := by
      apply List.take_of_length_le
      simp
    simp only [fs_handle_digest, hbl, hb, ht]
    rw [if_neg (by omega), if_neg (by omega)]
  · simp only [fs_extract_handle, List.cons_append, List.nil_append, List.head?_cons, ne_eq,
      not_true_eq_false, if_false]
  · intro r hr
    rw [hcreate] at hr
    cases hg : fs_getattrs_impl env exec calls fh
        ⟨0, object_file_type_t.NO_FILE_TYPE, 0, 0, 0, 0⟩ with
    | none => rw [hg] at hr; exact absurd hr (by simp)
    | some g =>
      rw [hg] at hr
      have hgc : g.calls = calls ++ [[PUTFH fh, GETATTR fs_bitmap_getattr]] := by
        unfold fs_getattrs_impl at hg
        simp only at hg
        split at hg
        · simp only [Option.some.injEq] at hg
          subst hg; rfl
        · split at hg
          · exact absurd hg (by simp)
          · split at hg
            · simp only [Option.some.injEq] at hg
              subst hg; rfl
            · simp only [Option.some.injEq] at hg
              subst hg; rfl
      simp only [Option.map_some', Option.some.injEq] at hr
      subst hr
      split
      · exact ⟨hgc, fun h hh => absurd hh (by simp)⟩
      · refine ⟨hgc, fun h hh => ?_⟩
        simp only [Option.mem_def, Option.some.injEq] at hh
        subst hh
        exact ⟨rfl, rfl⟩

/-- C19 (witness): the three-byte handle `abc` of a regular file and a buffer of eight
bytes: the digest is `5, 1, a, b, c`, and `fs_create_handle` on it sends PUTFH(abc),
GETATTR and makes an object with the handle `abc`. -/
theorem C19_digest_round_trip_witness :
    [97, 98, 99].length ≤ 128 ∧ (fs_alloc_handle [97, 98, 99] attr0).blob_len ≤ 8
    ∧ 8 ≤ (List.replicate 8 0).length
    ∧ fs_handle_digest (fs_alloc_handle [97, 98, 99] attr0)
        fsal_digesttype_t.FSAL_DIGEST_NFSV4 (some ⟨some (List.replicate 8 0), 8⟩)
      = some (fsalstat ERR_FSAL_NO_ERROR 0, some ⟨some [5, 1, 97, 98, 99, 0, 0, 0], 5⟩)
    ∧ (fs_create_handle env0 exec_ok [] ⟨some [5, 1, 97, 98, 99, 0, 0, 0], 5⟩).map
        (fun r => (r.st, r.handle.map (fun h => h.fh4), r.calls))
      = some (fsalstat ERR_FSAL_NO_ERROR 0, some [97, 98, 99],
          [[PUTFH [97, 98, 99], GETATTR fs_bitmap_getattr]]) :=
  ⟨by decide, by decide, by decide,
    (C19_digest_round_trip env0 exec_ok [] [97, 98, 99] attr0 (List.replicate 8 0) 8
      (by decide) (by decide) (by decide)).1,
    by
      rw [show (⟨some [5, 1, 97, 98, 99, 0, 0, 0], 5⟩ : gsh_buffdesc)
          = ⟨some ([[97, 98, 99].length + 2, attr0.type.code] ++ [97, 98, 99]
              ++ (List.replicate 8 0).drop ([97, 98, 99].length + 2)),
            [97, 98, 99].length + 2⟩ from rfl,
        (C19_digest_round_trip env0 exec_ok [] [97, 98, 99] attr0 (List.replicate 8 0) 8
          (by decide) (by decide) (by decide)).2.2.1]
      decide⟩

/-! ## Statements on the transport -/

/-- The invariant holds in the state `fs_init_rpc` leaves. -/
theorem xid_inv_init (seed sendbuf_sz recvbuf_sz : Nat) (h : seed < 2 ^ 32) :
    xid_inv (transport_init seed sendbuf_sz recvbuf_sz) := by
  refine ⟨h, List.nodup_nil, ?_, ?_, ?_, ?_, ?_⟩
  · intro c hc; exact absurd hc (List.not_mem_nil c)
  · intro c hc; exact absurd rfl hc
  · intro c hc; rcases hc with hc | hc <;> simp [transport_init] at hc
  · intro c hc; rcases hc with hc | hc | hc <;> simp [transport_init] at hc
  · intro c d hc; rcases hc with hc | hc | hc <;> simp [transport_init] at hc

/-- The invariant is kept when a caller that is not in `fs_process_reply` moves to a
place outside a call. -/
theorem xid_inv_goto (s : transport) (c : Nat) (pc : caller_pc) (hinv : xid_inv s)
    (hold : (s.thr c).pc ≠ caller_pc.wait) (hnew : ¬ pc.in_call) : xid_inv (s.goto c pc) := by
  obtain ⟨h1, h2, h3, h4, h5, h6, h7⟩ := hinv
  have hc : c ∉ s.rpc_calls := fun hm => hold (h3 c hm)
  have hthr : ∀ d, d ≠ c → ((s.goto c pc).thr d) = s.thr d := by
    intro d hd; simp [transport.goto, Function.update_noteq hd]
  have hthc : ((s.goto c pc).thr c).pc = pc := by simp [transport.goto]
  have hin : ∀ d, ((s.goto c pc).thr d).pc.in_call → d ≠ c ∧ (s.thr d).pc.in_call := by
    intro d hd
    by_cases hdc : d = c
    · subst hdc; rw [hthc] at hd; exact absurd hd hnew
    · rw [hthr d hdc] at hd; exact ⟨hdc, hd⟩
  refine ⟨h1, h2, ?_, ?_, ?_, ?_, ?_⟩
  · intro d hd
    have hdc : d ≠ c := fun e => hc (e ▸ hd)
    rw [hthr d hdc]; exact h3 d hd
  · intro d hd
    have hd' : (s.ctx d).iodone ≠ 0 := hd
    have hdc : d ≠ c := fun e => hold (e ▸ (h4 d hd').1)
    rw [hthr d hdc]; exact h4 d hd'
  · intro d hd
    have hd2 : ((s.goto c pc).thr d).pc.in_call := by
      rcases hd with hd | hd
      · exact Or.inr (Or.inl hd)
      · exact Or.inr (Or.inr hd)
    obtain ⟨hdc, _⟩ := hin d hd2
    rw [hthr d hdc] at hd ⊢
    exact h5 d hd
  · intro d hd
    obtain ⟨hdc, hd'⟩ := hin d hd
    rw [hthr d hdc]
    exact h6 d hd'
  · intro d e hd he hde
    exact h7 d e (hin d hd).2 (hin e he).2 hde

/-- The invariant is kept by `encode`. -/
theorem xid_inv_encode (s : transport) (c : Nat) (hinv : xid_inv s)
    (hpc : (s.thr c).pc = caller_pc.call) : xid_inv (transport_step (encode c) s) := by
  obtain ⟨h1, h2, h3, h4, h5, h6, h7⟩ := hinv
  have hnw : (s.thr c).pc ≠ caller_pc.wait := by rw [hpc]; decide
  have hc : c ∉ s.rpc_calls := fun hm => hnw (h3 c hm)
  have hin : ∀ d, ((transport_step (encode c) s).thr d).pc.in_call → (s.thr d).pc.in_call := by
    intro d hd
    by_cases hdc : d = c
    · subst hdc; exact Or.inl hpc
    · simpa [transport_step, Function.update_noteq hdc] using hd
  refine ⟨h1, h2, ?_, ?_, ?_, ?_, ?_⟩
  · intro d hd
    have hdc : d ≠ c := fun e => hc (e ▸ hd)
    simp only [transport_step, Function.update_noteq hdc]
    exact h3 d hd
  · intro d hd
    by_cases hdc : d = c
    · subst hdc
      have : (s.ctx d).iodone ≠ 0 := by simpa [transport_step] using hd
      exact absurd (h4 d this).1 hnw
    · simp only [transport_step, Function.update_noteq hdc] at hd ⊢
      exact h4 d hd
  · intro d hd
    by_cases hdc : d = c
    · subst hdc; simp [transport_step]
    · simp only [transport_step, Function.update_noteq hdc] at hd ⊢
      exact h5 d hd
  · intro d hd
    have := h6 d (hin d hd)
    by_cases hdc : d = c
    · subst hdc; simpa [transport_step] using this
    · simpa [transport_step, Function.update_noteq hdc] using this
  · intro d e hd he hde
    exact h7 d e (hin d hd) (hin e he) hde

/-- The invariant is kept by `send_ok`. -/
theorem xid_inv_send_ok (s : transport) (c : Nat) (hinv : xid_inv s)
    (hpc : (s.thr c).pc = caller_pc.send) : xid_inv (transport_step (send_ok c) s) := by
  obtain ⟨h1, h2, h3, h4, h5, h6, h7⟩ := hinv
  have hnw : (s.thr c).pc ≠ caller_pc.wait := by rw [hpc]; decide
  have hc : c ∉ s.rpc_calls := fun hm => hnw (h3 c hm)
  have hin : ∀ d, ((transport_step (send_ok c) s).thr d).pc.in_call → (s.thr d).pc.in_call := by
    intro d hd
    by_cases hdc : d = c
    · subst hdc; exact Or.inr (Or.inl hpc)
    · simpa [transport_step, Function.update_noteq hdc] using hd
  have hmem : ∀ d, d ∈ (transport_step (send_ok c) s).rpc_calls → d ∈ s.rpc_calls ∨ d = c := by
    intro d hd
    simp only [transport_step] at hd
    split at hd
    · rcases List.mem_append.mp hd with hd | hd
      · exact Or.inl hd
      · exact Or.inr (List.mem_singleton.mp hd)
    · exact Or.inl hd
  refine ⟨h1, ?_, ?_, ?_, ?_, ?_, ?_⟩
  · simp only [transport_step]
    split
    · exact List.Nodup.append h2 (List.nodup_singleton c)
        (List.disjoint_singleton.mpr hc)
    · exact h2
  · intro d hd
    by_cases hdc : d = c
    · subst hdc; simp [transport_step]
    · simp only [transport_step, Function.update_noteq hdc]
      rcases hmem d hd with hd | hd
      · exact h3 d hd
      · exact absurd hd hdc
  · intro d hd
    have hd' : (s.ctx d).iodone ≠ 0 := hd
    have hdc : d ≠ c := fun e => hnw (e ▸ (h4 d hd').1)
    refine ⟨?_, fun hm => ?_⟩
    · simp only [transport_step, Function.update_noteq hdc]
      exact (h4 d hd').1
    · rcases hmem d hm with hm | hm
      · exact (h4 d hd').2 hm
      · exact hdc hm
  · intro d hd
    by_cases hdc : d = c
    · subst hdc
      simpa [transport_step] using h5 d (Or.inl hpc)
    · simp only [transport_step, Function.update_noteq hdc] at hd ⊢
      exact h5 d hd
  · intro d hd
    have := h6 d (hin d hd)
    by_cases hdc : d = c
    · subst hdc; simpa [transport_step] using this
    · simpa [transport_step, Function.update_noteq hdc] using this
  · intro d e hd he hde
    exact h7 d e (hin d hd) (hin e he) hde

/-- The step `send_fail` of a caller whose context is not on the list is a move of the
caller. -/
theorem transport_step_send_fail (s : transport) (c : Nat) (hc : c ∉ s.rpc_calls) :
    transport_step (send_fail c) s = s.goto c (caller_pc.back RPC_CANTSEND) := by
  simp only [transport_step, transport.goto, List.erase_of_not_mem hc, ite_self]

/-- The invariant is kept by `wake`. -/
theorem xid_inv_wake (s : transport) (c : Nat) (reply : rpc_reply) (hinv : xid_inv s)
    (hio : (s.ctx c).iodone ≠ 0) : xid_inv (transport_step (wake c reply) s) := by
  obtain ⟨h1, h2, h3, h4, h5, h6, h7⟩ := hinv
  have hc : c ∉ s.rpc_calls := (h4 c hio).2
  have hin : ∀ d, ((transport_step (wake c reply) s).thr d).pc.in_call →
      d ≠ c ∧ (s.thr d).pc.in_call := by
    intro d hd
    by_cases hdc : d = c
    · subst hdc
      simp [transport_step, caller_pc.in_call] at hd
    · exact ⟨hdc, by simpa [transport_step, Function.update_noteq hdc] using hd⟩
  refine ⟨h1, h2, ?_, ?_, ?_, ?_, ?_⟩
  · intro d hd
    have hdc : d ≠ c := fun e => hc (e ▸ hd)
    simp only [transport_step, Function.update_noteq hdc]
    exact h3 d hd
  · intro d hd
    by_cases hdc : d = c
    · subst hdc
      simp [transport_step] at hd
    · simp only [transport_step, Function.update_noteq hdc] at hd ⊢
      exact h4 d hd
  · intro d hd
    have hd2 : ((transport_step (wake c reply) s).thr d).pc.in_call := by
      rcases hd with hd | hd
      · exact Or.inr (Or.inl hd)
      · exact Or.inr (Or.inr hd)
    obtain ⟨hdc, _⟩ := hin d hd2
    simp only [transport_step, Function.update_noteq hdc] at hd ⊢
    exact h5 d hd
  · intro d hd
    obtain ⟨hdc, hd'⟩ := hin d hd
    simpa [transport_step, Function.update_noteq hdc] using h6 d hd'
  · intro d e hd he hde
    exact h7 d e (hin d hd).2 (hin e he).2 hde

/-- The invariant is kept by `assign_xid`, within the window. -/
theorem xid_inv_assign (s : transport) (c : Nat) (hinv : xid_inv s)
    (hpc : (s.thr c).pc = caller_pc.execute) (hw : xid_window s) :
    xid_inv (transport_step (assign_xid c) s) := by
  obtain ⟨h1, h2, h3, h4, h5, h6, h7⟩ := hinv
  have hnw : (s.thr c).pc ≠ caller_pc.wait := by rw [hpc]; decide
  have hnc : ¬ (s.thr c).pc.in_call := by rw [hpc]; decide
  have hc : c ∉ s.rpc_calls := fun hm => hnw (h3 c hm)
  have hin : ∀ d, d ≠ c → ((transport_step (assign_xid c) s).thr d).pc.in_call →
      (s.thr d).pc.in_call := by
    intro d hdc hd
    simpa [transport_step, Function.update_noteq hdc] using hd
  have hlater : ∀ d, d ≠ c → (transport_step (assign_xid c) s).later d = s.later d + 1 := by
    intro d hdc
    simp [transport_step, hdc]
  have hlc : (transport_step (assign_xid c) s).later c = 0 := by simp [transport_step]
  refine ⟨?_, h2, ?_, ?_, ?_, ?_, ?_⟩
  · exact Nat.mod_lt _ (by decide)
  · intro d hd
    have hdc : d ≠ c := fun e => hc (e ▸ hd)
    simp only [transport_step, Function.update_noteq hdc]
    exact h3 d hd
  · intro d hd
    have hd' : (s.ctx d).iodone ≠ 0 := hd
    have hdc : d ≠ c := fun e => hnw (e ▸ (h4 d hd').1)
    simp only [transport_step, Function.update_noteq hdc]
    exact h4 d hd'
  · intro d hd
    by_cases hdc : d = c
    · subst hdc
      simp [transport_step] at hd
    · simp only [transport_step, Function.update_noteq hdc] at hd ⊢
      exact h5 d hd
  · intro d hd
    by_cases hdc : d = c
    · subst hdc
      refine ⟨?_, ?_, ?_⟩
      · simpa [transport_step] using h1
      · rw [hlc]; decide
      · rw [hlc]; simp [transport_step]
    · have hd' := hin d hdc hd
      obtain ⟨a1, a2, a3⟩ := h6 d hd'
      have a4 := hw d hd'
      rw [hlater d hdc]
      refine ⟨?_, a4, ?_⟩
      · simpa [transport_step, Function.update_noteq hdc] using a1
      · simp only [transport_step, Function.update_noteq hdc]
        rw [← a3]
        omega
  · intro d e hd he hde
    by_cases hdc : d = c
    · have hec : e ≠ c := fun h => hde (hdc.trans h.symm)
      rw [hdc, hlc, hlater e hec]
      omega
    · by_cases hec : e = c
      · rw [hec, hlc, hlater d hdc]
        omega
      · rw [hlater d hdc, hlater e hec]
        have := h7 d e (hin d hdc hd) (hin e hec he) hde
        omega

/-- The invariant is kept by `deliver`. -/
theorem xid_inv_deliver (s : transport) (xid sz : Nat) (ioresult : Int) (hinv : xid_inv s) :
    xid_inv (transport_step (deliver xid sz ioresult) s) := by
  obtain ⟨h1, h2, h3, h4, h5, h6, h7⟩ := hinv
  simp only [transport_step]
  cases hf : s.rpc_calls.find? (fun c => (s.ctx c).rpc_xid = xid) with
  | none => exact ⟨h1, h2, h3, h4, h5, h6, h7⟩
  | some c =>
    have hc : c ∈ s.rpc_calls := List.mem_of_find?_eq_some hf
    have hce : c ∉ s.rpc_calls.erase c := fun hm => (List.Nodup.mem_erase_iff h2).mp hm |>.1 rfl
    simp only
    split
    · refine ⟨h1, h2.erase c, ?_, ?_, h5, h6, h7⟩
      · intro d hd
        exact h3 d (List.mem_of_mem_erase hd)
      · intro d hd
        exact ⟨(h4 d hd).1, fun hm => (h4 d hd).2 (List.mem_of_mem_erase hm)⟩
    · refine ⟨h1, h2.erase c, ?_, ?_, ?_, h6, h7⟩
      · intro d hd
        exact h3 d (List.mem_of_mem_erase hd)
      · intro d hd
        by_cases hdc : d = c
        · subst hdc
          exact ⟨h3 d hc, hce⟩
        · simp only [Function.update_noteq hdc] at hd
          exact ⟨(h4 d hd).1, fun hm => (h4 d hd).2 (List.mem_of_mem_erase hm)⟩
      · intro d hd
        by_cases hdc : d = c
        · subst hdc
          simpa using h5 d hd
        · simp only [Function.update_noteq hdc]
          exact h5 d hd

/-- The invariant is kept by `reconnect`. -/
theorem xid_inv_reconnect (s : transport) (hinv : xid_inv s) :
    xid_inv (transport_step reconnect s) := by
  obtain ⟨h1, h2, h3, h4, h5, h6, h7⟩ := hinv
  refine ⟨h1, List.nodup_nil, ?_, ?_, ?_, h6, h7⟩
  · intro d hd
    simp [transport_step] at hd
  · intro d hd
    refine ⟨?_, by simp [transport_step]⟩
    by_cases hm : d ∈ s.rpc_calls
    · exact h3 d hm
    · simp only [transport_step, hm, if_false] at hd
      exact (h4 d hd).1
  · intro d hd
    have := h5 d hd
    by_cases hm : d ∈ s.rpc_calls
    · simpa [transport_step, hm] using this
    · simpa [transport_step, hm] using this

/-- Every step other than the expiry of the timed wait keeps the invariant. -/
theorem xid_inv_step (s : transport) (a : transport_action) (hinv : xid_inv s)
    (ha : no_timeout a) (he : transport_enabled a s)
    (hw : (∃ c, a = assign_xid c) → xid_window s) : xid_inv (transport_step a s) := by
  cases a with
  | acquire c =>
    exact xid_inv_goto s c _ hinv (by rw [show (s.thr c).pc = caller_pc.idle from he]; decide)
      (by decide)
  | assign_xid c => exact xid_inv_assign s c hinv he (hw ⟨c, rfl⟩)
  | auth_fail c =>
    exact xid_inv_goto s c _ hinv (by rw [show (s.thr c).pc = caller_pc.call from he]; decide)
      (by decide)
  | encode_fail c =>
    exact xid_inv_goto s c _ hinv (by rw [show (s.thr c).pc = caller_pc.call from he]; decide)
      (by decide)
  | encode c => exact xid_inv_encode s c hinv he
  | send_ok c => exact xid_inv_send_ok s c hinv he
  | send_fail c =>
    have hpc : (s.thr c).pc = caller_pc.send := he
    have hnw : (s.thr c).pc ≠ caller_pc.wait := by rw [hpc]; decide
    rw [transport_step_send_fail s c (fun hm => hnw (hinv.2.2.1 c hm))]
    exact xid_inv_goto s c _ hinv hnw (by decide)
  | timeout c => exact absurd ha (by simp [no_timeout])
  | wake c reply => exact xid_inv_wake s c reply hinv he.2
  | retry c =>
    have hnw : (s.thr c).pc ≠ caller_pc.wait := by
      intro h
      simp [transport_enabled, h] at he
    exact xid_inv_goto s c _ hinv hnw (by decide)
  | release c =>
    have hnw : (s.thr c).pc ≠ caller_pc.wait := by
      intro h
      simp [transport_enabled, h] at he
    exact xid_inv_goto s c _ hinv hnw (by decide)
  | deliver xid sz ioresult => exact xid_inv_deliver s xid sz ioresult hinv
  | reconnect => exact xid_inv_reconnect s hinv

/-- The invariant holds in every state the steps other than the expiry of the timed
wait reach. -/
theorem xid_inv_reach (s : transport) (h : transport_reach no_timeout s) : xid_inv s := by
  induction h with
  | init seed sendbuf_sz recvbuf_sz h => exact xid_inv_init seed sendbuf_sz recvbuf_sz h
  | step s a _ ha he hw ih => exact xid_inv_step s a ih ha he hw

/-- In every state reachable by the steps of the transport other than the expiry of the
timed wait (taking a context, XID assignment, encoding, a send that succeeds and
registers the context, a send that fails, waking up, retrying, releasing, reply
delivery, reconnect), XIDs being assigned fewer than 2^32 at a time while a call is
under way, no two contexts on the list `rpc_calls` have the same `rpc_xid`. -/
theorem pending_xids_distinct_no_timeout (s : transport) (h : transport_reach no_timeout s) :
    (s.rpc_calls.map (fun c => (s.ctx c).rpc_xid)).Nodup := by
  obtain ⟨_, h2, h3, _, h5, h6, h7⟩ := xid_inv_reach s h
  apply List.Nodup.map_on _ h2
  intro c hc d hd hxid
  by_contra hne
  have pc : (s.thr c).pc.in_call := Or.inr (Or.inr (h3 c hc))
  have pd : (s.thr d).pc.in_call := Or.inr (Or.inr (h3 d hd))
  have ec := h5 c (Or.inr (h3 c hc))
  have ed := h5 d (Or.inr (h3 d hd))
  obtain ⟨_, c2, c3⟩ := h6 c pc
  obtain ⟨_, d2, d3⟩ := h6 d pd
  have hl := h7 c d pc pd hne
  rw [← ec] at c3
  rw [← ed, ← hxid] at d3
  omega

/-- After `fs_init_rpc` every context is on the free list. -/
theorem transport_init_thr (seed sendbuf_sz recvbuf_sz c : Nat) :
    (transport_init seed sendbuf_sz recvbuf_sz).thr c = ⟨caller_pc.idle, 0, false⟩ := rfl

/-- The states of `pending_run` are reached by steps other than the expiry of the timed
wait. -/
theorem pending_run_reach : transport_reach no_timeout (pending_run 8) := by
  have h0 : transport_reach no_timeout (pending_run 0) :=
    transport_reach.init 4294967295 4096 4096 (by decide)
  have h1 : transport_reach no_timeout (pending_run 1) :=
    transport_reach.step _ (acquire 0) h0 trivial (by decide) (fun ⟨_, h⟩ => by cases h)
  have h2 : transport_reach no_timeout (pending_run 2) :=
    transport_reach.step _ (assign_xid 0) h1 trivial (by decide) (fun _ c hc => by
      by_cases h : c = 0 <;>
        simp [pending_run, pending_steps, transport_run, transport_step, transport.goto,
          transport_init_thr, caller_pc.in_call, h] at hc)
  have h3 : transport_reach no_timeout (pending_run 3) :=
    transport_reach.step _ (encode 0) h2 trivial (by decide) (fun ⟨_, h⟩ => by cases h)
  have h4 : transport_reach no_timeout (pending_run 4) :=
    transport_reach.step _ (send_ok 0) h3 trivial (by decide) (fun ⟨_, h⟩ => by cases h)
  have h5 : transport_reach no_timeout (pending_run 5) :=
    transport_reach.step _ (acquire 1) h4 trivial (by decide) (fun ⟨_, h⟩ => by cases h)
  have h6 : transport_reach no_timeout (pending_run 6) :=
    transport_reach.step _ (assign_xid 1) h5 trivial (by decide) (fun _ c hc => by
      by_cases h : c = 0
      · subst h; decide
      · by_cases h1 : c = 1 <;>
          simp [pending_run, transport_step, transport.goto, transport_init_thr,
            caller_pc.in_call, h, h1] at hc)
  have h7 : transport_reach no_timeout (pending_run 7) :=
    transport_reach.step _ (encode 1) h6 trivial (by decide) (fun ⟨_, h⟩ => by cases h)
  exact transport_reach.step _ (send_ok 1) h7 trivial (by decide) (fun ⟨_, h⟩ => by cases h)

/-- Two calls pending, the counter having wrapped between them: the contexts 0 and 1
are on the list with the XIDs 4294967295 and 0. -/
theorem pending_xids_distinct_no_timeout_example :
    transport_reach no_timeout (pending_run 8)
    ∧ (pending_run 8).rpc_calls = [0, 1]
    ∧ (pending_run 8).rpc_calls.map (fun c => ((pending_run 8).ctx c).rpc_xid)
      = [4294967295, 0]
    ∧ ((pending_run 8).rpc_calls.map (fun c => ((pending_run 8).ctx c).rpc_xid)).Nodup :=
  ⟨pending_run_reach, by decide, by decide,
    pending_xids_distinct_no_timeout (pending_run 8) pending_run_reach⟩

/-! ## Statements on the status translation, the create attributes and the owner strings -/

/-- A choice between two statuses that are errors is an error. -/
theorem major_ite_ne (c : Prop) [Decidable c] (a b : fsal_status_t)
    (ha : a.major ≠ ERR_FSAL_NO_ERROR) (hb : b.major ≠ ERR_FSAL_NO_ERROR) :
    (if c then a else b).major ≠ ERR_FSAL_NO_ERROR := by
  split <;> assumption

/-- C30. For every status `s`, `nfsstat4_to_fsal s` has the major code
`ERR_FSAL_NO_ERROR` if and only if `s` is `NFS4_OK`, `NFS4ERR_SAME` or
`NFS4ERR_NOT_SAME`; for every other status, named in the switch or not, the result is
an error (`FSAL_IS_ERROR`). The minor code is the status itself in the first case. -/
theorem C30_no_error_iff_ok_same_not_same (s : nfsstat4) :
    ((nfsstat4_to_fsal s).major = ERR_FSAL_NO_ERROR
      ↔ (s = NFS4_OK ∨ s = NFS4ERR_SAME ∨ s = NFS4ERR_NOT_SAME))
    ∧ (FSAL_IS_ERROR (nfsstat4_to_fsal s) = true
      ↔ ¬ (s = NFS4_OK ∨ s = NFS4ERR_SAME ∨ s = NFS4ERR_NOT_SAME))
    ∧ ((s = NFS4_OK ∨ s = NFS4ERR_SAME ∨ s = NFS4ERR_NOT_SAME) →
        nfsstat4_to_fsal s = fsalstat ERR_FSAL_NO_ERROR s) := by
  by_cases h : s = NFS4ERR_SAME ∨ s = NFS4ERR_NOT_SAME ∨ s = NFS4_OK
  · have h' : s = NFS4_OK ∨ s = NFS4ERR_SAME ∨ s = NFS4ERR_NOT_SAME := by tauto
    have e : nfsstat4_to_fsal s = fsalstat ERR_FSAL_NO_ERROR s := by
      unfold nfsstat4_to_fsal
      rw [if_pos h]
    rw [e]
    simp [fsalstat, FSAL_IS_ERROR, h']
  · have h' : ¬ (s = NFS4_OK ∨ s = NFS4ERR_SAME ∨ s = NFS4ERR_NOT_SAME) := by tauto
    have e : (nfsstat4_to_fsal s).major ≠ ERR_FSAL_NO_ERROR := by
      unfold nfsstat4_to_fsal
      rw [if_neg h]
      repeat' (first
        | exact fun x => fsal_errors_t.noConfusion x
        | apply major_ite_ne)
    refine ⟨⟨fun x => absurd x e, fun x => absurd x h'⟩, ⟨fun _ => h', fun _ => ?_⟩,
      fun x => absurd x h'⟩
    simpa [FSAL_IS_ERROR] using e

/-- C27. An element with `is_creation` set, the path `/f` and a mask that holds
`ATTR_MODE`: `fs_fsalattr_to_fattr4` computes a bitmap with the bit of `FATTR4_MODE` set
(bit 1 of word 1), but the OPEN operation that `do_ktcread` and `do_ktcwrite` build
carries the empty bitmap, in which that bit is not set. `fs_create`, given the same
attributes and name, sends its OPEN with the computed bitmap. -/
theorem C27_open_bitmap_empty :
    create_item.user_arg.is_creation = true
    ∧ create_item.attrib.mask &&& env0.ATTR_MODE ≠ 0
    ∧ fs_fsalattr_to_fattr4 env0 (reset_item env0 create_item).attrib
      = some ⟨⟨0, 2 ^ (FATTR4_MODE - 32), 0, 2⟩, []⟩
    ∧ do_ktcread env0 create_item [] 0
      = some ⟨fsalstat ERR_FSAL_NO_ERROR 0, reset_item env0 create_item,
          [PUTROOTFH, OPEN true 0 7 ⟨⟨0, 0, 0, 2⟩, []⟩ ['f'] (owner_string 4242 1),
            READ 0 4096], 1⟩
    ∧ do_ktcwrite env0 create_item [] 0
      = some ⟨fsalstat ERR_FSAL_NO_ERROR 0, reset_item env0 create_item,
          [PUTROOTFH, OPEN true 0 7 ⟨⟨0, 0, 0, 2⟩, []⟩ ['f'] (owner_string 4242 1),
            WRITE 0 [] 4096], 1⟩
    ∧ (0 : Nat) &&& 2 ^ (FATTR4_MODE - 32) = 0
    ∧ (fs_create env0 exec_ok [] dir_xy ['f'] create_item.attrib 0).map
        (fun r => r.calls.head?)
      = some (some [PUTFH [120, 121],
          OPEN true 0 7 ⟨⟨0, 2 ^ (FATTR4_MODE - 32), 0, 2⟩, []⟩ ['f'] (owner_string 4242 1),
          GETFH, GETATTR fs_bitmap_getattr])
    ∧ 2 ^ (FATTR4_MODE - 32) &&& 2 ^ (FATTR4_MODE - 32) ≠ 0 := by
  decide

/-- For every batch element with a path the resolver accepts and attributes the encoder
accepts, the OPEN operation built by `do_ktcread` and by
`do_ktcwrite` carries the create flag of the element, the attribute bytes encoded from
the attributes with the mask cut down to mode, owner and group, and the empty attribute
bitmap, whatever the mask of the element. -/
theorem do_ktc_open_attrs (env : Env) (ka : tcread_kargs)
    (ops : List nfs_argop4) (fcnt : Nat) (data : fattr4) (path : List Char)
    (ops2 : List nfs_argop4) (marker : Nat)
    (henc : fs_fsalattr_to_fattr4 env (reset_item env ka).attrib = some data)
    (hpath : ka.path = some path)
    (hcl : construct_lookup env.MAX_FILENAME_LENGTH path
      (if ops.length ≠ 0 then ops ++ [CLOSE_NOSTATE] else ops) = lookup_ret.ok ops2 marker) :
    (reset_item env ka).attrib.mask
      = ka.attrib.mask &&& (env.ATTR_MODE ||| env.ATTR_OWNER ||| env.ATTR_GROUP)
    ∧ do_ktcread env ka ops fcnt
      = some ⟨fsalstat ERR_FSAL_NO_ERROR 0, reset_item env ka,
          ops2 ++ [OPEN ka.user_arg.is_creation 0 env.fs_clientid
              ⟨empty_bitmap, data.attr_vals⟩ (path.drop marker)
              (owner_string env.pid (atomic_inc_uint64_t fcnt)),
            READ ka.user_arg.offset ka.user_arg.length], atomic_inc_uint64_t fcnt⟩
    ∧ do_ktcwrite env ka ops fcnt
      = some ⟨fsalstat ERR_FSAL_NO_ERROR 0, reset_item env ka,
          ops2 ++ [OPEN ka.user_arg.is_creation 0 env.fs_clientid
              ⟨empty_bitmap, data.attr_vals⟩ (path.drop marker)
              (owner_string env.pid (atomic_inc_uint64_t fcnt)),
            WRITE ka.user_arg.offset ka.user_arg.data ka.user_arg.length],
          atomic_inc_uint64_t fcnt⟩ := by
  simp only [reset_item] at henc
  refine ⟨rfl, ?_, ?_⟩
  · unfold do_ktcread
    simp only [henc, hpath, hcl, reset_item, List.append_assoc, List.singleton_append]
  · unfold do_ktcwrite
    simp only [henc, hpath, hcl, reset_item, List.append_assoc, List.singleton_append]

/-- The element `create_item`, first of its batch. -/
theorem do_ktc_open_attrs_example :
    (reset_item env0 create_item).attrib.mask = 128 &&& (128 ||| 512 ||| 1024)
    ∧ do_ktcread env0 create_item [] 0
      = some ⟨fsalstat ERR_FSAL_NO_ERROR 0, reset_item env0 create_item,
          [PUTROOTFH] ++ [OPEN true 0 7 ⟨empty_bitmap, []⟩ (['/', 'f'].drop 1)
              (owner_string 4242 (atomic_inc_uint64_t 0)), READ 0 4096],
          atomic_inc_uint64_t 0⟩
    ∧ do_ktcwrite env0 create_item [] 0
      = some ⟨fsalstat ERR_FSAL_NO_ERROR 0, reset_item env0 create_item,
          [PUTROOTFH] ++ [OPEN true 0 7 ⟨empty_bitmap, []⟩ (['/', 'f'].drop 1)
              (owner_string 4242 (atomic_inc_uint64_t 0)), WRITE 0 [] 4096],
          atomic_inc_uint64_t 0⟩ :=
  do_ktc_open_attrs env0 create_item [] 0 ⟨⟨0, 2, 0, 2⟩, []⟩ ['/', 'f']
    [PUTROOTFH] 1 (by decide) rfl (by decide)

/-- The decimal digit of a number below ten stands for that number. -/
theorem digitChar_value (k : Nat) (h : k < 10) : (Nat.digitChar k).toNat - 48 = k := by
  interval_cases k <;> rfl

/-- The digits `Nat.toDigitsCore` puts in front of `ds` are those of `n`. -/
theorem toDigitsCore_value (fuel : Nat) : ∀ (n : Nat) (ds : List Char), n < fuel →
    (Nat.toDigitsCore 10 fuel n ds).foldl (fun a c => 10 * a + (c.toNat - 48)) 0
      = ds.foldl (fun a c => 10 * a + (c.toNat - 48)) n := by
  induction fuel with
  | zero => intro n ds h; omega
  | succ fuel ih =>
    intro n ds h
    have hd := digitChar_value (n % 10) (Nat.mod_lt _ (by decide))
    unfold Nat.toDigitsCore
    simp only
    by_cases h0 : n / 10 = 0
    · rw [if_pos h0, List.foldl_cons, hd]
      congr 1
      omega
    · rw [if_neg h0, ih (n / 10) _ (by omega), List.foldl_cons, hd]
      congr 1
      omega

/-- The decimal representation of a number stands for that number. -/
theorem digits_value_repr (n : Nat) : digits_value (Nat.repr n).toList = n := by
  have h := toDigitsCore_value (n + 1) n [] (by omega)
  simpa [digits_value, Nat.repr, Nat.toDigits] using h

/-- Different numbers have different decimal representations. -/
theorem repr_injective (n m : Nat) (h : (Nat.repr n).toList = (Nat.repr m).toList) :
    n = m := by
  rw [← digits_value_repr n, ← digits_value_repr m, h]

/-- The owner string is not cut off: with a 64-bit counter it has at most 50
characters. -/
theorem owner_string_full (pid n : Nat) (h : n < 2 ^ 64) :
    owner_string pid n
      = "GANESHA/PROXY: pid=".toList ++ (Nat.repr (pid % 2 ^ 32)).toList ++ [' ']
        ++ (Nat.repr n).toList
    ∧ (owner_string pid n).length ≤ 50 := by
  have h1 : (Nat.repr (pid % 2 ^ 32)).toList.length ≤ 10 :=
    Nat.repr_length _ 10 (by decide) (by omega)
  have h2 : (Nat.repr n).toList.length ≤ 20 := Nat.repr_length _ 20 (by decide) (by omega)
  have hl : ("GANESHA/PROXY: pid=".toList ++ (Nat.repr (pid % 2 ^ 32)).toList ++ [' ']
        ++ (Nat.repr n).toList).length ≤ 50 := by
    simp only [List.length_append, List.length_singleton]
    have : "GANESHA/PROXY: pid=".toList.length = 19 := by decide
    omega
  unfold owner_string
  rw [List.take_of_length_le (by omega)]
  exact ⟨rfl, hl⟩

/-- Owner strings of one process made from different 64-bit counter values differ. -/
theorem owner_string_injective (pid n m : Nat) (hn : n < 2 ^ 64) (hm : m < 2 ^ 64)
    (h : owner_string pid n = owner_string pid m) : n = m := by
  rw [(owner_string_full pid n hn).1, (owner_string_full pid m hm).1] at h
  exact repr_injective n m (List.append_cancel_left h)

/-- The counter after `k + 1` increments. -/
theorem atomic_inc_iterate (fcnt k : Nat) :
    atomic_inc_uint64_t^[k + 1] fcnt = (fcnt + k + 1) % 2 ^ 64 := by
  induction k with
  | zero => rfl
  | succ k ih =>
    rw [Function.iterate_succ_apply', ih]
    unfold atomic_inc_uint64_t
    omega

/-- What a call of the common form adds to the array: the I/O operation, a CLOSE, a
PUTROOTFH, LOOKUPs, and an OPEN whose owner is the string made from the incremented
counter. -/
theorem do_ktc_mints (io : tc_iovec → nfs_argop4) (env : Env) (ka : tcread_kargs)
    (ops : List nfs_argop4) (fcnt : Nat) (r : do_out)
    (h : do_ktc io env ka ops fcnt = some r) :
    r.fcnt = atomic_inc_uint64_t fcnt
    ∧ ∀ o ∈ r.ops, o ∈ ops ∨ o = io (reset_item env ka).user_arg ∨ o = CLOSE_NOSTATE
        ∨ o = PUTROOTFH ∨ (∃ name, o = LOOKUP name)
        ∨ ∃ attrs name, o = OPEN ka.user_arg.is_creation 0 env.fs_clientid attrs name
            (owner_string env.pid (atomic_inc_uint64_t fcnt)) := by
  unfold do_ktc at h
  simp only at h
  split at h
  · simp only [Option.some.injEq] at h
    subst h
    exact ⟨rfl, fun o ho => Or.inl ho⟩
  · split at h
    · split at h
      · simp only [Option.some.injEq] at h
        subst h
        exact ⟨rfl, fun o ho => Or.inl ho⟩
      · simp only [Option.some.injEq] at h
        subst h
        refine ⟨rfl, fun o ho => ?_⟩
        rcases List.mem_append.mp ho with ho | ho
        · exact Or.inl ho
        · exact Or.inr (Or.inl (by simpa [reset_item] using ho))
    · rename_i path hpath
      split at h
      · exact absurd h (by simp)
      · simp only [Option.some.injEq] at h
        subst h
        exact ⟨rfl, fun o ho => Or.inl ho⟩
      · rename_i ops2 marker hcl
        simp only [Option.some.injEq] at h
        subst h
        refine ⟨rfl, fun o ho => ?_⟩
        obtain ⟨names, hn, _⟩ := construct_lookup_ok _ _ _ _ _ hcl
        have hsub : ∀ o ∈ (if ops.length ≠ 0 then ops ++ [CLOSE_NOSTATE] else ops),
            o ∈ ops ∨ o = CLOSE_NOSTATE := by
          intro o ho
          split at ho
          · simpa using ho
          · exact Or.inl ho
        rw [hn] at ho
        simp only [List.mem_append, List.mem_cons, List.mem_singleton, List.mem_map,
          List.not_mem_nil, or_false] at ho
        rcases ho with ((ho | ho | ho) | ho) | ho
        · rcases hsub o ho with ho | ho
          · exact Or.inl ho
          · exact Or.inr (Or.inr (Or.inl ho))
        · exact Or.inr (Or.inr (Or.inr (Or.inl ho)))
        · obtain ⟨nm, _, e⟩ := ho
          exact Or.inr (Or.inr (Or.inr (Or.inr (Or.inl ⟨nm, e.symm⟩))))
        · exact Or.inr (Or.inr (Or.inr (Or.inr (Or.inr ⟨_, _, ho⟩))))
        · exact Or.inr (Or.inl (by simpa [reset_item] using ho))

/-- The compound `fs_open_confirm` hands to the executor. -/
theorem fs_open_confirm_calls (exec : Executor) (calls : List (List nfs_argop4))
    (fh4 : List Nat) (stateid : stateid4) (c : stateid_out)
    (h : fs_open_confirm exec calls fh4 stateid = some c) :
    c.calls = calls ++ [confirm_ops fh4 stateid] := by
  unfold fs_open_confirm at h
  simp only at h
  split at h
  · simp only [Option.some.injEq] at h
    subst h
    rfl
  · split at h
    · simp only [Option.some.injEq] at h
      subst h
      rfl
    · exact absurd h (by simp)

/-- The end of `fs_create` leaves the owner counter as it is. -/
theorem fs_create_close_fcnt (env : Env) (exec : Executor)
    (calls : List (List nfs_argop4)) (object : List Nat) (stateid : stateid4)
    (obj_attributes : fattr4) (attrib : attrlist) (fcnt : Nat) :
    (fs_create_close env exec calls object stateid obj_attributes attrib fcnt).fcnt
      = fcnt := by
  unfold fs_create_close
  simp only
  split
  · rfl
  · split
    · rfl
    · split <;> rfl

/-- The compounds the end of `fs_create` hands to the executor come after those handed
to it before. -/
theorem fs_create_close_more (env : Env) (exec : Executor)
    (calls : List (List nfs_argop4)) (object : List Nat) (stateid : stateid4)
    (obj_attributes : fattr4) (attrib : attrlist) (fcnt : Nat) :
    ∃ more, (fs_create_close env exec calls object stateid obj_attributes attrib fcnt).calls
      = calls ++ more := by
  rcases fs_create_close_calls env exec calls object stateid obj_attributes attrib fcnt
    with ⟨_, h⟩ | ⟨_, h⟩
  · exact ⟨[], by rw [h, List.append_nil]⟩
  · exact ⟨_, h⟩

/-- The counter `fs_create` leaves is the counter incremented once, and when the
attributes are encoded the first compound it hands to the executor is PUTFH, OPEN,
GETFH, GETATTR with the owner string made from the incremented counter. -/
theorem fs_create_mints (env : Env) (exec : Executor) (calls : List (List nfs_argop4))
    (dir_hdl : fs_obj_handle) (name : List Char) (attrib : attrlist) (fcnt : Nat)
    (r : create_out) (h : fs_create env exec calls dir_hdl name attrib fcnt = some r) :
    r.fcnt = atomic_inc_uint64_t fcnt
    ∧ ∀ input_attr, fs_fsalattr_to_fattr4 env (create_attrib env attrib) = some input_attr →
        ∃ more, r.calls = calls ++ create_ops env dir_hdl name input_attr fcnt :: more := by
  unfold fs_create at h
  simp only at h
  split at h
  · rename_i henc
    simp only [Option.some.injEq] at h
    subst h
    refine ⟨rfl, fun input_attr hi => ?_⟩
    simp only [create_attrib] at hi
    rw [henc] at hi
    exact absurd hi (by simp)
  · rename_i data henc
    have hd : ∀ input_attr,
        fs_fsalattr_to_fattr4 env (create_attrib env attrib) = some input_attr →
        input_attr = data := by
      intro input_attr hi
      simp only [create_attrib] at hi
      rw [henc] at hi
      exact (Option.some.inj hi).symm
    split at h
    · simp only [Option.some.injEq] at h
      subst h
      refine ⟨rfl, fun input_attr hi => ⟨[], ?_⟩⟩
      rw [hd input_attr hi]
      rfl
    · split at h
      · split at h
        · split at h
          · exact absurd h (by simp)
          · rename_i c hc
            have hcc := fs_open_confirm_calls _ _ _ _ _ hc
            split at h
            · simp only [Option.some.injEq] at h
              subst h
              refine ⟨rfl, fun input_attr hi => ?_⟩
              rw [hd input_attr hi]
              simp only [hcc, create_ops, List.append_assoc, List.singleton_append]
              exact ⟨_, rfl⟩
            · simp only [Option.some.injEq] at h
              subst h
              refine ⟨fs_create_close_fcnt _ _ _ _ _ _ _ _, fun input_attr hi => ?_⟩
              obtain ⟨more, hm⟩ := fs_create_close_more env exec c.calls _ c.stateid
                _ { attrib with mask := attrib.mask &&&
                  (env.ATTR_MODE ||| env.ATTR_OWNER ||| env.ATTR_GROUP) }
                (atomic_inc_uint64_t fcnt)
              rw [hd input_attr hi, hm, hcc]
              simp only [create_ops, List.append_assoc, List.singleton_append,
                List.cons_append]
              exact ⟨_, rfl⟩
        · simp only [Option.some.injEq] at h
          subst h
          refine ⟨fs_create_close_fcnt _ _ _ _ _ _ _ _, fun input_attr hi => ?_⟩
          obtain ⟨more, hm⟩ := fs_create_close_more env exec _ _ _
            _ { attrib with mask := attrib.mask &&&
              (env.ATTR_MODE ||| env.ATTR_OWNER ||| env.ATTR_GROUP) }
            (atomic_inc_uint64_t fcnt)
          rw [hd input_attr hi, hm]
          simp only [create_ops, List.append_assoc, List.singleton_append]
          exact ⟨_, rfl⟩
      · exact absurd h (by simp)

/-- Every call of `do_ktcread`, `do_ktcwrite` and `fs_create` increments the owner
counter once, and the owner string it makes for its OPEN operation is the one made from
the incremented counter. With a 64-bit counter the string is
`GANESHA/PROXY: pid=<pid> <counter>` in full (at most 50 characters, so it fits the
128-byte buffer), and strings made from different counter values differ. Hence, for a
fixed pid, the owner strings of any two among the first 2^64 calls differ. -/
theorem owner_strings_minted_distinct (env : Env) :
    (∀ ka ops fcnt r, do_ktcread env ka ops fcnt = some r →
      r.fcnt = atomic_inc_uint64_t fcnt
      ∧ ∀ create seqid clientid attrs name owner,
          OPEN create seqid clientid attrs name owner ∈ r.ops →
          OPEN create seqid clientid attrs name owner ∈ ops
            ∨ owner = owner_string env.pid (atomic_inc_uint64_t fcnt))
    ∧ (∀ ka ops fcnt r, do_ktcwrite env ka ops fcnt = some r →
      r.fcnt = atomic_inc_uint64_t fcnt
      ∧ ∀ create seqid clientid attrs name owner,
          OPEN create seqid clientid attrs name owner ∈ r.ops →
          OPEN create seqid clientid attrs name owner ∈ ops
            ∨ owner = owner_string env.pid (atomic_inc_uint64_t fcnt))
    ∧ (∀ exec calls dir_hdl name attrib fcnt r,
      fs_create env exec calls dir_hdl name attrib fcnt = some r →
      r.fcnt = atomic_inc_uint64_t fcnt
      ∧ ∀ input_attr,
          fs_fsalattr_to_fattr4 env (create_attrib env attrib) = some input_attr →
          ∃ more, r.calls = calls ++
            [PUTFH dir_hdl.fh4,
              OPEN true 0 env.fs_clientid input_attr name
                (owner_string env.pid (atomic_inc_uint64_t fcnt)),
              GETFH, GETATTR fs_bitmap_getattr] :: more)
    ∧ (∀ n, n < 2 ^ 64 →
      owner_string env.pid n
        = "GANESHA/PROXY: pid=".toList ++ (Nat.repr (env.pid % 2 ^ 32)).toList ++ [' ']
          ++ (Nat.repr n).toList
      ∧ (owner_string env.pid n).length < 128)
    ∧ (∀ n m, n < 2 ^ 64 → m < 2 ^ 64 → n ≠ m →
      owner_string env.pid n ≠ owner_string env.pid m)
    ∧ (∀ fcnt i j, i < j → j < 2 ^ 64 →
      owner_string env.pid (atomic_inc_uint64_t^[i + 1] fcnt)
        ≠ owner_string env.pid (atomic_inc_uint64_t^[j + 1] fcnt)) := by
  have hk : ∀ (io : tc_iovec → nfs_argop4), (∀ u c s i a n o, io u ≠ OPEN c s i a n o) →
      ∀ ka ops fcnt r, do_ktc io env ka ops fcnt = some r →
      r.fcnt = atomic_inc_uint64_t fcnt
      ∧ ∀ create seqid clientid attrs name owner,
          OPEN create seqid clientid attrs name owner ∈ r.ops →
          OPEN create seqid clientid attrs name owner ∈ ops
            ∨ owner = owner_string env.pid (atomic_inc_uint64_t fcnt) := by
    intro io hio ka ops fcnt r h
    obtain ⟨h1, h2⟩ := do_ktc_mints io env ka ops fcnt r h
    refine ⟨h1, fun create seqid clientid attrs name owner ho => ?_⟩
    rcases h2 _ ho with h | h | h | h | ⟨_, h⟩ | ⟨_, _, h⟩
    · exact Or.inl h
    · exact absurd h.symm (hio _ _ _ _ _ _ _)
    · cases h
    · cases h
    · cases h
    · injection h with _ _ _ _ _ e
      exact Or.inr e
  refine ⟨hk io_read (fun u c s i a n o e => by cases e),
    hk io_write (fun u c s i a n o e => by cases e),
    fun exec calls dir_hdl name attrib fcnt r h =>
      fs_create_mints env exec calls dir_hdl name attrib fcnt r h,
    fun n hn => ⟨(owner_string_full env.pid n hn).1,
      Nat.lt_of_le_of_lt (owner_string_full env.pid n hn).2 (by decide)⟩,
    fun n m hn hm hne e => hne (owner_string_injective env.pid n m hn hm e),
    fun fcnt i j hij hj e => ?_⟩
  have hi' := Nat.mod_lt (fcnt + i + 1) (show 0 < 2 ^ 64 by decide)
  have hj' := Nat.mod_lt (fcnt + j + 1) (show 0 < 2 ^ 64 by decide)
  rw [atomic_inc_iterate, atomic_inc_iterate] at e
  have := owner_string_injective env.pid _ _ hi' hj' e
  omega

/-! ## Statements on the receiving thread -/

/-- Two states with the same members are the same. -/
theorem transport_ext (s t : transport) (h1 : s.rpc_xid = t.rpc_xid)
    (h2 : s.rpc_calls = t.rpc_calls) (h3 : s.ctx = t.ctx) (h4 : s.thr = t.thr)
    (h5 : s.later = t.later) : s = t := by
  cases s
  cases t
  simp only at h1 h2 h3 h4 h5
  subst h1 h2 h3 h4 h5
  rfl

/-- The loop of `fs_new_socket_ready`, started on the whole list, is the step
`reconnect`. -/
theorem fs_new_socket_ready_loop_eq (l : List Nat) : ∀ s : transport, s.rpc_calls = l →
    fs_new_socket_ready_loop l s = transport_step reconnect s := by
  induction l with
  | nil =>
    intro s hs
    apply transport_ext <;> simp [fs_new_socket_ready_loop, transport_step, hs]
  | cons c nxt ih =>
    intro s hs
    rw [fs_new_socket_ready_loop, ih _ (by simp [hs])]
    apply transport_ext <;> simp only [transport_step, hs, List.erase_cons_head]
    funext d
    by_cases hd : d = c
    · subst hd
      simp
    · by_cases hn : d ∈ nxt <;> simp [hd, hn, Function.update_noteq]

/-- C22. After `fs_new_socket_ready` the list of pending calls is empty; every context
that was on it has `iodone = 1` and `ioresult = -EAGAIN` and is otherwise as before;
every other context is unchanged, and so are the XID counter and the callers.
`fs_connect` runs it exactly when `connect` succeeds on the new socket. -/
theorem C22_new_socket_resets_pending (s : transport) :
    (fs_new_socket_ready s).rpc_calls = []
    ∧ (∀ c ∈ s.rpc_calls,
        (fs_new_socket_ready s).ctx c = { s.ctx c with iodone := 1, ioresult := -EAGAIN })
    ∧ (∀ c, c ∉ s.rpc_calls → (fs_new_socket_ready s).ctx c = s.ctx c)
    ∧ (fs_new_socket_ready s).rpc_xid = s.rpc_xid
    ∧ (fs_new_socket_ready s).thr = s.thr
    ∧ (∀ sock : Int, 0 ≤ sock → fs_connect sock true s = (sock, fs_new_socket_ready s))
    ∧ (∀ sock : Int, 0 ≤ sock → fs_connect sock false s = (-1, s))
    ∧ (∀ (sock : Int) connected, sock < 0 → fs_connect sock connected s = (sock, s))
    ∧ fs_new_socket_ready s = transport_step reconnect s := by
  have e : fs_new_socket_ready s = transport_step reconnect s :=
    fs_new_socket_ready_loop_eq s.rpc_calls s rfl
  refine ⟨by rw [e]; rfl, fun c hc => by rw [e]; simp [transport_step, hc],
    fun c hc => by rw [e]; simp [transport_step, hc], by rw [e]; rfl, by rw [e]; rfl,
    fun sock h => by simp [fs_connect, h], fun sock h => by simp [fs_connect, h],
    fun sock connected h => by simp [fs_connect, not_le.mpr h], e⟩

/-! ## Statements on the transport with timeouts -/

/-- A step leaves the callers of the contexts it does not name where they are. -/
theorem transport_step_thr_other (a : transport_action) (s : transport) (c : Nat)
    (h : a.caller ≠ some c) : (transport_step a s).thr c = s.thr c := by
  cases a <;>
    simp only [transport_action.caller, ne_eq, Option.some.injEq] at h <;>
    simp only [transport_step, transport.goto] <;>
    first
      | exact Function.update_noteq (fun e => h e.symm) _ _
      | rfl
      | (split
         · rfl
         · split <;> rfl)

/-- A sequence of steps leaves the callers of the contexts it does not name where they
are. -/
theorem transport_run_thr_other (as : List transport_action) (c : Nat)
    (h : ∀ a ∈ as, a.caller ≠ some c) (s : transport) :
    (transport_run as s).thr c = s.thr c := by
  induction as generalizing s with
  | nil => rfl
  | cons a as ih =>
    rw [transport_run, ih (fun b hb => h b (List.mem_cons_of_mem _ hb)),
      transport_step_thr_other a s c (h a (List.mem_cons_self _ _))]

/-- The states of `stale_run` are reached by the steps of the transport. -/
theorem stale_run_reach :
    transport_reach (fun _ => True) (stale_run 12)
    ∧ transport_reach (fun _ => True) (stale_run 14) := by
  have hidle : ∀ k c, c ≠ 0 → ((stale_run k).thr c).pc = caller_pc.idle := by
    intro k c hc
    unfold stale_run
    rw [transport_run_thr_other _ c (fun a ha => ?_)]
    · rfl
    · have hm := List.mem_of_mem_take ha
      simp only [stale_steps, List.mem_cons, List.mem_singleton, List.not_mem_nil,
        or_false] at hm
      rcases hm with h | h | h | h | h | h | h | h | h | h | h | h | h | h <;> subst h <;>
        simp [transport_action.caller, Ne.symm hc]
  have hw : ∀ k, ((stale_run k).thr 0).pc = caller_pc.execute → xid_window (stale_run k) := by
    intro k h2 c hc
    by_cases h : c = 0
    · subst h
      rw [h2] at hc
      simp [caller_pc.in_call] at hc
    · rw [hidle k c h] at hc
      simp [caller_pc.in_call] at hc
  have h0 : transport_reach (fun _ => True) (stale_run 0) :=
    transport_reach.init 100 4096 4096 (by decide)
  have h1 : transport_reach (fun _ => True) (stale_run 1) :=
    transport_reach.step _ (acquire 0) h0 trivial (by decide) (fun ⟨_, h⟩ => by cases h)
  have h2 : transport_reach (fun _ => True) (stale_run 2) :=
    transport_reach.step _ (assign_xid 0) h1 trivial (by decide) (fun _ => hw 1 (by decide))
  have h3 : transport_reach (fun _ => True) (stale_run 3) :=
    transport_reach.step _ (encode 0) h2 trivial (by decide) (fun ⟨_, h⟩ => by cases h)
  have h4 : transport_reach (fun _ => True) (stale_run 4) :=
    transport_reach.step _ (send_ok 0) h3 trivial (by decide) (fun ⟨_, h⟩ => by cases h)
  have h5 : transport_reach (fun _ => True) (stale_run 5) :=
    transport_reach.step _ (timeout 0) h4 trivial (by decide) (fun ⟨_, h⟩ => by cases h)
  have h6 : transport_reach (fun _ => True) (stale_run 6) :=
    transport_reach.step _ (deliver 100 64 64) h5 trivial (by decide)
      (fun ⟨_, h⟩ => by cases h)
  have h7 : transport_reach (fun _ => True) (stale_run 7) :=
    transport_reach.step _ (send_fail 0) h6 trivial (by decide) (fun ⟨_, h⟩ => by cases h)
  have h8 : transport_reach (fun _ => True) (stale_run 8) :=
    transport_reach.step _ reconnect h7 trivial (by decide) (fun ⟨_, h⟩ => by cases h)
  have h9 : transport_reach (fun _ => True) (stale_run 9) :=
    transport_reach.step _ (retry 0) h8 trivial (by decide) (fun ⟨_, h⟩ => by cases h)
  have h10 : transport_reach (fun _ => True) (stale_run 10) :=
    transport_reach.step _ (assign_xid 0) h9 trivial (by decide) (fun _ => hw 9 (by decide))
  have h11 : transport_reach (fun _ => True) (stale_run 11) :=
    transport_reach.step _ (encode 0) h10 trivial (by decide) (fun ⟨_, h⟩ => by cases h)
  have h12 : transport_reach (fun _ => True) (stale_run 12) :=
    transport_reach.step _ (send_ok 0) h11 trivial (by decide) (fun ⟨_, h⟩ => by cases h)
  have h13 : transport_reach (fun _ => True) (stale_run 13) :=
    transport_reach.step _ (wake 0 (rpc_reply.accepted accept_stat.SUCCESS NFS4_OK)) h12
      trivial (by decide) (fun ⟨_, h⟩ => by cases h)
  exact ⟨h12, transport_reach.step _ (release 0) h13 trivial (by decide)
    (fun ⟨_, h⟩ => by cases h)⟩

/-- C21. A run of the steps the transport takes that ends with a context on the list of
pending calls whose `iodone` is set: the wait of the caller of context 0 times out, the
reply (XID 100) is delivered (the context is taken off the list, `iodone = 1`), the
re-send fails, the socket is connected again, and the executor's next try (XID 101)
registers the context again, with `iodone` still 1 from the reply to the first try.
`fs_process_reply` then returns at once, reading the old reply as that of the new call
(`RPC_SUCCESS`), and the executor puts the context back on the free list while it is
still on the list of pending calls. -/
theorem C21_stale_done_on_pending_list :
    transport_reach (fun _ => True) (stale_run 12)
    ∧ (stale_run 12).rpc_calls = [0]
    ∧ ((stale_run 12).ctx 0).iodone = 1
    ∧ ((stale_run 12).ctx 0).rpc_xid = 101
    ∧ ((stale_run 12).thr 0).pc = caller_pc.wait
    ∧ ((stale_run 6).ctx 0).rpc_xid = 100
    ∧ (stale_run 6).rpc_calls = []
    ∧ ((stale_run 6).ctx 0).iodone = 1
    ∧ ((stale_run 13).thr 0).pc = caller_pc.back RPC_SUCCESS
    ∧ transport_reach (fun _ => True) (stale_run 14)
    ∧ ((stale_run 14).thr 0).pc = caller_pc.idle
    ∧ (stale_run 14).rpc_calls = [0] :=
  ⟨stale_run_reach.1, by decide, by decide, by decide, by decide, by decide, by decide,
    by decide, by decide, stale_run_reach.2, by decide, by decide⟩

/-- Four bytes read most significant first give back the number they were made from. -/
theorem be_value_be_bytes (v : Nat) (h : v < 2 ^ 32) : be_value (be_bytes v) = v := by
  simp only [be_value, be_bytes]
  omega

/-- The bytes of the number four bytes stand for are these bytes. -/
theorem be_bytes_be_value (b0 b1 b2 b3 : Nat) (h0 : b0 < 256) (h1 : b1 < 256)
    (h2 : b2 < 256) (h3 : b3 < 256) :
    be_bytes (be_value [b0, b1, b2, b3]) = [b0, b1, b2, b3] := by
  simp only [be_value, be_bytes, List.cons.injEq, and_true]
  refine ⟨?_, ?_, ?_, ?_⟩ <;> omega

/-- The value `ntohl` gives for a variable filled with four bytes from the wire is the
number these bytes stand for, on a host of either byte order. -/
theorem ntohl_host_value (le : Bool) (v : Nat) (h : v < 2 ^ 32) :
    ntohl le (host_value le (be_bytes v)) = v := by
  cases le
  · simp only [ntohl, host_value, host_bytes, Bool.false_eq_true, if_false]
    rw [be_value_be_bytes v h, be_value_be_bytes v h]
  · simp only [ntohl, host_value, host_bytes, if_true, List.reverse_reverse]
    have e2 : (be_bytes (be_value (be_bytes v).reverse)).reverse = be_bytes v := by
      have hb : ∀ x : Nat, x % 256 < 256 := fun x => Nat.mod_lt x (by decide)
      simp only [be_bytes, List.reverse_cons, List.reverse_nil, List.nil_append,
        List.cons_append]
      have := be_bytes_be_value (v % 256) (v / 2 ^ 8 % 256) (v / 2 ^ 16 % 256)
        (v / 2 ^ 24 % 256) (hb _) (hb _) (hb _) (hb _)
      simp only [be_bytes, List.cons.injEq, and_true] at this ⊢
      exact ⟨this.2.2.2, this.2.2.1, this.2.1, this.1⟩
    rw [e2, be_value_be_bytes v h]

/-- The bytes a variable occupies after `ntohl` of the number `v`, and `htonl` alike:
the bytes of `v`, most significant first, on a host of either byte order. -/
theorem host_bytes_ntohl (le : Bool) (v : Nat) (h : v < 2 ^ 32) :
    host_bytes le (ntohl le v) = be_bytes v := by
  cases le
  · simp only [ntohl, host_bytes, Bool.false_eq_true, if_false]
    rw [be_value_be_bytes v h]
  · simp only [ntohl, host_bytes, if_true]
    have hb : ∀ x : Nat, x % 256 < 256 := fun x => Nat.mod_lt x (by decide)
    have := be_bytes_be_value (v % 256) (v / 2 ^ 8 % 256) (v / 2 ^ 16 % 256)
      (v / 2 ^ 24 % 256) (hb _) (hb _) (hb _) (hb _)
    simp only [be_bytes, List.reverse_cons, List.reverse_nil, List.nil_append,
      List.cons_append, List.cons.injEq, and_true] at this ⊢
    exact ⟨this.2.2.2, this.2.2.1, this.2.1, this.1⟩

/-- A `read` the script lets succeed returns at least one byte when one is asked for and
one is there, and no more than asked for. -/
theorem sock_read_ok (r : Int) (n : Nat) (wire : List Nat) (errno : Int) (hr : 0 < r)
    (hn : 0 < n) (hw : n ≤ wire.length) :
    ∃ k, 0 < k ∧ k ≤ n
      ∧ sock_read r n wire errno = ⟨(k : Nat), wire.take k, wire.drop k, errno⟩ := by
  refine ⟨min (min r.toNat n) wire.length, ?_, ?_, ?_⟩
  · have : 0 < r.toNat := by omega
    omega
  · omega
  · simp only [sock_read, gt_iff_lt, hr, if_true]

/-- Bytes taken in two goes. -/
theorem take_split (l : List Nat) (k n : Nat) (h : k ≤ n) :
    l.take k ++ (l.drop k).take (n - k) = l.take n
    ∧ (l.drop k).drop (n - k) = l.drop n := by
  constructor
  · have := @List.take_add _ l k (n - k)
    rw [Nat.add_sub_cancel' h] at this
    exact this.symm
  · rw [List.drop_drop]
    congr 1
    omega

/-- With reads that succeed the first loop of `fs_rpc_read_reply` fills the header with
the next bytes of the connection. -/
theorem fs_rpc_read_reply_header_ok (reads : List Int) :
    ∀ (wire : List Nat) (errno : Int) (buf : List Nat), (∀ r ∈ reads, 0 < r) →
      buf.length ≤ 8 → 8 - buf.length ≤ reads.length → 8 - buf.length ≤ wire.length →
      ∃ reads', reads' <:+ reads ∧ reads.length ≤ reads'.length + (8 - buf.length)
        ∧ fs_rpc_read_reply_header reads wire errno buf
          = some (header_out.header (buf ++ wire.take (8 - buf.length))
              ⟨wire.drop (8 - buf.length), reads', errno⟩) := by
  induction reads with
  | nil =>
    intro wire errno buf _ hb hr _
    simp only [List.length_nil] at hr
    have e : 8 - buf.length = 0 := by omega
    refine ⟨[], List.suffix_refl _, by simp, ?_⟩
    rw [fs_rpc_read_reply_header, if_neg (by omega), e]
    simp
  | cons r reads ih =>
    intro wire errno buf hpos hb hr hw
    by_cases hlt : buf.length < 8
    · obtain ⟨k, hk0, hkn, hk⟩ :=
        sock_read_ok r (8 - buf.length) wire errno (hpos r (List.mem_cons_self _ _))
          (by omega) hw
      simp only [List.length_cons] at hr
      have hkw : k ≤ wire.length := by omega
      have hlen : (buf ++ wire.take k).length = buf.length + k := by
        rw [List.length_append, List.length_take, Nat.min_eq_left hkw]
      obtain ⟨reads', hs, hl, h'⟩ := ih (wire.drop k) errno (buf ++ wire.take k)
        (fun x hx => hpos x (List.mem_cons_of_mem _ hx)) (by rw [hlen]; omega)
        (by rw [hlen]; omega) (by rw [hlen, List.length_drop]; omega)
      rw [hlen] at hl
      refine ⟨reads', hs.trans (List.suffix_cons _ _),
        by simp only [List.length_cons]; omega, ?_⟩
      rw [fs_rpc_read_reply_header, if_pos hlt]
      simp only [hk]
      rw [if_neg (by omega), h', hlen]
      have e : 8 - (buf.length + k) = 8 - buf.length - k := by omega
      obtain ⟨t1, t2⟩ := take_split wire k (8 - buf.length) hkn
      rw [e, List.append_assoc, t1, t2]
    · have e : 8 - buf.length = 0 := by omega
      refine ⟨r :: reads, List.suffix_refl _, by simp, ?_⟩
      rw [fs_rpc_read_reply_header, if_neg hlt, e]
      simp

/-- With reads that succeed the last loop of `fs_rpc_read_reply` takes the next `cnt`
bytes from the connection, and the function returns 0. -/
theorem fs_rpc_read_reply_drain_ok (reads : List Int) :
    ∀ (wire : List Nat) (errno : Int) (cnt : Nat), (∀ r ∈ reads, 0 < r) →
      cnt ≤ reads.length → cnt ≤ wire.length →
      ∃ reads', fs_rpc_read_reply_drain reads wire errno cnt
        = some (0, ⟨wire.drop cnt, reads', errno⟩) := by
  induction reads with
  | nil =>
    intro wire errno cnt _ hr _
    simp only [List.length_nil] at hr
    have e : cnt = 0 := by omega
    subst e
    exact ⟨[], by simp [fs_rpc_read_reply_drain]⟩
  | cons r reads ih =>
    intro wire errno cnt hpos hr hw
    by_cases hc : cnt > 0
    · have hrb : 0 < (if cnt > 256 then 256 else cnt) := by split <;> omega
      have hrw : (if cnt > 256 then 256 else cnt) ≤ wire.length := by split <;> omega
      obtain ⟨k, hk0, hkn, hk⟩ :=
        sock_read_ok r (if cnt > 256 then 256 else cnt) wire errno
          (hpos r (List.mem_cons_self _ _)) hrb hrw
      have hkc : k ≤ cnt := by
        have : (if cnt > 256 then 256 else cnt) ≤ cnt := by split <;> omega
        omega
      simp only [List.length_cons] at hr
      obtain ⟨reads', h'⟩ := ih (wire.drop k) errno (cnt - k)
        (fun x hx => hpos x (List.mem_cons_of_mem _ hx)) (by omega)
        (by rw [List.length_drop]; omega)
      refine ⟨reads', ?_⟩
      rw [fs_rpc_read_reply_drain, if_pos hc]
      simp only [hk]
      rw [if_neg (by omega), Int.toNat_ofNat, h', (take_split wire k cnt hkc).2]
    · have e : cnt = 0 := by omega
      subst e
      exact ⟨r :: reads, by simp [fs_rpc_read_reply_drain]⟩

/-- With reads that succeed the loop of `fs_got_rpc_reply` stores the next `sz` bytes of
the connection and adds `sz` to `ioresult`. -/
theorem fs_got_rpc_reply_loop_ok (reads : List Int) :
    ∀ (wire : List Nat) (errno : Int) (sz : Nat) (got : List Nat) (ioresult : Int),
      (∀ r ∈ reads, 0 < r) → sz ≤ reads.length → sz ≤ wire.length →
      ∃ reads', fs_got_rpc_reply_loop reads wire errno sz got ioresult
        = some (got ++ wire.take sz, ioresult + sz, ⟨wire.drop sz, reads', errno⟩) := by
  induction reads with
  | nil =>
    intro wire errno sz got ioresult _ hr _
    simp only [List.length_nil] at hr
    have e : sz = 0 := by omega
    subst e
    exact ⟨[], by simp [fs_got_rpc_reply_loop]⟩
  | cons r reads ih =>
    intro wire errno sz got ioresult hpos hr hw
    by_cases hc : sz > 0
    · obtain ⟨k, hk0, hkn, hk⟩ :=
        sock_read_ok r sz wire errno (hpos r (List.mem_cons_self _ _)) hc hw
      simp only [List.length_cons] at hr
      obtain ⟨reads', h'⟩ := ih (wire.drop k) errno (sz - k) (got ++ wire.take k)
        (ioresult + k) (fun x hx => hpos x (List.mem_cons_of_mem _ hx)) (by omega)
        (by rw [List.length_drop]; omega)
      refine ⟨reads', ?_⟩
      rw [fs_got_rpc_reply_loop, if_pos hc]
      simp only [hk]
      rw [if_neg (by omega), Int.toNat_ofNat, h']
      obtain ⟨t1, t2⟩ := take_split wire k sz hkn
      rw [List.append_assoc, t1, t2]
      have e : ioresult + (k : Int) + ((sz - k : Nat) : Int) = ioresult + (sz : Int) := by
        omega
      rw [e]
    · have e : sz = 0 := by omega
      subst e
      exact ⟨r :: reads, by simp [fs_got_rpc_reply_loop]⟩

/-- The header of a record as `fs_rpc_read_reply` reads it with reads that succeed: the
record mark without bit 31 and the XID, on a host of either byte order. -/
theorem fs_rpc_read_reply_header_record (le : Bool) (k : sock) (w xid : Nat)
    (tail : List Nat) (hw : w < 2 ^ 32) (hx : xid < 2 ^ 32)
    (hwire : k.wire = be_bytes w ++ be_bytes xid ++ tail)
    (hreads : ∀ r ∈ k.reads, 0 < r) (hlen : 8 ≤ k.reads.length) :
    ∃ buf reads', (∀ r ∈ reads', 0 < r) ∧ k.reads.length ≤ reads'.length + 8
      ∧ fs_rpc_read_reply_header k.reads k.wire k.errno []
        = some (header_out.header buf ⟨tail, reads', k.errno⟩)
      ∧ header_recmark le buf = w % 2 ^ 31 ∧ header_xid le buf = xid := by
  have hl : 8 ≤ k.wire.length := by
    rw [hwire]
    simp [be_bytes]
  obtain ⟨reads', hs, hn, h⟩ :=
    fs_rpc_read_reply_header_ok k.reads k.wire k.errno [] hreads (by simp) (by simpa using hlen)
      (by simpa using hl)
  have ht : k.wire.take 8 = be_bytes w ++ be_bytes xid := by
    rw [hwire]
    simp [be_bytes]
  have hd : k.wire.drop 8 = tail := by
    rw [hwire]
    simp [be_bytes]
  simp only [List.length_nil, Nat.sub_zero, List.nil_append] at h hn
  rw [ht, hd] at h
  refine ⟨_, reads', fun r hr => hreads r (hs.subset hr), hn, h, ?_, ?_⟩
  · have : (be_bytes w ++ be_bytes xid).take 4 = be_bytes w := by simp [be_bytes]
    rw [header_recmark, this, ntohl_host_value le w hw]
  · have : (be_bytes w ++ be_bytes xid).drop 4 = be_bytes xid := by simp [be_bytes]
    rw [header_xid, this, ntohl_host_value le xid hx]

/-- C24. A record of length `mark` at least 4 (the record mark `w` without bit 31) whose
XID is that of no context on the list of pending calls, all reads succeeding:
`fs_rpc_read_reply` returns 0, leaves the list and every context as they are, and takes
exactly `mark + 4` bytes from the connection: the eight bytes of the header and the
`mark - 4` bytes that follow, so that the next read starts at the next record mark. -/
theorem C24_unmatched_record_is_drained (le : Bool) (s : transport) (k : sock)
    (w xid : Nat) (body rest : List Nat) (hw : w < 2 ^ 32) (hx : xid < 2 ^ 32)
    (hm : 4 ≤ w % 2 ^ 31) (hb : body.length = w % 2 ^ 31 - 4)
    (hwire : k.wire = be_bytes w ++ be_bytes xid ++ body ++ rest)
    (hreads : ∀ r ∈ k.reads, 0 < r) (hlen : w % 2 ^ 31 + 4 ≤ k.reads.length)
    (hno : ∀ c ∈ s.rpc_calls, (s.ctx c).rpc_xid ≠ xid) :
    ∃ reads', fs_rpc_read_reply le s k = some (0, s, ⟨rest, reads', k.errno⟩)
      ∧ rest = k.wire.drop (w % 2 ^ 31 + 4) := by
  obtain ⟨buf, reads1, hr1, hl1, hh, hmark, hxid⟩ :=
    fs_rpc_read_reply_header_record le k w xid (body ++ rest) hw hx
      (by rw [hwire, List.append_assoc]) hreads (by omega)
  obtain ⟨reads2, hd⟩ :=
    fs_rpc_read_reply_drain_ok reads1 (body ++ rest) k.errno (w % 2 ^ 31 - 4) hr1
      (by omega) (by rw [List.length_append]; omega)
  have hfind : s.rpc_calls.find? (fun c => (s.ctx c).rpc_xid = xid) = none := by
    rw [List.find?_eq_none]
    intro c hc
    simpa using hno c hc
  refine ⟨reads2, ?_, ?_⟩
  · unfold fs_rpc_read_reply
    simp only [hh, hmark, hxid, hfind, hd]
    rw [← hb, List.drop_left]
  · rw [hwire]
    have : w % 2 ^ 31 + 4 = (be_bytes w ++ be_bytes xid ++ body).length := by
      simp only [List.length_append, hb, be_bytes, List.length_cons, List.length_nil]
      omega
    rw [this, List.drop_left]

/-- The first context of a list with a property that only one context of the list
has. -/
theorem find_unique (p : Nat → Bool) (l : List Nat) (c : Nat) (hc : c ∈ l) (hp : p c = true)
    (hu : ∀ d ∈ l, p d = true → d = c) : l.find? p = some c := by
  induction l with
  | nil => cases hc
  | cons a l ih =>
    by_cases ha : p a = true
    · rw [List.find?_cons_of_pos _ ha, hu a (List.mem_cons_self _ _) ha]
    · rw [List.find?_cons_of_neg _ ha]
      rcases List.mem_cons.mp hc with e | hm
      · subst e
        exact absurd hp ha
      · exact ih hm (fun d hd => hu d (List.mem_cons_of_mem _ hd))

/-- The receive buffer after the four bytes of the XID and the bytes `got` behind them
have been stored. -/
theorem poke_xid_body (buf xb got : List Nat) (hx : xb.length = 4) :
    poke (poke buf 0 xb) 4 got = xb ++ got ++ buf.drop (4 + got.length) := by
  have h1 : poke buf 0 xb = xb ++ buf.drop 4 := by
    simp only [poke, List.take_zero, List.nil_append, Nat.zero_add, hx]
  have h2 : (xb ++ buf.drop 4).take 4 = xb := by
    rw [← hx, List.take_left]
  have h3 : (xb ++ buf.drop 4).drop (4 + got.length) = buf.drop (4 + got.length) := by
    rw [← hx, List.drop_append, List.drop_drop, hx]
  rw [poke, h1, h2, h3]

/-- What `fs_rpc_read_reply` does with the reply to a pending call. A record of length
`mark` (the record mark `w` without bit 31) with `4 ≤ mark ≤ recvbuf_sz` whose XID is
that of the pending context `c`, all reads succeeding: `fs_rpc_read_reply` returns
`mark`, takes `c` off the list, sets its `iodone` to 1 and its `ioresult` to `mark`, and
leaves in its receive buffer the XID as the host stores a 32-bit number (on a
big-endian host the four bytes as they arrived, on a little-endian host the same bytes
in reverse order), followed by the `mark - 4` bytes after the XID as they arrived; the
rest of the buffer, the other members of the context and all other contexts are
unchanged, and the connection is left at the next record mark. -/
theorem fs_rpc_read_reply_matched (le : Bool) (s : transport) (k : sock) (c : Nat)
    (w xid : Nat) (body rest : List Nat) (hw : w < 2 ^ 32) (hx : xid < 2 ^ 32)
    (hm : 4 ≤ w % 2 ^ 31) (hsz : w % 2 ^ 31 ≤ (s.ctx c).recvbuf_sz)
    (hb : body.length = w % 2 ^ 31 - 4)
    (hwire : k.wire = be_bytes w ++ be_bytes xid ++ body ++ rest)
    (hreads : ∀ r ∈ k.reads, 0 < r) (hlen : w % 2 ^ 31 + 4 ≤ k.reads.length)
    (hc : c ∈ s.rpc_calls) (hcx : (s.ctx c).rpc_xid = xid)
    (hu : ∀ d ∈ s.rpc_calls, (s.ctx d).rpc_xid = xid → d = c) :
    (∃ reads', fs_rpc_read_reply le s k
      = some (((w % 2 ^ 31 : Nat) : Int),
          { s with
            rpc_calls := s.rpc_calls.erase c
            ctx := Function.update s.ctx c
              { s.ctx c with
                iodone := 1
                ioresult := ((w % 2 ^ 31 : Nat) : Int)
                recvbuf := host_bytes le xid ++ body
                  ++ (s.ctx c).recvbuf.drop (w % 2 ^ 31) } },
          ⟨rest, reads', k.errno⟩))
    ∧ host_bytes le xid = (if le then (be_bytes xid).reverse else be_bytes xid) := by
  refine ⟨?_, rfl⟩
  obtain ⟨buf, reads1, hr1, hl1, hh, hmark, hxid⟩ :=
    fs_rpc_read_reply_header_record le k w xid (body ++ rest) hw hx
      (by rw [hwire, List.append_assoc]) hreads (by omega)
  obtain ⟨reads2, hd⟩ :=
    fs_got_rpc_reply_loop_ok reads1 (body ++ rest) k.errno (w % 2 ^ 31 - 4) [] 4 hr1
      (by omega) (by rw [List.length_append]; omega)
  have hfind : s.rpc_calls.find? (fun d => (s.ctx d).rpc_xid = xid) = some c :=
    find_unique _ _ c hc (by simpa using hcx) (fun d hd hp => hu d hd (by simpa using hp))
  have hxb : (host_bytes le xid).length = 4 := by cases le <;> rfl
  refine ⟨reads2, ?_⟩
  unfold fs_rpc_read_reply
  simp only [hh, hmark, hxid, hfind]
  unfold fs_got_rpc_reply
  simp only [gt_iff_lt, not_lt.mpr hsz, if_false, (by omega : ¬ (s.ctx c).recvbuf_sz < 4), hd]
  rw [← hb, List.take_left, List.drop_left, List.nil_append, poke_xid_body _ _ _ hxb]
  have e1 : 4 + (w % 2 ^ 31 - 4) = w % 2 ^ 31 := by omega
  have e2 : (4 : Int) + ((w % 2 ^ 31 - 4 : Nat) : Int) = ((w % 2 ^ 31 : Nat) : Int) := by
    omega
  rw [if_neg (by omega), hb, e1, e2]

/-- C23. On a little-endian host the reply to the pending call with XID 16909060
arrives as the bytes 1, 2, 3, 4, 9, 8, 7, 6 behind the record mark.
`fs_rpc_read_reply` returns 8, takes context 0 off the list and sets `iodone = 1`,
`ioresult = 8`, but the first eight bytes of the receive buffer are 4, 3, 2, 1, 9, 8,
7, 6: the XID is stored in the byte order of the host, not as it arrived (on a
big-endian host the buffer holds 1, 2, 3, 4, 9, 8, 7, 6). Read most significant byte
first, as the decoder of `fs_process_reply` reads them, the four bytes stand for
67305985, not for the XID. -/
theorem C23_xid_stored_in_host_order :
    one_pending.rpc_calls = [0]
    ∧ (one_pending.ctx 0).rpc_xid = 16909060
    ∧ (reply_sock.wire.drop 4).take 8 = [1, 2, 3, 4, 9, 8, 7, 6]
    ∧ (fs_rpc_read_reply true one_pending reply_sock).map (fun r => r.1) = some 8
    ∧ (fs_rpc_read_reply true one_pending reply_sock).map (fun r => r.2.1.rpc_calls)
      = some []
    ∧ (fs_rpc_read_reply true one_pending reply_sock).map
        (fun r => ((r.2.1.ctx 0).iodone, (r.2.1.ctx 0).ioresult)) = some (1, 8)
    ∧ (fs_rpc_read_reply true one_pending reply_sock).map
        (fun r => (r.2.1.ctx 0).recvbuf.take 8) = some [4, 3, 2, 1, 9, 8, 7, 6]
    ∧ (fs_rpc_read_reply true one_pending reply_sock).map (fun r => r.2.2.wire)
      = some [128]
    ∧ [4, 3, 2, 1, 9, 8, 7, 6] ≠ [1, 2, 3, 4, 9, 8, 7, 6]
    ∧ (fs_rpc_read_reply false one_pending reply_sock).map
        (fun r => (r.2.1.ctx 0).recvbuf.take 8) = some [1, 2, 3, 4, 9, 8, 7, 6]
    ∧ be_value [4, 3, 2, 1] = 67305985
    ∧ be_value [1, 2, 3, 4] = 16909060 := by
  decide

/-- The reply to the call pending in `one_pending`, on a little-endian host. -/
theorem fs_rpc_read_reply_matched_example :
    (∃ reads', fs_rpc_read_reply true one_pending reply_sock
      = some (((2147483656 % 2 ^ 31 : Nat) : Int),
          { one_pending with
            rpc_calls := one_pending.rpc_calls.erase 0
            ctx := Function.update one_pending.ctx 0
              { one_pending.ctx 0 with
                iodone := 1
                ioresult := ((2147483656 % 2 ^ 31 : Nat) : Int)
                recvbuf := host_bytes true 16909060 ++ [9, 8, 7, 6]
                  ++ (one_pending.ctx 0).recvbuf.drop (2147483656 % 2 ^ 31) } },
          ⟨[128], reads', reply_sock.errno⟩))
    ∧ host_bytes true 16909060
      = (if true then (be_bytes 16909060).reverse else be_bytes 16909060) :=
  fs_rpc_read_reply_matched true one_pending reply_sock 0 2147483656 16909060
    [9, 8, 7, 6] [128] (by decide) (by decide) (by decide) (by decide) (by decide)
    (by decide) (by decide) (by decide) (by decide) (by decide) (by decide)

/-- C24 (witness): a record with an XID no call is waiting for, one call pending. -/
theorem C24_unmatched_record_is_drained_witness :
    ∃ reads', fs_rpc_read_reply true one_pending stray_sock
        = some (0, one_pending, ⟨[128], reads', stray_sock.errno⟩)
      ∧ [128] = stray_sock.wire.drop (2147483656 % 2 ^ 31 + 4) :=
  C24_unmatched_record_is_drained true one_pending stray_sock 2147483656 16909061
    [9, 8, 7, 6] [128] (by decide) (by decide) (by decide) (by decide) (by decide)
    (by decide) (by decide) (by decide)

/-! ## Statements on the record `fs_compoundv4_call` sends -/

/-- A length below 2^31 with bit 31 set. -/
theorem or_bit31 (pos : Nat) (h : pos < 2 ^ 31) : pos ||| 2 ^ 31 = pos + 2 ^ 31 := by
  have := Nat.mul_add_lt_is_or h 1
  rw [Nat.mul_one] at this
  rw [Nat.lor_comm, ← this, Nat.add_comm]

/-- The memory after the encoding has been stored at offset 4 and the record mark at
offset 0. -/
theorem poke_mark_payload (mem mark msg : List Nat) (hm : mark.length = 4)
    (hl : 4 ≤ mem.length) :
    poke (poke mem 4 msg) 0 mark = mark ++ msg ++ mem.drop (4 + msg.length) := by
  have h4 : (mem.take 4).length = 4 := by
    rw [List.length_take]
    omega
  simp only [poke, List.take_zero, List.nil_append, Nat.zero_add, hm]
  rw [List.append_assoc (mem.take 4), List.drop_left' h4, List.append_assoc]

/-- What the part of `fs_compoundv4_call` before the send loop leaves for an encoding the
stream accepts: the record mark and the encoding at the start of the memory of the
context. -/
theorem fs_compoundv4_call_frame_ok (le : Bool) (ctx : fs_rpc_io_context) (rm_xid : Nat)
    (msg : List Nat) (hs : ctx.sendbuf.length = ctx.sendbuf_sz) (hpos : msg.length < 2 ^ 31)
    (henc : msg.length ≤ ctx.sendbuf_sz)
    (hmem : msg.length + 4 ≤ ctx.sendbuf_sz + ctx.recvbuf.length) :
    fs_compoundv4_call_frame le ctx rm_xid msg
      = some (frame_out.framed
          { ctx with
            rpc_xid := rm_xid
            sendbuf := (be_bytes (msg.length ||| 2 ^ 31) ++ msg
              ++ (ctx.sendbuf ++ ctx.recvbuf).drop (4 + msg.length)).take ctx.sendbuf_sz
            recvbuf := (be_bytes (msg.length ||| 2 ^ 31) ++ msg
              ++ (ctx.sendbuf ++ ctx.recvbuf).drop (4 + msg.length)).drop ctx.sendbuf_sz }
          (msg.length + 4) (be_bytes (msg.length ||| 2 ^ 31) ++ msg)) := by
  have hor := or_bit31 msg.length hpos
  have hlt : msg.length ||| 2 ^ 31 < 2 ^ 32 := by omega
  have hml : (ctx.sendbuf ++ ctx.recvbuf).length = ctx.sendbuf_sz + ctx.recvbuf.length := by
    rw [List.length_append, hs]
  have e1 : msg.length % 2 ^ 32 = msg.length := Nat.mod_eq_of_lt (by omega)
  have e2 : (msg.length ||| 2 ^ 31) % 2 ^ 32 = msg.length ||| 2 ^ 31 :=
    Nat.mod_eq_of_lt hlt
  have e3 : (msg.length + 4) % 2 ^ 32 = msg.length + 4 := Nat.mod_eq_of_lt (by omega)
  have hb4 : (be_bytes (msg.length ||| 2 ^ 31)).length = 4 := rfl
  have hmem1 := poke_mark_payload (ctx.sendbuf ++ ctx.recvbuf)
    (be_bytes (msg.length ||| 2 ^ 31)) msg hb4 (by omega)
  have hl : (be_bytes (msg.length ||| 2 ^ 31) ++ msg).length = msg.length + 4 := by
    rw [List.length_append, hb4]
    omega
  unfold fs_compoundv4_call_frame xdrmem_encode
  simp only [henc, if_true, gt_iff_lt, hml, e1, e2, e3, host_bytes_ntohl le _ hlt]
  rw [if_neg (by omega), hmem1, List.take_left' hl]

/-- C29. A call whose encoding has exactly `sendbuf_sz` bytes is encoded successfully,
since the stream of `sendbuf_sz` bytes starts at offset 4 of the send buffer: the record
then has `sendbuf_sz + 4` bytes, more than the send buffer, and its last four bytes are
stored in the first four bytes of the receive buffer. With buffers of 8 bytes and the
encoding 1, ..., 8: the record has 12 bytes and the receive buffer starts with 5, 6, 7,
8. -/
theorem C29_record_reaches_into_recvbuf :
    (fs_compoundv4_call_frame true small_ctx 7 [1, 2, 3, 4, 5, 6, 7, 8]
      = some (frame_out.framed
          { small_ctx with
            rpc_xid := 7
            sendbuf := [128, 0, 0, 8, 1, 2, 3, 4]
            recvbuf := [5, 6, 7, 8, 0, 0, 0, 0] }
          12 [128, 0, 0, 8, 1, 2, 3, 4, 5, 6, 7, 8])
      ∧ ¬ (12 ≤ small_ctx.sendbuf_sz)
      ∧ small_ctx.sendbuf.length = small_ctx.sendbuf_sz
      ∧ small_ctx.recvbuf.length = small_ctx.recvbuf_sz
      ∧ fs_compoundv4_call_frame false small_ctx 7 [1, 2, 3, 4, 5, 6, 7, 8]
        = fs_compoundv4_call_frame true small_ctx 7 [1, 2, 3, 4, 5, 6, 7, 8])
    ∧ (∀ (le : Bool) (ctx : fs_rpc_io_context) (rm_xid : Nat) (msg : List Nat),
        ctx.sendbuf.length = ctx.sendbuf_sz → msg.length = ctx.sendbuf_sz →
        4 ≤ msg.length → msg.length < 2 ^ 31 → 4 ≤ ctx.recvbuf.length →
        ∃ ctx', fs_compoundv4_call_frame le ctx rm_xid msg
            = some (frame_out.framed ctx' (ctx.sendbuf_sz + 4)
                (be_bytes (msg.length ||| 2 ^ 31) ++ msg))
          ∧ ¬ (ctx.sendbuf_sz + 4 ≤ ctx.sendbuf_sz)
          ∧ ctx'.recvbuf.take 4 = msg.drop (msg.length - 4)) := by
  refine ⟨by decide, fun le ctx rm_xid msg hs hlen h4 hpos hr => ?_⟩
  have hf := fs_compoundv4_call_frame_ok le ctx rm_xid msg hs hpos (by omega) (by omega)
  rw [← hlen]
  refine ⟨_, hf, by omega, ?_⟩
  have hb4 : (be_bytes (msg.length ||| 2 ^ 31)).length = 4 := rfl
  have hd : (be_bytes (msg.length ||| 2 ^ 31) ++ msg).drop msg.length
      = msg.drop (msg.length - 4) := by
    have h := @List.drop_append _ (be_bytes (msg.length ||| 2 ^ 31)) msg (msg.length - 4)
    rwa [hb4, Nat.add_sub_cancel' h4] at h
  have hdl : (msg.drop (msg.length - 4)).length = 4 := by
    rw [List.length_drop]
    omega
  simp only
  rw [← hlen, List.drop_append_of_le_length (by rw [List.length_append, hb4]; omega), hd,
    List.take_left' hdl]

/-- C25. For every call whose encoding `msg` has `pos < 2^31` bytes and is encoded
successfully, `fs_compoundv4_call` stores the encoding at offset 4 of the send buffer
and, in the bytes 0 to 3, `pos` with bit 31 set, most significant byte first, on a host
of either byte order; it hands `pos + 4` bytes to `write`; and the header decoding of
`fs_rpc_read_reply` (`ntohl`, then bit 31 cleared) gives `pos` again for these four
bytes. -/
theorem C25_record_mark_round_trip (le : Bool) (ctx : fs_rpc_io_context) (rm_xid : Nat)
    (msg : List Nat) (hs : ctx.sendbuf.length = ctx.sendbuf_sz) (hpos : msg.length < 2 ^ 31)
    (henc : msg.length ≤ ctx.sendbuf_sz)
    (hmem : msg.length + 4 ≤ ctx.sendbuf_sz + ctx.recvbuf.length) :
    (∃ ctx', fs_compoundv4_call_frame le ctx rm_xid msg
        = some (frame_out.framed ctx' (msg.length + 4)
            (be_bytes (msg.length ||| 2 ^ 31) ++ msg))
      ∧ (ctx'.sendbuf ++ ctx'.recvbuf).take 4 = be_bytes (msg.length ||| 2 ^ 31)
      ∧ ((ctx'.sendbuf ++ ctx'.recvbuf).drop 4).take msg.length = msg
      ∧ ctx'.rpc_xid = rm_xid)
    ∧ (∀ le' tail, header_recmark le' (be_bytes (msg.length ||| 2 ^ 31) ++ tail)
        = msg.length) := by
  have hor := or_bit31 msg.length hpos
  have hlt : msg.length ||| 2 ^ 31 < 2 ^ 32 := by omega
  constructor
  · have hb4 : (be_bytes (msg.length ||| 2 ^ 31)).length = 4 := rfl
    have hframe := fs_compoundv4_call_frame_ok le ctx rm_xid msg hs hpos henc hmem
    refine ⟨_, hframe, ?_, ?_, rfl⟩
    · simp only [List.take_append_drop]
      rw [List.append_assoc, List.take_left' hb4]
    · simp only [List.take_append_drop]
      rw [List.append_assoc, List.drop_left' hb4, List.take_left]
  · intro le' tail
    have : (be_bytes (msg.length ||| 2 ^ 31) ++ tail).take 4
        = be_bytes (msg.length ||| 2 ^ 31) := by
      simp [be_bytes]
    rw [header_recmark, this, ntohl_host_value le' _ hlt, hor]
    omega

/-- C25 (witness): an encoding of four bytes in buffers of 8 bytes, on a little-endian
host. -/
theorem C25_record_mark_round_trip_witness :
    (∃ ctx', fs_compoundv4_call_frame true small_ctx 7 [1, 2, 3, 4]
        = some (frame_out.framed ctx' ([1, 2, 3, 4].length + 4)
            (be_bytes ([1, 2, 3, 4].length ||| 2 ^ 31) ++ [1, 2, 3, 4]))
      ∧ (ctx'.sendbuf ++ ctx'.recvbuf).take 4 = be_bytes ([1, 2, 3, 4].length ||| 2 ^ 31)
      ∧ ((ctx'.sendbuf ++ ctx'.recvbuf).drop 4).take [1, 2, 3, 4].length = [1, 2, 3, 4]
      ∧ ctx'.rpc_xid = 7)
    ∧ (∀ le' tail, header_recmark le' (be_bytes ([1, 2, 3, 4].length ||| 2 ^ 31) ++ tail)
        = [1, 2, 3, 4].length) :=
  C25_record_mark_round_trip true small_ctx 7 [1, 2, 3, 4] (by decide) (by decide)
    (by decide) (by decide)

/-! ## Statements on the client id -/

/-- What `fs_setclientid` does, case by case. -/
theorem fs_setclientid_spec (exec : Executor) (calls : List (List nfs_argop4))
    (inp : setclientid_input) (resultclientid lease_time : Nat) (o : setclientid_out)
    (h : fs_setclientid exec calls inp resultclientid lease_time = some o) :
    (o.ret ≠ 0 ∧ o.resultclientid = resultclientid ∧ o.lease_time = lease_time
      ∧ ∃ more, o.calls = calls ++ more)
    ∨ (∃ sok, inp.getsockname_errno = 0
      ∧ (exec calls (setclientid_ops inp)).rc = NFS4_OK
      ∧ (exec calls (setclientid_ops inp)).resoparray.get? 0 = some sok
      ∧ (exec (calls ++ [setclientid_ops inp])
          [SETCLIENTID_CONFIRM sok.clientid sok.setclientid_confirm]).rc = NFS4_OK
      ∧ o = ⟨0, sok.clientid, 60, calls ++ [setclientid_ops inp]
          ++ [[SETCLIENTID_CONFIRM sok.clientid sok.setclientid_confirm]]⟩) := by
  unfold fs_setclientid at h
  simp only at h
  split at h
  · rename_i he
    simp only [Option.some.injEq] at h
    subst h
    exact Or.inl ⟨by simpa using he, rfl, rfl, [], by simp⟩
  · rename_i he
    split at h
    · simp only [Option.some.injEq] at h
      subst h
      exact Or.inl ⟨show (-1 : Int) ≠ 0 by decide, rfl, rfl, _, rfl⟩
    · rename_i hrc
      split at h
      · exact absurd h (by simp)
      · rename_i sok hsok
        split at h
        · simp only [Option.some.injEq] at h
          subst h
          exact Or.inl ⟨show (-1 : Int) ≠ 0 by decide, rfl, rfl, _,
            by rw [List.append_assoc]⟩
        · rename_i hrc1
          simp only [Option.some.injEq] at h
          subst h
          exact Or.inr ⟨sok, by simpa using he, by simpa using hrc, hsok,
            by simpa using hrc1, rfl⟩

/-- What the exchange of `fs_setclientid` gives when both compounds succeed. -/
theorem fs_setclientid_ok (exec : Executor) (calls : List (List nfs_argop4))
    (inp : setclientid_input) (resultclientid lease_time : Nat) (sok : nfs_resop4)
    (h0 : inp.getsockname_errno = 0)
    (h1 : (exec calls (setclientid_ops inp)).rc = NFS4_OK)
    (h2 : (exec calls (setclientid_ops inp)).resoparray.get? 0 = some sok)
    (h3 : (exec (calls ++ [setclientid_ops inp])
      [SETCLIENTID_CONFIRM sok.clientid sok.setclientid_confirm]).rc = NFS4_OK) :
    fs_setclientid exec calls inp resultclientid lease_time
      = some ⟨0, sok.clientid, 60, calls ++ [setclientid_ops inp]
          ++ [[SETCLIENTID_CONFIRM sok.clientid sok.setclientid_confirm]]⟩ := by
  simp only [setclientid_ops] at h1 h2 h3
  simp only [fs_setclientid, h0, ne_eq, not_true_eq_false, if_false, h1, h2, h3,
    setclientid_ops]

/-- A step changes the stored client id only by a successful exchange, and keeps it zero
or confirmed. -/
theorem clientid_step_spec (exec : Executor) (a : clientid_action) (s s' : clientid_state)
    (h : clientid_step exec a s = some s') :
    (∃ more, s'.calls = s.calls ++ more)
    ∧ (s'.fs_clientid = s.fs_clientid
      ∨ ∃ inp sok, a = clientid_action.negotiate inp
        ∧ inp.getsockname_errno = 0
        ∧ (exec s.calls (setclientid_ops inp)).rc = NFS4_OK
        ∧ (exec s.calls (setclientid_ops inp)).resoparray.get? 0 = some sok
        ∧ (exec (s.calls ++ [setclientid_ops inp])
            [SETCLIENTID_CONFIRM sok.clientid sok.setclientid_confirm]).rc = NFS4_OK
        ∧ s'.fs_clientid = sok.clientid
        ∧ s'.calls = s.calls ++ [setclientid_ops inp]
            ++ [[SETCLIENTID_CONFIRM sok.clientid sok.setclientid_confirm]]) := by
  cases a with
  | sock_closed =>
    simp only [clientid_step, Option.some.injEq] at h
    subst h
    exact ⟨⟨[], by simp⟩, Or.inl rfl⟩
  | connected sock =>
    simp only [clientid_step, Option.some.injEq] at h
    subst h
    exact ⟨⟨[], by simp⟩, Or.inl rfl⟩
  | renew timed_out =>
    simp only [clientid_step] at h
    split at h
    · split at h <;>
        (simp only [Option.some.injEq] at h
         subst h
         exact ⟨⟨_, rfl⟩, Or.inl rfl⟩)
    · simp only [Option.some.injEq] at h
      subst h
      exact ⟨⟨[], by simp⟩, Or.inl rfl⟩
  | negotiate inp =>
    simp only [clientid_step] at h
    split at h
    · exact absurd h (by simp)
    · rename_i o ho
      simp only [Option.some.injEq] at h
      subst h
      rcases fs_setclientid_spec exec s.calls inp 0 s.lease_time o ho with
        ⟨hne, _, _, more, hm⟩ | ⟨sok, h0, h1, h2, h3, ho'⟩
      · exact ⟨⟨more, hm⟩, Or.inl (by simp only [hne, if_false])⟩
      · subst ho'
        exact ⟨⟨_, by simp only [List.append_assoc]; rfl⟩,
          Or.inr ⟨inp, sok, rfl, h0, h1, h2, h3, rfl, rfl⟩⟩

/-- Every step keeps the stored client id zero or confirmed. -/
theorem clientid_confirmed_step (exec : Executor) (a : clientid_action)
    (s s' : clientid_state) (h : clientid_step exec a s = some s')
    (hs : clientid_confirmed s) : clientid_confirmed s' := by
  obtain ⟨⟨more, hm⟩, hid⟩ := clientid_step_spec exec a s s' h
  rcases hid with e | ⟨inp, sok, _, _, _, _, _, e, hc⟩
  · rcases hs with h0 | ⟨v, hv⟩
    · exact Or.inl (by rw [e, h0])
    · exact Or.inr ⟨v, by rw [e, hm]; exact List.mem_append_left _ hv⟩
  · exact Or.inr ⟨sok.setclientid_confirm, by rw [e, hc]; simp⟩

/-- In every state of a run from program start the stored client id is zero or
confirmed. -/
theorem clientid_confirmed_run (exec : Executor) (as : List clientid_action) :
    ∀ s s', clientid_confirmed s → clientid_run exec as s = some s' →
      clientid_confirmed s' := by
  induction as with
  | nil =>
    intro s s' hs h
    simp only [clientid_run, Option.some.injEq] at h
    subst h
    exact hs
  | cons a as ih =>
    intro s s' hs h
    simp only [clientid_run] at h
    split at h
    · split at h
      · exact absurd h (by simp)
      · rename_i s1 h1
        exact ih s1 s' (clientid_confirmed_step exec a s s1 h1 hs) h
    · exact absurd h (by simp)

/-- C26 (counterexample): the connection is made, the lease keeper negotiates the
client id 77, and the connection is dropped: `rpc_sock` is -1 and the stored client id
is still 77, not zero. -/
theorem C26_clientid_kept_after_drop :
    (clientid_run exec_clientid (dropped_steps.take 3) clientid_init).map
        (fun s => (s.fs_clientid, s.rpc_sock)) = some (77, 5)
    ∧ dropped_steps.drop 3 = [clientid_action.sock_closed]
    ∧ (clientid_run exec_clientid dropped_steps clientid_init).map
        (fun s => (s.fs_clientid, s.rpc_sock)) = some (77, -1)
    ∧ (77 : Nat) ≠ 0 := by
  decide

/-- C26 (amended). The stored client id is zero at program start. A step of the
receiving thread (the connection dropped, the connection made) and a RENEW of the lease
keeper leave it as it is: dropping the connection does not reset it. It changes only
when an exchange of `fs_setclientid` succeeds (SETCLIENTID, then SETCLIENTID_CONFIRM
with the id and verifier of the SETCLIENTID result, both answered with `NFS4_OK`), and
then it becomes the id the server granted; such an exchange always stores the id. In
every state reached from program start it is therefore zero or an id that was
confirmed. -/
theorem C26_clientid_changes_by_exchange_only (exec : Executor) :
    clientid_init.fs_clientid = 0
    ∧ (∀ s s', clientid_step exec clientid_action.sock_closed s = some s' →
        s'.fs_clientid = s.fs_clientid ∧ s'.rpc_sock = -1)
    ∧ (∀ s, ∃ s', clientid_step exec clientid_action.sock_closed s = some s')
    ∧ (∀ a s s', clientid_step exec a s = some s' →
        s'.fs_clientid = s.fs_clientid
        ∨ ∃ inp sok, a = clientid_action.negotiate inp
          ∧ inp.getsockname_errno = 0
          ∧ (exec s.calls (setclientid_ops inp)).rc = NFS4_OK
          ∧ (exec s.calls (setclientid_ops inp)).resoparray.get? 0 = some sok
          ∧ (exec (s.calls ++ [setclientid_ops inp])
              [SETCLIENTID_CONFIRM sok.clientid sok.setclientid_confirm]).rc = NFS4_OK
          ∧ s'.fs_clientid = sok.clientid)
    ∧ (∀ inp s sok, inp.getsockname_errno = 0 →
        (exec s.calls (setclientid_ops inp)).rc = NFS4_OK →
        (exec s.calls (setclientid_ops inp)).resoparray.get? 0 = some sok →
        (exec (s.calls ++ [setclientid_ops inp])
          [SETCLIENTID_CONFIRM sok.clientid sok.setclientid_confirm]).rc = NFS4_OK →
        ∃ s', clientid_step exec (clientid_action.negotiate inp) s = some s'
          ∧ s'.fs_clientid = sok.clientid ∧ s'.needed = 0)
    ∧ (∀ as s, clientid_run exec as clientid_init = some s →
        s.fs_clientid = 0 ∨ ∃ v, [SETCLIENTID_CONFIRM s.fs_clientid v] ∈ s.calls) := by
  refine ⟨rfl, fun s s' h => ?_, fun s => ⟨_, rfl⟩, fun a s s' h => ?_,
    fun inp s sok h0 h1 h2 h3 => ?_, fun as s h => ?_⟩
  · simp only [clientid_step, Option.some.injEq] at h
    subst h
    exact ⟨rfl, rfl⟩
  · rcases (clientid_step_spec exec a s s' h).2 with e | ⟨inp, sok, ha, h0, h1, h2, h3, e, _⟩
    · exact Or.inl e
    · exact Or.inr ⟨inp, sok, ha, h0, h1, h2, h3, e⟩
  · have e : clientid_step exec (clientid_action.negotiate inp) s
        = some { s with
            needed := 0
            lease_time := 60
            calls := s.calls ++ [setclientid_ops inp]
              ++ [[SETCLIENTID_CONFIRM sok.clientid sok.setclientid_confirm]]
            need_sock := false
            fs_clientid := sok.clientid } := by
      simp only [clientid_step,
        fs_setclientid_ok exec s.calls inp 0 s.lease_time sok h0 h1 h2 h3, if_true]
    exact ⟨_, e, rfl, rfl⟩
  · exact clientid_confirmed_run exec as clientid_init s (Or.inl rfl) h

/-! ## Statements on the compound `ktcread` sends -/

/-- The owners the encoder reads for the OPEN operations of an array: for each, as many
bytes of the dead buffer as the owner string had. -/
theorem open_owners_encoded (stack : List Char) (ops : List nfs_argop4) :
    open_owners (ops.map (nfs_argop4.encoded stack))
      = (open_owners ops).map (fun owner => stack.take owner.length) := by
  induction ops with
  | nil => rfl
  | cons o ops ih =>
    cases o <;> simp [open_owners, nfs_argop4.encoded, ih]

/-- C28. The two-file batch `/a/b`, `/a/c`: `do_ktcread` (`do_ktcwrite`) makes the owner
strings of the two OPEN operations from the counter values 1 and 2, and they differ
while the calls run. But the slots hold the address of the local array `owner_val`, and
`ktcread` (`ktcwrite`) encodes the array after both calls have returned: whatever the
memory at that address holds then, the encoder reads the same 25 bytes for both OPEN
operations, so the two operations are sent with the same owner (the string of the
second call for both, if the memory still holds it). -/
theorem C28_batch_owners_alias :
    (ktcread env0 exec_ok [] (two_files.map path_item.kargs) (-1) 0).map
        (fun r => r.calls.map open_owners)
      = some [[owner_string 4242 1, owner_string 4242 2]]
    ∧ (ktcwrite env0 exec_ok [] (two_files.map path_item.kargs) (-1) 0).map
        (fun r => r.calls.map open_owners)
      = some [[owner_string 4242 1, owner_string 4242 2]]
    ∧ owner_string 4242 1 ≠ owner_string 4242 2
    ∧ (owner_string 4242 1).length = 25 ∧ (owner_string 4242 2).length = 25
    ∧ (∀ stack : List Char,
        (ktcread env0 exec_ok [] (two_files.map path_item.kargs) (-1) 0).map
            (fun r => r.calls.map (fun ops => open_owners (ops.map (nfs_argop4.encoded stack))))
          = some [[stack.take 25, stack.take 25]])
    ∧ (∀ stack : List Char,
        (ktcwrite env0 exec_ok [] (two_files.map path_item.kargs) (-1) 0).map
            (fun r => r.calls.map (fun ops => open_owners (ops.map (nfs_argop4.encoded stack))))
          = some [[stack.take 25, stack.take 25]])
    ∧ (owner_string 4242 2).take 25 = owner_string 4242 2 := by
  have hr : (ktcread env0 exec_ok [] (two_files.map path_item.kargs) (-1) 0).map
        (fun r => r.calls.map open_owners)
      = some [[owner_string 4242 1, owner_string 4242 2]] := by decide
  have hw : (ktcwrite env0 exec_ok [] (two_files.map path_item.kargs) (-1) 0).map
        (fun r => r.calls.map open_owners)
      = some [[owner_string 4242 1, owner_string 4242 2]] := by decide
  have h1 : (owner_string 4242 1).length = 25 := by decide
  have h2 : (owner_string 4242 2).length = 25 := by decide
  refine ⟨hr, hw, by decide, h1, h2, fun stack => ?_, fun stack => ?_, by decide⟩
  · cases h : ktcread env0 exec_ok [] (two_files.map path_item.kargs) (-1) 0 with
    | none => rw [h] at hr; exact absurd hr (by simp)
    | some r =>
      rw [h] at hr
      simp only [Option.map_some', Option.some.injEq] at hr ⊢
      simp only [open_owners_encoded]
      have e : r.calls.map
            (fun ops => (open_owners ops).map (fun owner => stack.take owner.length))
          = (r.calls.map open_owners).map
            (List.map (fun owner => stack.take owner.length)) := by
        rw [List.map_map]
        rfl
      rw [e, hr]
      simp only [List.map_cons, List.map_nil, h1, h2]
  · cases h : ktcwrite env0 exec_ok [] (two_files.map path_item.kargs) (-1) 0 with
    | none => rw [h] at hw; exact absurd hw (by simp)
    | some r =>
      rw [h] at hw
      simp only [Option.map_some', Option.some.injEq] at hw ⊢
      simp only [open_owners_encoded]
      have e : r.calls.map
            (fun ops => (open_owners ops).map (fun owner => stack.take owner.length))
          = (r.calls.map open_owners).map
            (List.map (fun owner => stack.take owner.length)) := by
        rw [List.map_map]
        rfl
      rw [e, hw]
      simp only [List.map_cons, List.map_nil, h1, h2]

end TxnCompound
